import Mathlib

/-!
# JoyOfPainting: the tag codec and the paint document model

A shallow embedding of `src/js/nbt-parser.js` (classes `NBTParser`, `NBTWriter`) and of the
pure parts of `src/js/jop-converter.js` (class `JopConverter`).

Conventions of the embedding.

* A JavaScript value is a `JSValue`.  Integral numbers are `num i` with `i : Int`;
  numbers that are not integers (`NaN` and the infinities included) are `frac bits`,
  carried by their IEEE-754 binary64 bit pattern.  Negative zero is `num 0`.
* A JavaScript string is a Lean `String` (a sequence of Unicode scalar values), so only
  well-formed strings are described: a string with an unpaired surrogate, which
  `TextEncoder` writes as U+FFFD, is outside the model.  Where the program counts UTF-16
  code units (`substring` in `paintToImage`), the code units are those of `utf16`.
* A plain object is `obj fields`, where `fields` is what `Object.entries` returns for it:
  its own enumerable properties in property order.  An assignment cannot create an own
  property named `__proto__`; an entry of that name records instead the plain object
  that an assignment to `__proto__` installed as the prototype, and is skipped where the
  program enumerates the entries.  (An own property of that name, which only
  `Object.defineProperty` or `JSON.parse` creates, is outside the model.)
* A `Uint8Array` is a `List Nat` of entries below 256; the constructor reduces modulo 256.
* Offsets are `Int`: `readByteArray` adds a signed length to the offset, so it can move
  backwards and below zero.  The buffer of a parser never changes, so the reader
  methods are functions of the buffer and the offset.
* The reader can loop for ever; every recursive reader takes a fuel argument and answers
  `Outcome.outOfFuel` when it is exhausted.
* `Outcome.unmodelled` marks the places where the JavaScript engine would apply a
  coercion that this development does not describe (for instance `ToNumber` of a string).
* The browser is a parameter or a small model: a canvas is its size and its RGBA bytes
  (`Canvas`), the image drawn by `drawImage` and read by `getImageData` is a function
  argument (`raster`, `sections`), and `Date.now()` is the argument `now` or the
  sequence of readings `clock`.  The scale of `paintToImage` and the grid of
  `splitImageToMultiCanvas` are integers.
-/

namespace JoyOfPainting

/-! ## JavaScript values -/

/-- A JavaScript value, as far as the codec produces or consumes it. -/
inductive JSValue where
  | undefined
  | null
  | num (i : Int)
  | frac (bits : Nat)
  | str (s : String)
  | arr (xs : List JSValue)
  | u8 (bytes : List Nat)
  | obj (fields : List (String × JSValue))
  deriving Repr, Inhabited

/-- The exceptions the modelled code can raise. -/
inductive JSError where
  /-- `new Error("Unknown tag type: " + type)`; `none` is the type `undefined`. -/
  | unknownTagType (type : Option Nat)
  /-- A `TypeError` raised by the engine (property of `undefined`, call of a non-function,
  iteration of a non-iterable). -/
  | typeError
  /-- `new Error("Failed to parse .paint file: " + error.message)`. -/
  | parseFailed (cause : JSError)
  /-- `new Error("Unknown canvas type: " + canvasType)`. -/
  | unknownCanvasType (canvasType : JSValue)
  /-- The `DOMException` named `IndexSizeError` that the browser raises for an image of
  width or height 0. -/
  | indexSizeError
  deriving Repr, Inhabited

/-- The result of running a piece of the program. -/
inductive Outcome (α : Type) where
  | ok (a : α)
  | throw (e : JSError)
  | outOfFuel
  | unmodelled
  deriving Repr, Inhabited

/-- `ToInt32` on a mathematical integer. -/
def toInt32 (n : Int) : Int := (n + 2 ^ 31) % 2 ^ 32 - 2 ^ 31

/-- `ToUint32` on a mathematical integer (`n >>> 0`). -/
def toUint32 (n : Int) : Int := n % 2 ^ 32

/-- The number of halvings that bring `n` below 2, at most `fuel` of them. -/
def floorLog2Aux : Nat → Nat → Nat
  | 0, _ => 0
  | fuel + 1, n => if n < 2 then 0 else floorLog2Aux fuel (n / 2) + 1

/-- The position of the leading bit of `n` (0 for `n = 0`). -/
def floorLog2 (n : Nat) : Nat := floorLog2Aux n n

/-- Round an integer to the nearest binary64 value, ties to even (the rounding of a
floating-point operation whose exact result is the integer `x`, for `|x| < 2^1024`). -/
def roundDouble (x : Int) : Int :=
  let a := x.natAbs
  if a < 2 ^ 53 then x
  else
    let e := floorLog2 a - 52
    let q := a / 2 ^ e
    let r := a % 2 ^ e
    let half := 2 ^ (e - 1)
    let q1 := if half < r ∨ (r = half ∧ q % 2 = 1) then q + 1 else q
    if x < 0 then -((q1 * 2 ^ e : Nat) : Int) else ((q1 * 2 ^ e : Nat) : Int)

/-- The bit pattern used for `NaN`. -/
def nanBits : Nat := 0x7FF8000000000000

/-- The number denoted by a binary64 bit pattern (`DataView.getFloat64`). -/
def float64OfBits (bits : Nat) : JSValue :=
  let s := bits / 2 ^ 63 % 2
  let e := bits / 2 ^ 52 % 2 ^ 11
  let m := bits % 2 ^ 52
  if e = 2047 then (if m = 0 then .frac bits else .frac nanBits)
  else if e = 0 then (if m = 0 then .num 0 else .frac bits)
  else
    let mant : Nat := 2 ^ 52 + m
    if 1075 ≤ e then
      (if s = 1 then .num (-((mant * 2 ^ (e - 1075) : Nat) : Int))
       else .num ((mant * 2 ^ (e - 1075) : Nat) : Int))
    else if mant % 2 ^ (1075 - e) = 0 then
      (if s = 1 then .num (-((mant / 2 ^ (1075 - e) : Nat) : Int))
       else .num ((mant / 2 ^ (1075 - e) : Nat) : Int))
    else .frac bits

/-- The number denoted by a binary32 bit pattern (`DataView.getFloat32`); a value that is
not an integer is returned as the binary64 pattern of the same real number. -/
def float32OfBits (bits : Nat) : JSValue :=
  let s := bits / 2 ^ 31 % 2
  let e := bits / 2 ^ 23 % 2 ^ 8
  let m := bits % 2 ^ 23
  if e = 255 then (if m = 0 then .frac (s * 2 ^ 63 + 2047 * 2 ^ 52) else .frac nanBits)
  else if e = 0 then
    (if m = 0 then .num 0
     else
       let k := floorLog2 m
       .frac (s * 2 ^ 63 + (k + 874) * 2 ^ 52 + (m - 2 ^ k) * 2 ^ (52 - k)))
  else
    let mant : Nat := 2 ^ 23 + m
    if 150 ≤ e then
      (if s = 1 then .num (-((mant * 2 ^ (e - 150) : Nat) : Int))
       else .num ((mant * 2 ^ (e - 150) : Nat) : Int))
    else if mant % 2 ^ (150 - e) = 0 then
      (if s = 1 then .num (-((mant / 2 ^ (150 - e) : Nat) : Int))
       else .num ((mant / 2 ^ (150 - e) : Nat) : Int))
    else .frac (s * 2 ^ 63 + (e + 896) * 2 ^ 52 + m * 2 ^ 29)

/-! ## Text encoding (`TextEncoder`, `TextDecoder('utf-8')`) -/

/-- The UTF-8 bytes of one code point. -/
def utf8EncodeCodePoint (c : Nat) : List Nat :=
  if c < 0x80 then [c]
  else if c < 0x800 then [0xC0 + c / 64, 0x80 + c % 64]
  else if c < 0x10000 then [0xE0 + c / 4096, 0x80 + c / 64 % 64, 0x80 + c % 64]
  else [0xF0 + c / 262144, 0x80 + c / 4096 % 64, 0x80 + c / 64 % 64, 0x80 + c % 64]

/-- The bytes `new TextEncoder().encode(s)` produces for a well-formed string. -/
def textEncode (s : String) : List Nat :=
  s.data.flatMap fun c => utf8EncodeCodePoint c.toNat

/-- State of the WHATWG UTF-8 decoder: the code point under construction, the number of
continuation bytes still needed, and the bounds the next byte has to respect. -/
structure Utf8State where
  codePoint : Nat
  needed : Nat
  lower : Nat
  upper : Nat
  deriving Repr

/-- The decoder state between characters. -/
def Utf8State.initial : Utf8State := ⟨0, 0, 0x80, 0xBF⟩

/-- U+FFFD, emitted for every malformed sequence. -/
def replacementChar : Char := Char.ofNat 0xFFFD

/-- One byte handled in the initial state. -/
def utf8Start (b : Nat) : List Char × Utf8State :=
  if b < 0x80 then ([Char.ofNat b], Utf8State.initial)
  else if 0xC2 ≤ b ∧ b ≤ 0xDF then ([], ⟨b - 0xC0, 1, 0x80, 0xBF⟩)
  else if 0xE0 ≤ b ∧ b ≤ 0xEF then
    ([], ⟨b - 0xE0, 2, if b = 0xE0 then 0xA0 else 0x80, if b = 0xED then 0x9F else 0xBF⟩)
  else if 0xF0 ≤ b ∧ b ≤ 0xF4 then
    ([], ⟨b - 0xF0, 3, if b = 0xF0 then 0x90 else 0x80, if b = 0xF4 then 0x8F else 0xBF⟩)
  else ([replacementChar], Utf8State.initial)

/-- One byte handled in an arbitrary state; a byte that cannot continue the current
sequence ends it with U+FFFD and is handled again in the initial state. -/
def utf8Step (st : Utf8State) (b : Nat) : List Char × Utf8State :=
  if st.needed = 0 then utf8Start b
  else if b < st.lower ∨ st.upper < b then
    (replacementChar :: (utf8Start b).1, (utf8Start b).2)
  else if st.needed = 1 then
    ([Char.ofNat (st.codePoint * 64 + (b - 0x80))], Utf8State.initial)
  else ([], ⟨st.codePoint * 64 + (b - 0x80), st.needed - 1, 0x80, 0xBF⟩)

/-- The WHATWG UTF-8 decoder with replacement, run over a byte list. -/
def utf8Decode : Utf8State → List Nat → List Char
  | st, [] => if st.needed = 0 then [] else [replacementChar]
  | st, b :: bs => (utf8Step st b).1 ++ utf8Decode (utf8Step st b).2 bs

/-- The string `new TextDecoder('utf-8').decode(bytes)` returns: a leading byte order
mark is dropped, malformed input is replaced. -/
def textDecode (bytes : List Nat) : String :=
  match bytes with
  | 0xEF :: 0xBB :: 0xBF :: rest => ⟨utf8Decode Utf8State.initial rest⟩
  | _ => ⟨utf8Decode Utf8State.initial bytes⟩

/-! ## Objects -/

/-- The value of an own property, if the object has it. -/
def lookupField (k : String) : List (String × JSValue) → Option JSValue
  | [] => none
  | (k1, v) :: rest => if k1 = k then some v else lookupField k rest

/-- Whether a property is present. -/
def hasField (k : String) (fs : List (String × JSValue)) : Bool :=
  (lookupField k fs).isSome

/-- The value of a canonical array-index key (`"0"`, `"17"`, ... up to `2^32 - 2`). -/
def arrayIndex (k : String) : Option Nat :=
  let ds := k.data
  if ds ≠ [] ∧ ds.all Char.isDigit ∧ (ds.head? ≠ some '0' ∨ ds.length = 1) then
    let n := ds.foldl (fun acc c => acc * 10 + (c.toNat - 48)) 0
    if n < 2 ^ 32 - 1 then some n else none
  else none

/-- Replace the value of an existing property, keeping its position. -/
def replaceField (k : String) (v : JSValue) :
    List (String × JSValue) → List (String × JSValue)
  | [] => []
  | (k1, v1) :: rest =>
    if k1 = k then (k1, v) :: rest else (k1, v1) :: replaceField k v rest

/-- Insert a new array-index key: index keys come first, in increasing order. -/
def insertIndexField (n : Nat) (k : String) (v : JSValue) :
    List (String × JSValue) → List (String × JSValue)
  | [] => [(k, v)]
  | (k1, v1) :: rest =>
    match arrayIndex k1 with
    | some n1 => if n1 < n then (k1, v1) :: insertIndexField n k v rest
                 else (k, v) :: (k1, v1) :: rest
    | none => (k, v) :: (k1, v1) :: rest

/-- The prototype an assignment to `__proto__` installs, recorded as the entry named
`__proto__`; a second assignment replaces it. -/
def setPrototype (fs : List (String × JSValue)) (v : JSValue) : List (String × JSValue) :=
  if hasField "__proto__" fs then replaceField "__proto__" v fs else fs ++ [("__proto__", v)]

/-- The assignment `compound[name] = value` on an object made by `{}`.  The key
`__proto__` does not create a property, it reaches the setter of `Object.prototype`:
a plain object becomes the prototype of the compound, and a primitive value is ignored;
an array or a typed array as prototype, and the prototype `null`, are not described.
Any other key becomes an own property, also when the prototype has a property of that
name. -/
def setField (fs : List (String × JSValue)) (k : String) (v : JSValue) :
    Outcome (List (String × JSValue)) :=
  if k = "__proto__" then
    match v with
    | .obj _ => .ok (setPrototype fs v)
    | .arr _ => .unmodelled
    | .u8 _ => .unmodelled
    | .null => .unmodelled
    | _ => .ok fs
  else if hasField k fs then .ok (replaceField k v fs)
  else
    match arrayIndex k with
    | some n => .ok (insertIndexField n k v fs)
    | none => .ok (fs ++ [(k, v)])

/-! ## `NBTParser`

The parser object has two fields: `buffer`, which no method assigns after the
constructor, and `offset`.  Every method is a function of the buffer and the offset at
entry, and returns its result with the offset at exit. -/

namespace NBTParser

/-- The constructor: `new Uint8Array(buffer)` holds bytes; the offset starts at 0. -/
def new (buffer : List Nat) : List Nat := buffer.map (· % 256)

/-- The element `this.buffer[i]`, `none` for `undefined` (an index outside the buffer). -/
def byteAt (buffer : List Nat) (i : Int) : Option Nat :=
  if i < 0 then none else buffer[i.toNat]?

/-- An operand of `<<` or `|`: `undefined` counts as 0. -/
def operand (x : Option Nat) : Int := ((x.getD 0 : Nat) : Int)

/-- A relative index of `slice` resolved against the length. -/
def sliceIndex (len : Nat) (i : Int) : Nat :=
  if i < 0 then (len + i).toNat else min i.toNat len

/-- The bytes `this.buffer.slice(start, stop)`. -/
def slice (buffer : List Nat) (start stop : Int) : List Nat :=
  (buffer.drop (sliceIndex buffer.length start)).take
    (sliceIndex buffer.length stop - sliceIndex buffer.length start)

def readByte (buffer : List Nat) (offset : Int) : Option Nat × Int :=
  (byteAt buffer offset, offset + 1)

def readShort (buffer : List Nat) (offset : Int) : Int × Int :=
  (operand (byteAt buffer offset) * 256 + operand (byteAt buffer (offset + 1)), offset + 2)

def readInt (buffer : List Nat) (offset : Int) : Int × Int :=
  (toInt32 (operand (byteAt buffer offset) * 2 ^ 24
      + operand (byteAt buffer (offset + 1)) * 2 ^ 16
      + operand (byteAt buffer (offset + 2)) * 2 ^ 8
      + operand (byteAt buffer (offset + 3))),
    offset + 4)

/-- The two halves are combined in floating point: `high * 0x100000000 + (low >>> 0)`. -/
def readLong (buffer : List Nat) (offset : Int) : Int × Int :=
  (roundDouble ((readInt buffer offset).1 * 0x100000000
      + toUint32 (readInt buffer (offset + 4)).1),
    offset + 8)

/-- The big-endian number formed by `n` bytes from `offset` on (`setUint8` stores 0 for
`undefined`). -/
def bitsAt (buffer : List Nat) : Nat → Int → Nat → Nat
  | 0, _, acc => acc
  | n + 1, offset, acc =>
    bitsAt buffer n (offset + 1) (acc * 256 + (byteAt buffer offset).getD 0)

def readFloat (buffer : List Nat) (offset : Int) : JSValue × Int :=
  (float32OfBits (bitsAt buffer 4 offset 0), offset + 4)

def readDouble (buffer : List Nat) (offset : Int) : JSValue × Int :=
  (float64OfBits (bitsAt buffer 8 offset 0), offset + 8)

def readString (buffer : List Nat) (offset : Int) : String × Int :=
  (textDecode (slice buffer (offset + 2) (offset + 2 + (readShort buffer offset).1)),
    offset + 2 + (readShort buffer offset).1)

def readByteArray (buffer : List Nat) (offset : Int) : JSValue × Int :=
  (.u8 (slice buffer (offset + 4) (offset + 4 + (readInt buffer offset).1)),
    offset + 4 + (readInt buffer offset).1)

/-- The loop `for (i < length) array.push(this.readInt())`, `n` iterations to go. -/
def readIntLoop (buffer : List Nat) : Nat → Int → List JSValue → List JSValue × Int
  | 0, offset, acc => (acc.reverse, offset)
  | n + 1, offset, acc =>
    readIntLoop buffer n (offset + 4) (.num (readInt buffer offset).1 :: acc)

def readIntArray (buffer : List Nat) (offset : Int) : JSValue × Int :=
  (.arr (readIntLoop buffer (readInt buffer offset).1.toNat (offset + 4) []).1,
    (readIntLoop buffer (readInt buffer offset).1.toNat (offset + 4) []).2)

/-- The loop `for (i < length) array.push(this.readLong())`, `n` iterations to go. -/
def readLongLoop (buffer : List Nat) : Nat → Int → List JSValue → List JSValue × Int
  | 0, offset, acc => (acc.reverse, offset)
  | n + 1, offset, acc =>
    readLongLoop buffer n (offset + 8) (.num (readLong buffer offset).1 :: acc)

def readLongArray (buffer : List Nat) (offset : Int) : JSValue × Int :=
  (.arr (readLongLoop buffer (readInt buffer offset).1.toNat (offset + 4) []).1,
    (readLongLoop buffer (readInt buffer offset).1.toNat (offset + 4) []).2)

/-- The table of `getTagTypeName`, with its fallback `'unknown'`. -/
def getTagTypeName (type : Option Nat) : String :=
  match type with
  | some 0 => "end"
  | some 1 => "byte"
  | some 2 => "short"
  | some 3 => "int"
  | some 4 => "long"
  | some 5 => "float"
  | some 6 => "double"
  | some 7 => "byteArray"
  | some 8 => "string"
  | some 9 => "list"
  | some 10 => "compound"
  | some 11 => "intArray"
  | some 12 => "longArray"
  | _ => "unknown"

/-- The record `readTag` returns; the end tag has no name. -/
structure Tag where
  type : String
  name : Option String
  value : JSValue
  deriving Repr

/-- The value of a byte payload: `readByte` returns `undefined` past the buffer. -/
def byteValue (b : Option Nat) : JSValue :=
  match b with
  | some x => .num x
  | none => .undefined

mutual
/-- The switch of `readTagPayload`. -/
def readTagPayload (buffer : List Nat) : Nat → Int → Option Nat → Outcome (JSValue × Int)
  | 0, _, _ => .outOfFuel
  | fuel + 1, offset, type =>
    match type with
    | some 1 => .ok (byteValue (readByte buffer offset).1, (readByte buffer offset).2)
    | some 2 => .ok (.num (readShort buffer offset).1, (readShort buffer offset).2)
    | some 3 => .ok (.num (readInt buffer offset).1, (readInt buffer offset).2)
    | some 4 => .ok (.num (readLong buffer offset).1, (readLong buffer offset).2)
    | some 5 => .ok (readFloat buffer offset)
    | some 6 => .ok (readDouble buffer offset)
    | some 7 => .ok (readByteArray buffer offset)
    | some 8 => .ok (.str (readString buffer offset).1, (readString buffer offset).2)
    | some 9 => readList buffer fuel offset
    | some 10 => readCompound buffer fuel offset []
    | some 11 => .ok (readIntArray buffer offset)
    | some 12 => .ok (readLongArray buffer offset)
    | _ => .throw (.unknownTagType type)
/-- The method `readList`: element type, length, then the loop. -/
def readList (buffer : List Nat) : Nat → Int → Outcome (JSValue × Int)
  | 0, _ => .outOfFuel
  | fuel + 1, offset =>
    match readListLoop buffer fuel (offset + 5) (readByte buffer offset).1
        (readInt buffer (offset + 1)).1.toNat [] with
    | .ok (list, offset1) =>
      .ok (.obj [("elementType", .str (getTagTypeName (readByte buffer offset).1)),
                 ("elements", .arr list)], offset1)
    | .throw e => .throw e
    | .outOfFuel => .outOfFuel
    | .unmodelled => .unmodelled
/-- The loop of `readList`, `n` iterations to go. -/
def readListLoop (buffer : List Nat) : Nat → Int → Option Nat → Nat → List JSValue →
    Outcome (List JSValue × Int)
  | _, offset, _, 0, acc => .ok (acc.reverse, offset)
  | 0, _, _, _ + 1, _ => .outOfFuel
  | fuel + 1, offset, elementType, n + 1, acc =>
    match readTagPayload buffer fuel offset elementType with
    | .ok (v, offset1) => readListLoop buffer fuel offset1 elementType n (v :: acc)
    | .throw e => .throw e
    | .outOfFuel => .outOfFuel
    | .unmodelled => .unmodelled
/-- The loop of `readCompound`; `acc` holds the properties assigned so far. -/
def readCompound (buffer : List Nat) : Nat → Int → List (String × JSValue) →
    Outcome (JSValue × Int)
  | 0, _, _ => .outOfFuel
  | fuel + 1, offset, acc =>
    match readTag buffer fuel offset with
    | .ok (tag, offset1) =>
      if tag.type = "end" then .ok (.obj acc, offset1)
      else
        match setField acc (tag.name.getD "undefined") tag.value with
        | .ok acc1 => readCompound buffer fuel offset1 acc1
        | .throw e => .throw e
        | .outOfFuel => .outOfFuel
        | .unmodelled => .unmodelled
    | .throw e => .throw e
    | .outOfFuel => .outOfFuel
    | .unmodelled => .unmodelled
/-- The method `readTag`. -/
def readTag (buffer : List Nat) : Nat → Int → Outcome (Tag × Int)
  | 0, _ => .outOfFuel
  | fuel + 1, offset =>
    if (readByte buffer offset).1 = some 0 then .ok (⟨"end", none, .null⟩, offset + 1)
    else
      match readTagPayload buffer fuel (readString buffer (offset + 1)).2
          (readByte buffer offset).1 with
      | .ok (value, offset1) =>
        .ok (⟨getTagTypeName (readByte buffer offset).1,
              some (readString buffer (offset + 1)).1, value⟩, offset1)
      | .throw e => .throw e
      | .outOfFuel => .outOfFuel
      | .unmodelled => .unmodelled
end

/-- The method `parse` on a fresh parser: the value of the root tag. -/
def parse (fuel : Nat) (buffer : List Nat) : Outcome JSValue :=
  match readTag (new buffer) fuel 0 with
  | .ok (rootTag, _) => .ok rootTag.value
  | .throw e => .throw e
  | .outOfFuel => .outOfFuel
  | .unmodelled => .unmodelled

end NBTParser

/-! ## `NBTWriter` -/

/-- The writer: the bytes pushed so far.  Every method only appends. -/
structure NBTWriter where
  buffer : List Nat
  deriving Repr

/-- `ToNumber` followed by truncation towards zero of a binary64 pattern that is not an
integer (`NaN` and the infinities give 0, as `ToInt32` does). -/
def truncFrac (bits : Nat) : Int :=
  let s := bits / 2 ^ 63 % 2
  let e := bits / 2 ^ 52 % 2 ^ 11
  let m := bits % 2 ^ 52
  if e = 2047 ∨ e = 0 then 0
  else
    let mant : Nat := 2 ^ 52 + m
    let a : Nat := if 1075 ≤ e then mant * 2 ^ (e - 1075) else mant / 2 ^ (1075 - e)
    if s = 1 then -(a : Int) else (a : Int)

/-- The integer whose residue the bit operators `&`, `>>` take of a value (`ToNumber`, then
truncation); `none` where `ToNumber` goes through a string conversion. -/
def toIntegral : JSValue → Option Int
  | .num i => some i
  | .frac bits => some (truncFrac bits)
  | .undefined => some 0
  | .null => some 0
  | _ => none

/-- The binary64 pattern of an integer that is a binary64 value. -/
def float64BitsOfInt (i : Int) : Nat :=
  let a := i.natAbs
  if a = 0 then 0
  else
    let k := floorLog2 a
    let m := if k ≤ 52 then (a - 2 ^ k) * 2 ^ (52 - k) else (a - 2 ^ k) / 2 ^ (k - 52)
    (if i < 0 then 2 ^ 63 else 0) + (k + 1023) * 2 ^ 52 + m

/-- The `n` low bytes of `x`, most significant first. -/
def bigEndian : Nat → Nat → List Nat
  | 0, _ => []
  | n + 1, x => bigEndian n (x / 256) ++ [x % 256]

/-- The property `array.length` followed by `for (... of array)`: the elements visited, or
the `TypeError` for a value without length or iterator. -/
def iterate : JSValue → Outcome (List JSValue)
  | .arr xs => .ok xs
  | .u8 bytes => .ok (bytes.map fun b => JSValue.num b)
  | .str _ => .unmodelled
  | _ => .throw .typeError

mutual
/-- The value of a property read `value.k` on a value other than `undefined` and `null`,
for a name `k` that no built-in prototype defines: the own property, or else the
property the prototype gives. -/
def propOf : JSValue → String → JSValue
  | .obj fields, k =>
    match lookupField k fields with
    | some v => v
    | none => inheritedProp fields k
  | _, _ => .undefined
/-- The property read on the prototype recorded among the entries; an object without
such an entry inherits from `Object.prototype` only. -/
def inheritedProp : List (String × JSValue) → String → JSValue
  | [], _ => .undefined
  | (k1, v) :: rest, k => if k1 = "__proto__" then propOf v k else inheritedProp rest k
end

/-- A property read `value.k`: a `TypeError` on `undefined` and `null`. -/
def getProp (value : JSValue) (k : String) : Outcome JSValue :=
  match value with
  | .undefined => .throw .typeError
  | .null => .throw .typeError
  | _ => .ok (propOf value k)

namespace NBTWriter

/-- The constructor: an empty buffer. -/
def new : NBTWriter := ⟨[]⟩

def writeByte (w : NBTWriter) (value : Int) : NBTWriter :=
  ⟨w.buffer ++ [(toInt32 value % 256).toNat]⟩

def writeShort (w : NBTWriter) (value : Int) : NBTWriter :=
  ⟨w.buffer ++ [(toInt32 value / 2 ^ 8 % 256).toNat, (toInt32 value % 256).toNat]⟩

def writeInt (w : NBTWriter) (value : Int) : NBTWriter :=
  ⟨w.buffer ++ [(toInt32 value / 2 ^ 24 % 256).toNat, (toInt32 value / 2 ^ 16 % 256).toNat,
    (toInt32 value / 2 ^ 8 % 256).toNat, (toInt32 value % 256).toNat]⟩

/-- For an integral `value`: `high = Math.floor(value / 0x100000000)`,
`low = value & 0xFFFFFFFF`. -/
def writeLong (w : NBTWriter) (value : Int) : NBTWriter :=
  (w.writeInt (value / 0x100000000)).writeInt (toInt32 value)

/-- The method `writeDouble` for a number: the eight bytes of its binary64 pattern. -/
def writeDouble (w : NBTWriter) (value : JSValue) : Outcome NBTWriter :=
  match value with
  | .frac bits => .ok ⟨w.buffer ++ bigEndian 8 bits⟩
  | .num i => .ok ⟨w.buffer ++ bigEndian 8 (float64BitsOfInt i)⟩
  | _ => .unmodelled

/-- The method `writeString`: `TextEncoder.encode(undefined)` encodes the empty string. -/
def writeString (w : NBTWriter) (value : JSValue) : Outcome NBTWriter :=
  match value with
  | .str s => .ok ⟨(w.writeShort (textEncode s).length).buffer ++ textEncode s⟩
  | .undefined => .ok (w.writeShort 0)
  | _ => .unmodelled

/-- The loop of `writeByteArray`; `build` later reduces each pushed value modulo 256. -/
def pushAll (w : NBTWriter) : List JSValue → Outcome NBTWriter
  | [] => .ok w
  | x :: xs =>
    match toIntegral x with
    | some i => pushAll ⟨w.buffer ++ [(i % 256).toNat]⟩ xs
    | none => .unmodelled

def writeByteArray (w : NBTWriter) (array : JSValue) : Outcome NBTWriter :=
  match iterate array with
  | .ok xs => pushAll (w.writeInt xs.length) xs
  | .throw e => .throw e
  | .outOfFuel => .outOfFuel
  | .unmodelled => .unmodelled

/-- The loop of `writeIntArray`. -/
def writeInts (w : NBTWriter) : List JSValue → Outcome NBTWriter
  | [] => .ok w
  | x :: xs =>
    match toIntegral x with
    | some i => writeInts (w.writeInt i) xs
    | none => .unmodelled

def writeIntArray (w : NBTWriter) (array : JSValue) : Outcome NBTWriter :=
  match iterate array with
  | .ok xs => writeInts (w.writeInt xs.length) xs
  | .throw e => .throw e
  | .outOfFuel => .outOfFuel
  | .unmodelled => .unmodelled

/-- The argument of `writeLong` as an integer: `NaN` writes eight zero bytes. -/
def longOperand : JSValue → Option Int
  | .num i => some i
  | .undefined => some 0
  | .null => some 0
  | _ => none

/-- The loop of `writeLongArray`. -/
def writeLongs (w : NBTWriter) : List JSValue → Outcome NBTWriter
  | [] => .ok w
  | x :: xs =>
    match longOperand x with
    | some i => writeLongs (w.writeLong i) xs
    | none => .unmodelled

def writeLongArray (w : NBTWriter) (array : JSValue) : Outcome NBTWriter :=
  match iterate array with
  | .ok xs => writeLongs (w.writeInt xs.length) xs
  | .throw e => .throw e
  | .outOfFuel => .outOfFuel
  | .unmodelled => .unmodelled

/-- The method `inferTagType`. -/
def inferTagType (value : JSValue) : Nat :=
  match value with
  | .num v =>
    if -128 ≤ v ∧ v ≤ 127 then 1
    else if -32768 ≤ v ∧ v ≤ 32767 then 2
    else if -2147483648 ≤ v ∧ v ≤ 2147483647 then 3
    else 4
  | .frac _ => 6
  | .str _ => 8
  | .arr (.num _ :: _) => 11
  | .arr _ => 9
  | .null => 10
  | .u8 _ => 10
  | .obj _ => 10
  | .undefined => 8

/-- The method `getTagTypeId`: `types[typeName] || 8`, so `'end'` (id 0) also gives 8. -/
def getTagTypeId (typeName : JSValue) : Outcome Nat :=
  match typeName with
  | .str s =>
    if s = "byte" then .ok 1
    else if s = "short" then .ok 2
    else if s = "int" then .ok 3
    else if s = "long" then .ok 4
    else if s = "float" then .ok 5
    else if s = "double" then .ok 6
    else if s = "byteArray" then .ok 7
    else if s = "string" then .ok 8
    else if s = "list" then .ok 9
    else if s = "compound" then .ok 10
    else if s = "intArray" then .ok 11
    else if s = "longArray" then .ok 12
    else if s = "constructor" ∨ s = "toString" ∨ s = "valueOf" ∨ s = "hasOwnProperty"
        ∨ s = "isPrototypeOf" ∨ s = "propertyIsEnumerable" ∨ s = "toLocaleString"
        ∨ s = "__proto__" ∨ s = "__defineGetter__" ∨ s = "__defineSetter__"
        ∨ s = "__lookupGetter__" ∨ s = "__lookupSetter__" then .unmodelled
    else .ok 8
  | .undefined => .ok 8
  | .null => .ok 8
  | .num _ => .ok 8
  | .frac _ => .ok 8
  | _ => .unmodelled

/-- The numeric payloads of `writeTagPayload` (types 1 to 4), on the coerced operand. -/
def writeNumber (w : NBTWriter) (type : Nat) (value : JSValue) : Outcome NBTWriter :=
  if type = 4 then
    match longOperand value with
    | some i => .ok (w.writeLong i)
    | none => .unmodelled
  else
    match toIntegral value with
    | some i =>
      .ok (if type = 1 then w.writeByte i else if type = 2 then w.writeShort i
           else w.writeInt i)
    | none => .unmodelled

mutual
/-- The switch of `writeTagPayload`; a type outside 1..12 writes nothing.  The case 9 is
the body of `writeList`: `list.elementType`, then `list.elements`; a value without the
property `elements` fails at `list.elements.length`.  The case 10 goes through
`Object.entries(value)`, which is empty for a number and fails on `undefined` and `null`;
the entries of arrays, typed arrays and strings are not described. -/
def writeTagPayload (w : NBTWriter) : Nat → JSValue → Outcome NBTWriter
  | 1, value => writeNumber w 1 value
  | 2, value => writeNumber w 2 value
  | 3, value => writeNumber w 3 value
  | 4, value => writeNumber w 4 value
  | 5, _ => .unmodelled
  | 6, value => w.writeDouble value
  | 7, value => w.writeByteArray value
  | 8, value => w.writeString value
  | 9, .obj fields =>
    match getTagTypeId (propOf (.obj fields) "elementType") with
    | .ok elementType => writeListElements (w.writeByte elementType) elementType fields
    | .throw e => .throw e
    | .outOfFuel => .outOfFuel
    | .unmodelled => .unmodelled
  | 9, _ => .throw .typeError
  | 10, .obj fields => writeCompound w fields
  | 10, .num _ => .ok (w.writeByte 0)
  | 10, .frac _ => .ok (w.writeByte 0)
  | 10, .undefined => .throw .typeError
  | 10, .null => .throw .typeError
  | 10, _ => .unmodelled
  | 11, value => w.writeIntArray value
  | 12, value => w.writeLongArray value
  | _, _ => .ok w
/-- The part of `writeList` after the element type: finds the property `elements` among
the entries, writes its length and its members; a list object with a replaced prototype
is not described. -/
def writeListElements (w : NBTWriter) (elementType : Nat) :
    List (String × JSValue) → Outcome NBTWriter
  | [] => .throw .typeError
  | (k, v) :: rest =>
    if k = "__proto__" then .unmodelled
    else if k = "elements" then
      match v with
      | .arr xs => writeElements (w.writeInt xs.length) elementType xs
      | .undefined => .throw .typeError
      | .null => .throw .typeError
      | _ => .unmodelled
    else writeListElements w elementType rest
/-- The loop `for (const element of list.elements)`. -/
def writeElements (w : NBTWriter) (elementType : Nat) : List JSValue → Outcome NBTWriter
  | [] => .ok w
  | element :: rest =>
    match writeTagPayload w elementType element with
    | .ok w1 => writeElements w1 elementType rest
    | .throw e => .throw e
    | .outOfFuel => .outOfFuel
    | .unmodelled => .unmodelled
/-- The method `writeCompound` over `Object.entries(compound)`; each round is the body
of `writeTag` for the inferred type.  The entry that records the prototype is not among
the entries of the object. -/
def writeCompound (w : NBTWriter) : List (String × JSValue) → Outcome NBTWriter
  | [] => .ok (w.writeByte 0)
  | (name, value) :: rest =>
    if name = "__proto__" then
      match value with
      | .obj _ => writeCompound w rest
      | _ => .unmodelled
    else if inferTagType value = 0 then writeCompound (w.writeByte 0) rest
    else
      match (w.writeByte (inferTagType value)).writeString (.str name) with
      | .ok w1 =>
        match writeTagPayload w1 (inferTagType value) value with
        | .ok w2 => writeCompound w2 rest
        | .throw e => .throw e
        | .outOfFuel => .outOfFuel
        | .unmodelled => .unmodelled
      | .throw e => .throw e
      | .outOfFuel => .outOfFuel
      | .unmodelled => .unmodelled
end

/-- The method `writeList`. -/
def writeList (w : NBTWriter) (list : JSValue) : Outcome NBTWriter :=
  writeTagPayload w 9 list

/-- The method `writeTag`. -/
def writeTag (w : NBTWriter) (type : Nat) (name : JSValue) (value : JSValue) :
    Outcome NBTWriter :=
  if type = 0 then .ok (w.writeByte type)
  else
    match (w.writeByte type).writeString name with
    | .ok w1 => writeTagPayload w1 type value
    | .throw e => .throw e
    | .outOfFuel => .outOfFuel
    | .unmodelled => .unmodelled

/-- The method `build`: the buffer as a `Uint8Array`. -/
def build (w : NBTWriter) : List Nat := w.buffer.map (· % 256)

end NBTWriter

/-! ## `JopConverter` -/

/-- A paint document, the object `parsePaintFile` and `imageToPaint` return.  The
properties `generation` and `version` may be absent (`none`). -/
structure PaintData where
  canvasType : JSValue
  author : JSValue
  title : JSValue
  name : JSValue
  pixels : JSValue
  generation : Option JSValue
  version : Option JSValue
  pixelColors : List String
  deriving Repr

/-- An entry of the table `CANVAS_TYPES`. -/
structure CanvasInfo where
  name : String
  width : Nat
  height : Nat
  deriving Repr, DecidableEq

/-- JavaScript truthiness. -/
def truthy : JSValue → Bool
  | .undefined => false
  | .null => false
  | .num i => i != 0
  | .frac bits => !(bits / 2 ^ 52 % 2 ^ 11 == 2047 && bits % 2 ^ 52 != 0)
  | .str s => s != ""
  | _ => true

/-- The operator `a || b`. -/
def jsOr (a b : JSValue) : JSValue := if truthy a then a else b

/-- White space and line terminators, by code unit: what `String.prototype.trim` removes
and `parseInt` skips. -/
def isWhiteSpaceCode (n : Nat) : Bool :=
  n = 0x09 || n = 0x0A || n = 0x0B || n = 0x0C || n = 0x0D || n = 0x20 || n = 0xA0
    || n = 0x1680 || (0x2000 ≤ n && n ≤ 0x200A) || n = 0x2028 || n = 0x2029
    || n = 0x202F || n = 0x205F || n = 0x3000 || n = 0xFEFF

/-- White space and line terminators, the characters `String.prototype.trim` removes. -/
def isJSWhiteSpace (c : Char) : Bool := isWhiteSpaceCode c.toNat

/-- The method `String.prototype.trim`. -/
def jsTrim (s : String) : String :=
  ⟨((s.data.dropWhile isJSWhiteSpace).reverse.dropWhile isJSWhiteSpace).reverse⟩

/-- The method `Number.prototype.toString(16)` on a non-negative integer. -/
def toStringHex (n : Nat) : String := ⟨Nat.toDigits 16 n⟩

/-- The method `padStart(n, '0')` (on a string of BMP characters). -/
def padStart (s : String) (n : Nat) : String :=
  ⟨List.replicate (n - s.length) '0' ++ s.data⟩

/-- The method `substring(n)` (on a string of BMP characters). -/
def substring (s : String) (n : Nat) : String := ⟨s.data.drop n⟩

namespace JopConverter

def CANVAS_TYPES : Nat → Option CanvasInfo
  | 0 => some ⟨"Small", 16, 16⟩
  | 1 => some ⟨"Large", 32, 32⟩
  | 2 => some ⟨"Long", 32, 16⟩
  | 3 => some ⟨"Tall", 16, 32⟩
  | _ => none

def ROOT_UUID : String := "d1ebe29f-f4e9-4572-83cd-8b2cdbfc2420"

def CANVAS_GEN : Int := 1

def CANVAS_VER : Int := 2

/-- The lookup `this.CANVAS_TYPES[canvasType]`: the key is the value converted to a
property name, so the strings `"0"` to `"3"` find an entry as the numbers 0 to 3 do.  The
name of a member of `Object.prototype` finds that member, which is not described. -/
def canvasInfo (canvasType : JSValue) : Outcome (Option CanvasInfo) :=
  match canvasType with
  | .num i => .ok (if 0 ≤ i then CANVAS_TYPES i.toNat else none)
  | .str s =>
    if s = "0" then .ok (CANVAS_TYPES 0)
    else if s = "1" then .ok (CANVAS_TYPES 1)
    else if s = "2" then .ok (CANVAS_TYPES 2)
    else if s = "3" then .ok (CANVAS_TYPES 3)
    else if s = "constructor" ∨ s = "toString" ∨ s = "valueOf" ∨ s = "hasOwnProperty"
        ∨ s = "isPrototypeOf" ∨ s = "propertyIsEnumerable" ∨ s = "toLocaleString"
        ∨ s = "__proto__" ∨ s = "__defineGetter__" ∨ s = "__defineSetter__"
        ∨ s = "__lookupGetter__" ∨ s = "__lookupSetter__" then .unmodelled
    else .ok none
  | .undefined => .ok none
  | .null => .ok none
  | .frac _ => .ok none
  | _ => .unmodelled

/-- The colour string of one stored pixel, the callback of `paintData.pixels.map` in
`parsePaintFile`: `(pixel >>> 0).toString(16).padStart(8, '0').substring(2)`. -/
def pixelColor (pixel : Int) : String :=
  substring (padStart (toStringHex (toUint32 pixel).toNat) 8) 2

/-- The callback applied to every element of the `pixels` array. -/
def pixelColorsOf : List JSValue → Outcome (List String)
  | [] => .ok []
  | x :: xs =>
    match toIntegral x, pixelColorsOf xs with
    | some i, .ok cs => .ok (pixelColor i :: cs)
    | none, _ => .unmodelled
    | _, .throw e => .throw e
    | _, .outOfFuel => .outOfFuel
    | _, .unmodelled => .unmodelled

/-- The call `paintData.pixels.map(...)`: an array is mapped; a value without a method
`map` raises a `TypeError`; the `map` of a typed array is not described. -/
def mapPixels (pixels : JSValue) : Outcome (List String) :=
  match pixels with
  | .arr xs => pixelColorsOf xs
  | .u8 _ => .unmodelled
  | _ => .throw .typeError

/-- The test `value !== undefined` guarding an optional property. -/
def definedValue (value : JSValue) : Option JSValue :=
  match value with
  | .undefined => none
  | v => some v

/-- The body of the `try` block of `parsePaintFile`, from the decoded value on. -/
def extractPaintData (nbtData : JSValue) : Outcome PaintData :=
  match getProp nbtData "ct" with
  | .ok ct =>
    match mapPixels (jsOr (propOf nbtData "pixels") (.arr [])) with
    | .ok pixelColors =>
      .ok ⟨ct, jsOr (propOf nbtData "author") (.str ""), jsOr (propOf nbtData "title") (.str ""),
        jsOr (propOf nbtData "name") (.str ""), jsOr (propOf nbtData "pixels") (.arr []),
        definedValue (propOf nbtData "generation"), definedValue (propOf nbtData "v"),
        pixelColors⟩
    | .throw e => .throw e
    | .outOfFuel => .outOfFuel
    | .unmodelled => .unmodelled
  | .throw e => .throw e
  | .outOfFuel => .outOfFuel
  | .unmodelled => .unmodelled

/-- The method `parsePaintFile`: every exception is wrapped into a new `Error`. -/
def parsePaintFile (fuel : Nat) (arrayBuffer : List Nat) : Outcome PaintData :=
  match NBTParser.parse fuel arrayBuffer with
  | .ok nbtData =>
    match extractPaintData nbtData with
    | .ok paintData => .ok paintData
    | .throw e => .throw (.parseFailed e)
    | .outOfFuel => .outOfFuel
    | .unmodelled => .unmodelled
  | .throw e => .throw (.parseFailed e)
  | .outOfFuel => .outOfFuel
  | .unmodelled => .unmodelled

/-- The hexadecimal colour `imageToPaint` pushes to `pixelColors` for one pixel. -/
def hexOfRGB (r g b : Nat) : String :=
  padStart (toStringHex (r * 2 ^ 16 + g * 2 ^ 8 + b)) 6

/-- The integer `imageToPaint` pushes to `pixels` for one pixel:
`(0xFF << 24) | (r << 16) | (g << 8) | b`, for channel values below 256. -/
def pixelInt (r g b : Nat) : Int :=
  toInt32 (0xFF * 2 ^ 24 + (r : Int) * 2 ^ 16 + (g : Int) * 2 ^ 8 + (b : Int))

/-- The pixel loop of `imageToPaint` over the RGBA bytes `data`, four at a time; a
channel read past the end counts as 0. -/
def convertPixels : List Nat → List JSValue × List String
  | [] => ([], [])
  | [r] => ([.num (pixelInt r 0 0)], [hexOfRGB r 0 0])
  | [r, g] => ([.num (pixelInt r g 0)], [hexOfRGB r g 0])
  | [r, g, b] => ([.num (pixelInt r g b)], [hexOfRGB r g b])
  | r :: g :: b :: _ :: rest =>
    (.num (pixelInt r g b) :: (convertPixels rest).1, hexOfRGB r g b :: (convertPixels rest).2)

/-- The method `imageToPaint`.  The browser canvas is a parameter: `raster w h` is the
RGBA data `getImageData` returns after the image was drawn at `w` by `h` without
smoothing, and `now` is `Date.now()`. -/
def imageToPaint (raster : Nat → Nat → List Nat) (canvasType title author name : JSValue)
    (now : Nat) : Outcome PaintData :=
  match canvasInfo canvasType with
  | .ok (some info) =>
    let px := convertPixels (raster info.width info.height)
    .ok ⟨canvasType, jsOr author (.str ""), jsOr title (.str ""),
      if truthy name then name else .str (ROOT_UUID ++ "_" ++ toString (now / 1000)),
      .arr px.1, some (.num CANVAS_GEN), some (.num CANVAS_VER), px.2⟩
  | .ok none => .throw (.unknownCanvasType canvasType)
  | .throw e => .throw e
  | .outOfFuel => .outOfFuel
  | .unmodelled => .unmodelled

/-- The expression `value && value.trim()`: the value itself when falsy, the trimmed
string for a string, a `TypeError` for any other truthy value (it has no method
`trim`). -/
def andTrim (value : JSValue) : Outcome JSValue :=
  if truthy value then
    match value with
    | .str s => .ok (.str (jsTrim s))
    | _ => .throw .typeError
  else .ok value

/-- The object `compound` that `createPaintFile` hands to the writer. -/
def createCompound (paintData : PaintData) : Outcome (List (String × JSValue)) :=
  match andTrim paintData.title with
  | .ok hasTitle =>
    match andTrim paintData.author with
    | .ok hasAuthor =>
      .ok ([("generation", paintData.generation.getD .undefined),
            ("ct", paintData.canvasType),
            ("pixels", paintData.pixels),
            ("v", paintData.version.getD .undefined),
            ("name", paintData.name)]
          ++ (if truthy hasTitle && truthy hasAuthor then
                [("author", paintData.author), ("title", paintData.title)]
              else []))
    | .throw e => .throw e
    | .outOfFuel => .outOfFuel
    | .unmodelled => .unmodelled
  | .throw e => .throw e
  | .outOfFuel => .outOfFuel
  | .unmodelled => .unmodelled

/-- The method `createPaintFile`. -/
def createPaintFile (paintData : PaintData) : Outcome (List Nat) :=
  match createCompound paintData with
  | .ok compound =>
    match NBTWriter.writeTag NBTWriter.new 10 (.str "") (.obj compound) with
    | .ok writer => .ok writer.build
    | .throw e => .throw e
    | .outOfFuel => .outOfFuel
    | .unmodelled => .unmodelled
  | .throw e => .throw e
  | .outOfFuel => .outOfFuel
  | .unmodelled => .unmodelled

end JopConverter

/-! ## Rasters -/

/-- The raster of a canvas: its size and its RGBA bytes, row by row. -/
structure Canvas where
  width : Nat
  height : Nat
  data : List Nat
  deriving Repr, DecidableEq

/-- One entry of the array `splitImageToMultiCanvas` returns. -/
structure PaintFile where
  paintData : PaintData
  filename : String
  position : Nat × Nat
  deriving Repr

/-- The UTF-16 code units of a string, the elements that `substring` counts: a
character from U+10000 on is a pair of surrogates. -/
def utf16 (s : String) : List Nat :=
  s.data.flatMap fun c =>
    if c.toNat < 0x10000 then [c.toNat]
    else [0xD800 + (c.toNat - 0x10000) / 0x400, 0xDC00 + (c.toNat - 0x10000) % 0x400]

/-- The method `substring(start, end)` for `start ≤ end`: the code units of the
result. -/
def substringFromTo (s : String) (start stop : Nat) : List Nat :=
  ((utf16 s).take stop).drop start

/-- The value of one hexadecimal digit, in either case, by code unit. -/
def hexDigitOf (n : Nat) : Option Nat :=
  if 48 ≤ n ∧ n ≤ 57 then some (n - 48)
  else if 97 ≤ n ∧ n ≤ 102 then some (n - 87)
  else if 65 ≤ n ∧ n ≤ 70 then some (n - 55)
  else none

/-- The digits `parseInt` reads: the longest prefix of hexadecimal digits. -/
def leadingHexDigits : List Nat → List Nat
  | [] => []
  | c :: cs =>
    match hexDigitOf c with
    | some d => d :: leadingHexDigits cs
    | none => []

/-- The call `parseInt(s, 16)` on the code units of `s`: leading white space, a sign
(`-` is 45, `+` is 43) and a prefix `0x` or `0X` (48, then 120 or 88) are skipped, the
digits up to the first other code unit are read; `none` is `NaN`. -/
def parseIntHex (s : List Nat) : Option Int :=
  let trimmed := s.dropWhile isWhiteSpaceCode
  let negative : Bool := trimmed.head? = some 45
  let unsigned :=
    if trimmed.head? = some 45 ∨ trimmed.head? = some 43 then trimmed.tail else trimmed
  let body :=
    if unsigned.take 2 = [48, 120] ∨ unsigned.take 2 = [48, 88] then unsigned.drop 2
    else unsigned
  let digits := leadingHexDigits body
  if digits = [] then none
  else
    let value : Int := (digits.foldl (fun acc d => acc * 16 + d) 0 : Nat)
    some (if negative then -value else value)

/-- The conversion of a number stored into a `Uint8ClampedArray`: `NaN` becomes 0, an
integer is clamped to 0 ... 255. -/
def toUint8Clamped (value : Option Int) : Nat :=
  match value with
  | none => 0
  | some i => if i < 0 then 0 else if 255 < i then 255 else i.toNat

/-- The assignment `canvas.width = value` followed by the read of `canvas.width`: a
negative size makes the attribute fall back to its default (300 for the width, 150 for
the height).  The largest size a browser allocates is not modelled. -/
def canvasSize (value : Int) (fallback : Nat) : Nat :=
  if 0 ≤ value then value.toNat else fallback

/-- The call `ctx.createImageData(sw, sh)`: transparent black pixels; a size of 0
raises the `IndexSizeError` exception. -/
def createImageData (sw sh : Nat) : Outcome (List Nat) :=
  if sw = 0 ∨ sh = 0 then .throw .indexSizeError else .ok (List.replicate (sw * sh * 4) 0)

namespace JopConverter

/-- The expression `paintData.pixelColors[pixelIndex] || '000000'`. -/
def colorHexAt (pixelColors : List String) (pixelIndex : Nat) : String :=
  match pixelColors[pixelIndex]? with
  | some colorHex => if colorHex = "" then "000000" else colorHex
  | none => "000000"

/-- The four assignments `data[dataIndex] = r` ... `data[dataIndex + 3] = 255`; an
assignment past the end of a typed array is ignored. -/
def setPixel (data : List Nat) (dataIndex : Nat) (r g b : Option Int) : List Nat :=
  (((data.set dataIndex (toUint8Clamped r)).set (dataIndex + 1) (toUint8Clamped g)).set
    (dataIndex + 2) (toUint8Clamped b)).set (dataIndex + 3) 255

/-- The two inner loops of `paintToImage`, over `sy` and `sx`. -/
def fillScaled (data : List Nat) (canvasWidth scale x y : Nat) (r g b : Option Int) :
    List Nat :=
  (List.range scale).foldl (fun data sy =>
    (List.range scale).foldl (fun data sx =>
      setPixel data (((y * scale + sy) * canvasWidth + (x * scale + sx)) * 4) r g b)
      data) data

/-- The two outer loops of `paintToImage`, over `y` and `x`. -/
def fillImage (info : CanvasInfo) (pixelColors : List String) (canvasWidth scale : Nat)
    (data : List Nat) : List Nat :=
  (List.range info.height).foldl (fun data y =>
    (List.range info.width).foldl (fun data x =>
      let colorHex := colorHexAt pixelColors (y * info.width + x)
      fillScaled data canvasWidth scale x y
        (parseIntHex (substringFromTo colorHex 0 2))
        (parseIntHex (substringFromTo colorHex 2 4))
        (parseIntHex (substringFromTo colorHex 4 6)))
      data) data

/-- The method `paintToImage` for an integral `scale`; `none` is the omitted argument,
which defaults to 1.  The result is the canvas after `putImageData`. -/
def paintToImage (paintData : PaintData) (scale : Option Int) : Outcome Canvas :=
  match canvasInfo paintData.canvasType with
  | .ok (some info) =>
    let width := canvasSize (info.width * scale.getD 1) 300
    let height := canvasSize (info.height * scale.getD 1) 150
    match createImageData width height with
    | .ok data =>
      .ok ⟨width, height,
        fillImage info paintData.pixelColors width (scale.getD 1).toNat data⟩
    | .throw e => .throw e
    | .outOfFuel => .outOfFuel
    | .unmodelled => .unmodelled
  | .ok none => .throw (.unknownCanvasType paintData.canvasType)
  | .throw e => .throw e
  | .outOfFuel => .outOfFuel
  | .unmodelled => .unmodelled

/-- The expression `paintData.name.split('_')[0]`; a value that is not a string has no
method `split`. -/
def firstSegment (name : JSValue) : Outcome String :=
  match name with
  | .str s => .ok ⟨s.data.takeWhile (fun c => c != '_')⟩
  | _ => .throw .typeError

/-- The text `{row + 1}_{col + 1}` shared by the section title and the file name. -/
def tileSuffix (row col : Nat) : String :=
  toString (row + 1) ++ "_" ++ toString (col + 1)

/-- The body of the loops of `splitImageToMultiCanvas` for one tile.  `sections row col w h` is
the RGBA data of the section at (`row`, `col`) of the resized image, and `clock n` is
the value of the `n`-th call of `Date.now()`: the tile with the number
`row * gridWidth + col` makes two calls, one inside `imageToPaint` and one for
`baseTimestamp`. -/
def splitTile (sections : Nat → Nat → Nat → Nat → List Nat) (clock : Nat → Nat)
    (canvasType : JSValue) (gridWidth : Nat) (title : String)
    (author generation version : JSValue) (row col : Nat) : Outcome PaintFile :=
  let sectionTitle := if title ≠ "" then title ++ "_" ++ tileSuffix row col else ""
  match imageToPaint (sections row col) canvasType (.str sectionTitle) author .null
      (clock (2 * (row * gridWidth + col))) with
  | .ok paintData =>
    let baseTimestamp := clock (2 * (row * gridWidth + col) + 1) / 1000
    let uniqueId := baseTimestamp + (row * gridWidth + col)
    match firstSegment paintData.name with
    | .ok baseName =>
      .ok ⟨⟨paintData.canvasType, paintData.author, paintData.title,
          .str (baseName ++ "_" ++ toString uniqueId), paintData.pixels,
          some generation, some version, paintData.pixelColors⟩,
        if title ≠ "" then title ++ "_" ++ tileSuffix row col ++ ".paint"
        else "canvas_" ++ tileSuffix row col ++ ".paint",
        (row, col)⟩
    | .throw e => .throw e
    | .outOfFuel => .outOfFuel
    | .unmodelled => .unmodelled
  | .throw e => .throw e
  | .outOfFuel => .outOfFuel
  | .unmodelled => .unmodelled

/-- The results of the loop bodies in order, up to the first one that fails. -/
def collect {α : Type} : List (Outcome α) → Outcome (List α)
  | [] => .ok []
  | .ok a :: rest =>
    match collect rest with
    | .ok as => .ok (a :: as)
    | .throw e => .throw e
    | .outOfFuel => .outOfFuel
    | .unmodelled => .unmodelled
  | .throw e :: _ => .throw e
  | .outOfFuel :: _ => .outOfFuel
  | .unmodelled :: _ => .unmodelled

/-- The method `splitImageToMultiCanvas` for a string `title` and a grid of
`gridWidth` by `gridHeight` tiles.  The table entry is used without a test, so an
unknown canvas type raises the `TypeError` of `canvasInfo.width`. -/
def splitImageToMultiCanvas (sections : Nat → Nat → Nat → Nat → List Nat)
    (clock : Nat → Nat) (canvasType : JSValue) (gridWidth gridHeight : Nat)
    (title : String) (author generation version : JSValue) : Outcome (List PaintFile) :=
  match canvasInfo canvasType with
  | .ok (some _) =>
    collect ((List.range gridHeight).flatMap fun row =>
      (List.range gridWidth).map fun col =>
        splitTile sections clock canvasType gridWidth title author generation version
          row col)
  | .ok none => .throw .typeError
  | .throw e => .throw e
  | .outOfFuel => .outOfFuel
  | .unmodelled => .unmodelled

end JopConverter

/-- The method `getImageScale` of the application for a numeric size `targetSize` of the
selector and the table entry of the current canvas type:
`Math.floor(targetSize / Math.max(canvasInfo.width, canvasInfo.height))`. -/
def getImageScale (targetSize : Nat) (info : CanvasInfo) : Int :=
  ((targetSize / max info.width info.height : Nat) : Int)

/-! ## Notions taken from the specification -/

/-- The range of a signed integer of the given width, as the specification lists it for
Byte (8), Short (16) and Int (32). -/
def fitsSigned (bits : Nat) (v : Int) : Prop :=
  -(2 ^ (bits - 1) : Int) ≤ v ∧ v ≤ 2 ^ (bits - 1) - 1

/-- The bytes of the decoding example as printed in the specification. -/
def exampleBytesPrinted : List Nat :=
  [0x0A, 0x00, 0x00, 0x00, 0x03, 0x00, 0x02, 0x63, 0x74, 0x00, 0x00, 0x00, 0x01, 0x00]

/-- The bytes of the layout the example describes: Compound, empty name, Int field
named "ct" = 1, End, End. -/
def exampleBytesLayout : List Nat :=
  [0x0A, 0x00, 0x00, 0x03, 0x00, 0x02, 0x63, 0x74, 0x00, 0x00, 0x00, 0x01, 0x00, 0x00]

/-- The numeral of `n` with exactly `k` hexadecimal digits, most significant first
(lower case, the digits of `n` modulo `16^k`). -/
def hexDigits : Nat → Nat → List Char
  | 0, _ => []
  | k + 1, n => hexDigits k (n / 16) ++ [Nat.digitChar (n % 16)]

/-- The value of one hexadecimal digit. -/
def hexDigitValue (c : Char) : Nat :=
  if c.isDigit then c.toNat - 48
  else if 97 ≤ c.toNat ∧ c.toNat ≤ 102 then c.toNat - 87
  else if 65 ≤ c.toNat ∧ c.toNat ≤ 70 then c.toNat - 55
  else 0

/-- The number a string of hexadecimal digits denotes. -/
def hexValue (s : String) : Nat :=
  s.data.foldl (fun acc c => acc * 16 + hexDigitValue c) 0

/-- The code points of the white space and line terminators of ECMAScript: tab, line
feed, vertical tab, form feed, carriage return, space, no-break space, the other space
separators of Unicode, line separator, paragraph separator, and the zero width no-break
space. -/
def whiteSpaceCodePoints : List Nat :=
  [0x09, 0x0A, 0x0B, 0x0C, 0x0D, 0x20, 0xA0, 0x1680, 0x2000, 0x2001, 0x2002, 0x2003,
   0x2004, 0x2005, 0x2006, 0x2007, 0x2008, 0x2009, 0x200A, 0x2028, 0x2029, 0x202F, 0x205F,
   0x3000, 0xFEFF]

/-- A string that is not blank: it has a character that is not white space. -/
def nonBlank (s : String) : Bool :=
  s.data.any fun c => !whiteSpaceCodePoints.contains c.toNat

/-- A title or author that is a string and is not empty after trimming white space: a
string that is not blank. -/
def nonEmptyTrimmed (value : JSValue) : Prop :=
  ∃ s, value = .str s ∧ nonBlank s = true

/-- The document `parsePaintFile` returns for a file that has the field `ct` = 1 and no
other field. -/
def documentWithoutPixels : PaintData :=
  ⟨.num 1, .str "", .str "", .str "", .arr [], none, none, []⟩

/-- A tag-type byte that is none of the known kinds 0 to 12; `none` is the `undefined`
read past the end of the buffer. -/
def unknownKind (type : Option Nat) : Prop :=
  ∀ n, type = some n → 12 < n

/-- The integers that are written and read back unchanged: not in the range -32768 to -1
(a Byte or Short is read back unsigned), inside the signed 64-bit range, and a binary64
value. -/
def numberRoundTrips (i : Int) : Bool :=
  (decide (0 ≤ i) || decide (i < -32768)) && decide (-2 ^ 63 ≤ i) && decide (i < 2 ^ 63)
    && decide (roundDouble i = i)

/-- The numbers that are not integers and are read back unchanged: a 64-bit pattern
other than `NaN` that denotes a number that is not an integer. -/
def fracRoundTrips (bits : Nat) : Bool :=
  decide (bits < 2 ^ 64) && bits != nanBits &&
    (match float64OfBits bits with
     | .frac b => b == bits
     | _ => false)

/-- The strings that are written and read back unchanged: well-formed strings (every
Lean string is one) of at most 65535 bytes of UTF-8 that do not start with the byte
order mark U+FEFF. -/
def stringRoundTrips (s : String) : Bool :=
  decide ((textEncode s).length ≤ 65535) && s.data.head? != some (Char.ofNat 0xFEFF)

/-- Every element is an integer of the signed 32-bit range. -/
def int32Elements : List JSValue → Bool
  | [] => true
  | .num i :: rest => decide (-2 ^ 31 ≤ i) && decide (i < 2 ^ 31) && int32Elements rest
  | _ :: _ => false

/-- The key is an array index below `n`. -/
def indexBelow (n : Nat) (k : String) : Bool :=
  match arrayIndex k with
  | some m => m < n
  | none => false

/-- The keys `keys`, following the keys `seen`, are in property order: all different,
none is `__proto__`, and an array-index key only follows smaller array-index keys. -/
def entriesOrderFrom : List String → List String → Bool
  | _, [] => true
  | seen, k :: rest =>
    !seen.contains k && k != "__proto__" &&
    (match arrayIndex k with
     | some n => seen.all (indexBelow n)
     | none => true) &&
    entriesOrderFrom (seen ++ [k]) rest

mutual
/-- The tag trees that `decode(encode(t))` reproduces: numbers and strings as above,
non-empty arrays of 32-bit integers with fewer than 2^31 elements, and objects whose
entries are in property order and whose names and values are of these kinds. -/
def roundTrips : JSValue → Bool
  | .num i => numberRoundTrips i
  | .frac bits => fracRoundTrips bits
  | .str s => stringRoundTrips s
  | .arr xs => !xs.isEmpty && decide (xs.length < 2 ^ 31) && int32Elements xs
  | .obj fields => entriesOrderFrom [] (fields.map Prod.fst) && fieldsRoundTrip fields
  | _ => false
/-- The names and the values of the entries are of the kinds of `roundTrips`. -/
def fieldsRoundTrip : List (String × JSValue) → Bool
  | [] => true
  | (k, v) :: rest =>
    stringRoundTrips k && k != "__proto__" && roundTrips v && fieldsRoundTrip rest
end

/-- A compound of the kinds of `roundTrips`: small and large integers, a pixel array, a
string, a number that is not an integer (2.5) and a nested compound. -/
def sampleCompound : List (String × JSValue) :=
  [("generation", .num 1), ("ct", .num 200), ("pixels", .arr [.num (-16777216), .num 5]),
   ("name", .str "a"), ("big", .num (2 ^ 40)), ("low", .num (-40000)),
   ("inner", .obj [("x", .num 300), ("h", .frac 0x4004000000000000)])]

/-- The buffer holds exactly `rest` from the offset on. -/
def suffixAt (buffer : List Nat) (offset : Int) (rest : List Nat) : Prop :=
  0 ≤ offset ∧ buffer.drop offset.toNat = rest

/-- The value is written by `writeTagPayload`, under its inferred type, as a byte string
that `readTagPayload` decodes back to the value wherever the string stands in a buffer,
given enough fuel. -/
def PayloadRoundTrips (v : JSValue) : Prop :=
  ∃ (bs : List Nat) (fuel0 : Nat),
    (∀ w : NBTWriter, NBTWriter.writeTagPayload w (NBTWriter.inferTagType v) v
      = .ok ⟨w.buffer ++ bs⟩) ∧
    (∀ x ∈ bs, x < 256) ∧
    ∀ (buffer : List Nat) (offset : Int) (rest : List Nat) (fuel : Nat),
      fuel0 ≤ fuel → suffixAt buffer offset (bs ++ rest) →
      NBTParser.readTagPayload buffer fuel offset (some (NBTWriter.inferTagType v))
        = .ok (v, offset + bs.length)

/-- The entries are written by `writeCompound` as a byte string that the loop of
`readCompound` decodes back, appending them to the properties read before. -/
def EntriesRoundTrip (fields : List (String × JSValue)) : Prop :=
  ∃ (bs : List Nat) (fuel0 : Nat),
    (∀ w : NBTWriter, NBTWriter.writeCompound w fields = .ok ⟨w.buffer ++ bs⟩) ∧
    (∀ x ∈ bs, x < 256) ∧
    ∀ (buffer : List Nat) (offset : Int) (rest : List Nat) (fuel : Nat)
      (acc : List (String × JSValue)),
      fuel0 ≤ fuel → entriesOrderFrom (acc.map Prod.fst) (fields.map Prod.fst) = true →
      suffixAt buffer offset (bs ++ rest) →
      NBTParser.readCompound buffer fuel offset acc
        = .ok (.obj (acc ++ fields), offset + bs.length)

/-- The own property `k` of a decoded value: a compound has the properties that were
read, a value of another kind has none.  Under the name `__proto__` it answers the
prototype that was installed, if any. -/
def fieldOf (nbtData : JSValue) (k : String) : Option JSValue :=
  match nbtData with
  | .obj fields => lookupField k fields
  | _ => none

/-- No property holds `undefined`. -/
def noUndefined (fields : List (String × JSValue)) : Prop :=
  ∀ p ∈ fields, p.2 ≠ JSValue.undefined

/-- A file whose compound holds `generation` = 0 (a byte) and `ct` = 1, and no `v`. -/
def generationBytes : List Nat :=
  [10, 0, 0, 1, 0, 10, 103, 101, 110, 101, 114, 97, 116, 105, 111, 110, 0,
   3, 0, 2, 99, 116, 0, 0, 0, 1, 0]

/-- A file whose root compound holds one field, named `__proto__`: a compound with the
field `generation` = 5 (a byte).  The bytes are 0A 00 00, then 0A 00 09 and the name,
then 01 00 0A, the name `generation` and 05, then the two End bytes. -/
def inheritedBytes : List Nat :=
  [10, 0, 0,
   10, 0, 9, 95, 95, 112, 114, 111, 116, 111, 95, 95,
   1, 0, 10, 103, 101, 110, 101, 114, 97, 116, 105, 111, 110, 5,
   0, 0]

/-- The document of `generationBytes`. -/
def generationDocument : PaintData :=
  ⟨.num 1, .str "", .str "", .str "", .arr [], some (.num 0), none, []⟩

/-- The four bytes `setPixel` stores. -/
def storedPixel (r g b : Option Int) : List Nat :=
  [toUint8Clamped r, toUint8Clamped g, toUint8Clamped b, 255]

/-- The pixel a colour string denotes for `paintToImage`: its three channels read with
`parseInt`, and the alpha 255. -/
def pixelOfColor (colorHex : String) : List Nat :=
  storedPixel (parseIntHex (substringFromTo colorHex 0 2))
    (parseIntHex (substringFromTo colorHex 2 4)) (parseIntHex (substringFromTo colorHex 4 6))

/-- The pixel number `index` of RGBA data: its four bytes. -/
def pixelAt (data : List Nat) (index : Nat) : List Nat :=
  (data.drop (index * 4)).take 4

/-- A document of the canvas type 0 with one orange pixel followed by malformed and
missing colours. -/
def sampleSmallDocument : PaintData :=
  ⟨.num 0, .str "", .str "", .str "", .arr [], none, none, ["ff8000", "0x12zz"]⟩

/-- A document whose canvas type 7 is not in the table. -/
def unknownTypeDocument : PaintData :=
  ⟨.num 7, .str "", .str "", .str "n", .arr [.num (-1)], some (.num 1), some (.num 2),
    ["ffffff"]⟩

/-- The file of `unknownTypeDocument`. -/
def unknownTypeBytes : List Nat :=
  [10, 0, 0, 1, 0, 10, 103, 101, 110, 101, 114, 97, 116, 105, 111, 110, 1,
   1, 0, 2, 99, 116, 7,
   11, 0, 6, 112, 105, 120, 101, 108, 115, 0, 0, 0, 1, 255, 255, 255, 255,
   1, 0, 1, 118, 2,
   8, 0, 4, 110, 97, 109, 101, 0, 1, 110, 0]

/-- A raster of transparent black pixels, whatever the size. -/
def transparentRaster (width height : Nat) : List Nat :=
  List.replicate (width * height * 4) 0

/-- A raster of opaque white pixels, whatever the size. -/
def whiteRaster (width height : Nat) : List Nat :=
  List.replicate (width * height * 4) 255

/-- The number a decimal numeral denotes. -/
def decimalValue (s : String) : Nat :=
  s.data.foldl (fun acc c => acc * 10 + (c.toNat - 48)) 0

/-- A clock that advances by one second between two readings. -/
def tickingClock (n : Nat) : Nat := 1000 * n

/-- The sections of an image without pixels. -/
def emptySections (_row _col _width _height : Nat) : List Nat := []

/-- The signed 64-bit integer that eight bytes denote in two's complement, most
significant byte first. -/
def int64OfBytes (bytes : List Nat) : Int :=
  let unsigned : Nat := bytes.foldl (fun acc b => acc * 256 + b) 0
  if unsigned < 2 ^ 63 then (unsigned : Int) else (unsigned : Int) - 2 ^ 64

/-- The eight bytes of 2^53 + 1. -/
def oddLongBytes : List Nat := [0x00, 0x20, 0x00, 0x00, 0x00, 0x00, 0x00, 0x01]

/-- A document whose name starts with the byte order mark U+FEFF. -/
def bomDocument : PaintData :=
  ⟨.num 0, .str "", .str "", .str ⟨[Char.ofNat 0xFEFF, 'a']⟩, .arr [.num (-1)],
    some (.num 1), some (.num 2), ["ffffff"]⟩

/-- The file of `bomDocument`. -/
def bomBytes : List Nat :=
  [10, 0, 0, 1, 0, 10, 103, 101, 110, 101, 114, 97, 116, 105, 111, 110, 1,
   1, 0, 2, 99, 116, 0,
   11, 0, 6, 112, 105, 120, 101, 108, 115, 0, 0, 0, 1, 255, 255, 255, 255,
   1, 0, 1, 118, 2,
   8, 0, 4, 110, 97, 109, 101, 0, 4, 239, 187, 191, 97, 0]

/-- The object `createPaintFile` writes for a document of numbers and strings. -/
def compoundOf (canvasType generation version : Int) (name title author : String)
    (pixels : List JSValue) : List (String × JSValue) :=
  [("generation", .num generation), ("ct", .num canvasType), ("pixels", .arr pixels),
   ("v", .num version), ("name", .str name)]
    ++ (if nonBlank title = true ∧ nonBlank author = true then
          [("author", .str author), ("title", .str title)]
        else [])

/-- A document with a title and an author, of the canvas type 1. -/
def signedDocument : PaintData :=
  ⟨.num 1, .str "Bob", .str " Dawn ", .str "d1_5", .arr [.num (-16777216), .num 255],
    some (.num 0), some (.num 2), []⟩

/-- A root Compound that holds one ByteArray with the empty name and the declared
length -7: the bytes 0A 00 00, then 07 00 00 FF FF FF F9. -/
def backwardBytes : List Nat := [0x0A, 0x00, 0x00, 0x07, 0x00, 0x00, 0xFF, 0xFF, 0xFF, 0xF9]

/-- A hexadecimal digit, in either case. -/
def isHexDigit (c : Char) : Bool := "0123456789abcdefABCDEF".data.contains c

/-- The red, green and blue values a colour string `rrggbb` of six hexadecimal digits
denotes; `none` for any other string. -/
def colorOfHex (colorHex : String) : Option (Nat × Nat × Nat) :=
  match colorHex.data with
  | [r1, r2, g1, g2, b1, b2] =>
    if isHexDigit r1 ∧ isHexDigit r2 ∧ isHexDigit g1 ∧ isHexDigit g2 ∧ isHexDigit b1
        ∧ isHexDigit b2 then
      some (hexValue ⟨[r1, r2]⟩, hexValue ⟨[g1, g2]⟩, hexValue ⟨[b1, b2]⟩)
    else none
  | _ => none

/-- A document whose title is blank (a space, a tab and a no-break space) and whose
author is the letter A. -/
def blankTitleDocument : PaintData :=
  ⟨.num 0, .str "A", .str ⟨[' ', Char.ofNat 9, Char.ofNat 0xA0]⟩, .str "n", .arr [.num 255],
    some (.num 1), some (.num 2), []⟩

/-- The number of payload bytes of the numeric kinds: Byte 1, Short 2, Int 4, Long 8,
Float 4, Double 8. -/
def numericWidth : Nat → Nat
  | 1 => 1
  | 2 => 2
  | 3 => 4
  | 4 => 8
  | 5 => 4
  | 6 => 8
  | _ => 0

/-! ## Theorems -/

open NBTParser NBTWriter JopConverter

/-- C2: for an integral number `inferTagType` picks the narrowest kind that holds it: Byte
exactly on the 8-bit signed range, Short exactly on the 16-bit range outside the Byte range,
Int exactly on the 32-bit range outside the Short range, and Long exactly outside the
32-bit range. -/
theorem inferTagType_narrowest (v : Int) :
    (inferTagType (.num v) = 1 ↔ fitsSigned 8 v) ∧
    (inferTagType (.num v) = 2 ↔ ¬ fitsSigned 8 v ∧ fitsSigned 16 v) ∧
    (inferTagType (.num v) = 3 ↔ ¬ fitsSigned 16 v ∧ fitsSigned 32 v) ∧
    (inferTagType (.num v) = 4 ↔ ¬ fitsSigned 32 v) := by
  simp only [inferTagType, fitsSigned]
  norm_num
  split_ifs <;> simp <;> omega

/-- C3 (evaluation at the failing inputs): a sequence whose first element is the integer 1
and whose second is 2.5 is inferred as IntArray (11), so that the compound holding it is
written with the int 2 in place of 2.5 and decodes to the array 1, 2; the empty sequence,
all of whose elements are integers, is inferred as List (9). -/
theorem inferTagType_first_element_only :
    inferTagType (.arr [.num 1, .frac 0x4004000000000000]) = 11 ∧
    writeTag NBTWriter.new 10 (.str "") (.obj [("s", .arr [.num 1, .frac 0x4004000000000000])])
      = .ok ⟨[10, 0, 0, 11, 0, 1, 115, 0, 0, 0, 2, 0, 0, 0, 1, 0, 0, 0, 2, 0]⟩ ∧
    parse 5 [10, 0, 0, 11, 0, 1, 115, 0, 0, 0, 2, 0, 0, 0, 1, 0, 0, 0, 2, 0]
      = .ok (.obj [("s", .arr [.num 1, .num 2])]) ∧
    inferTagType (.arr []) = 9 := by
  exact ⟨rfl, rfl, rfl, rfl⟩

/-- C4 (counterexample): the sequence as printed decodes to the empty compound, because
the byte after the zero-length name is the End tag; the result is not the compound with
ct = 1. -/
theorem parse_exampleBytesPrinted :
    parse 5 exampleBytesPrinted = .ok (.obj []) ∧
    parse 5 exampleBytesPrinted ≠ .ok (.obj [("ct", .num 1)]) := by
  refine ⟨rfl, ?_⟩
  intro h
  have h2 : (Outcome.ok (JSValue.obj []) : Outcome JSValue) = .ok (.obj [("ct", .num 1)]) :=
    h
  injection h2 with h3
  injection h3 with h4
  cases h4

/-- C4 (amended): for every fuel of at least 5 the sequence 0A 00 00 03 00 02 63 74 00 00
00 01 00 00 decodes to the compound with the single field ct = 1, `parsePaintFile`
returns a document whose canvasType is 1, and canvas type 1 is Large, 32 by 32; the
sequence as printed decodes to the empty compound and a document without canvasType. -/
theorem parse_exampleBytesLayout (fuel : Nat) :
    parse (fuel + 5) exampleBytesLayout = .ok (.obj [("ct", .num 1)]) ∧
    parsePaintFile (fuel + 5) exampleBytesLayout
      = .ok ⟨.num 1, .str "", .str "", .str "", .arr [], none, none, []⟩ ∧
    CANVAS_TYPES 1 = some ⟨"Large", 32, 32⟩ ∧
    parse (fuel + 5) exampleBytesPrinted = .ok (.obj []) ∧
    parsePaintFile (fuel + 5) exampleBytesPrinted
      = .ok ⟨.undefined, .str "", .str "", .str "", .arr [], none, none, []⟩ := by
  refine ⟨rfl, rfl, rfl, rfl, rfl⟩

/-! ### Hexadecimal numerals -/

theorem toDigitsCore_acc (f : Nat) : ∀ (n : Nat) (ds : List Char),
    Nat.toDigitsCore 16 f n ds = Nat.toDigitsCore 16 f n [] ++ ds := by
  induction f with
  | zero => intro n ds; simp [Nat.toDigitsCore]
  | succ f ih =>
    intro n ds
    simp only [Nat.toDigitsCore]
    split
    · simp
    · rw [ih (n / 16) (Nat.digitChar (n % 16) :: ds), ih (n / 16) [Nat.digitChar (n % 16)]]
      simp

theorem hexDigits_zero (k : Nat) : hexDigits k 0 = List.replicate k '0' := by
  induction k with
  | zero => rfl
  | succ k ih =>
    simp only [hexDigits, Nat.zero_div, Nat.zero_mod, ih]
    rw [List.replicate_succ']
    rfl

theorem hexDigits_length (k : Nat) : ∀ n, (hexDigits k n).length = k := by
  induction k with
  | zero => intro n; rfl
  | succ k ih => intro n; simp [hexDigits, ih]

theorem toDigitsCore_pad (k : Nat) : ∀ (f n : Nat), n < 16 ^ (k + 1) → n < f →
    List.replicate (k + 1 - (Nat.toDigitsCore 16 f n []).length) '0'
      ++ Nat.toDigitsCore 16 f n [] = hexDigits (k + 1) n := by
  induction k with
  | zero =>
    intro f n hn hf
    obtain ⟨f, rfl⟩ : ∃ g, f = g + 1 := ⟨f - 1, by omega⟩
    have h0 : n / 16 = 0 := by omega
    simp [Nat.toDigitsCore, h0, hexDigits]
  | succ k ih =>
    intro f n hn hf
    obtain ⟨f, rfl⟩ : ∃ g, f = g + 1 := ⟨f - 1, by omega⟩
    simp only [Nat.toDigitsCore]
    by_cases h0 : n / 16 = 0
    · simp only [h0, if_true, List.length_singleton, hexDigits, Nat.zero_div]
      simp [hexDigits_zero, List.replicate_succ']
      rfl
    · simp only [h0, if_false]
      rw [toDigitsCore_acc]
      have h1 : n / 16 < 16 ^ (k + 1) := by
        rw [pow_succ] at hn; omega
      have h2 : n / 16 < f := by omega
      have := ih f (n / 16) h1 h2
      rw [hexDigits, ← this]
      simp

theorem toDigits_pad (k n : Nat) (hn : n < 16 ^ (k + 1)) :
    List.replicate (k + 1 - (Nat.toDigits 16 n).length) '0' ++ Nat.toDigits 16 n
      = hexDigits (k + 1) n :=
  toDigitsCore_pad k (n + 1) n hn (Nat.lt_succ_self n)

theorem hexDigitValue_digitChar (d : Nat) (h : d < 16) : hexDigitValue (Nat.digitChar d) = d := by
  interval_cases d <;> rfl

theorem hexValue_aux (k : Nat) : ∀ (n a : Nat),
    (hexDigits k n).foldl (fun acc c => acc * 16 + hexDigitValue c) a = a * 16 ^ k + n % 16 ^ k := by
  induction k with
  | zero => intro n a; simp [hexDigits, Nat.mod_one]
  | succ k ih =>
    intro n a
    simp only [hexDigits, List.foldl_append, List.foldl_cons, List.foldl_nil, ih]
    rw [hexDigitValue_digitChar _ (Nat.mod_lt _ (by norm_num))]
    have e1 : n % 16 ^ (k + 1) = 16 * (n / 16 % 16 ^ k) + n % 16 := by
      rw [pow_succ, mul_comm, Nat.mod_mul]; omega
    rw [e1, pow_succ]; ring

theorem hexDigits_split (j : Nat) : ∀ (k n : Nat),
    hexDigits (k + j) n = hexDigits k (n / 16 ^ j) ++ hexDigits j n := by
  induction j with
  | zero => intro k n; simp [hexDigits]
  | succ j ih =>
    intro k n
    rw [← Nat.add_assoc, hexDigits, ih, hexDigits, List.append_assoc, Nat.div_div_eq_div_mul, pow_succ, mul_comm]

theorem hexDigits_mod (k : Nat) : ∀ n, hexDigits k (n % 16 ^ k) = hexDigits k n := by
  induction k with
  | zero => intro n; rfl
  | succ k ih =>
    intro n
    have e1 : n % 16 ^ (k + 1) / 16 = (n / 16) % 16 ^ k := by
      rw [pow_succ, mul_comm, Nat.mod_mul]
      omega
    have e2 : n % 16 ^ (k + 1) % 16 = n % 16 := by
      rw [pow_succ, mul_comm, Nat.mod_mul]
      omega
    rw [hexDigits, hexDigits, e1, e2, ih]

theorem padStart_toStringHex (k n : Nat) (hn : n < 16 ^ (k + 1)) :
    padStart (toStringHex n) (k + 1) = ⟨hexDigits (k + 1) n⟩ := by
  simp only [padStart, toStringHex, String.length]
  rw [toDigits_pad k n hn]

theorem pixelColor_eq (pixel : Int) :
    pixelColor pixel = ⟨hexDigits 6 (toUint32 pixel).toNat⟩ := by
  have hu : (toUint32 pixel).toNat < 16 ^ (7 + 1) := by
    simp only [toUint32]; omega
  simp only [pixelColor, substring]
  rw [padStart_toStringHex 7 _ hu]
  have := hexDigits_split 6 2 (toUint32 pixel).toNat
  simp only [Nat.reduceAdd] at this ⊢
  rw [this, List.drop_append_of_le_length (by simp [hexDigits_length])]
  have h2 : List.drop 2 (hexDigits 2 ((toUint32 pixel).toNat / 16 ^ 6)) = [] :=
    List.drop_eq_nil_of_le (by simp [hexDigits_length])
  rw [h2, List.nil_append]

/-! ### Pixel packing -/

/-- C7: for channel values up to 255, the pixel loop of `imageToPaint` stores for a pixel
the integer 0xFF000000 + 65536 r + 256 g + b - 2^32 (the signed reading of the bit pattern)
and pushes the six hexadecimal digits of r, g, b as its colour, whatever the alpha byte and
the pixels that follow; decoding the stored integer as `parsePaintFile` does gives that
same six-digit string. -/
theorem pixel_pack_decode (r g b a : Nat) (rest : List Nat)
    (hr : r ≤ 255) (hg : g ≤ 255) (hb : b ≤ 255) :
    convertPixels (r :: g :: b :: a :: rest)
      = (.num (0xFF000000 + 65536 * (r : Int) + 256 * (g : Int) + (b : Int) - 2 ^ 32)
            :: (convertPixels rest).1,
         ⟨hexDigits 2 r ++ hexDigits 2 g ++ hexDigits 2 b⟩ :: (convertPixels rest).2) ∧
    pixelColor (0xFF000000 + 65536 * (r : Int) + 256 * (g : Int) + (b : Int) - 2 ^ 32)
      = ⟨hexDigits 2 r ++ hexDigits 2 g ++ hexDigits 2 b⟩ := by
  have hpix : pixelInt r g b
      = 0xFF000000 + 65536 * (r : Int) + 256 * (g : Int) + (b : Int) - 2 ^ 32 := by
    simp only [pixelInt, toInt32]; omega
  have hn : r * 2 ^ 16 + g * 2 ^ 8 + b < 16 ^ (5 + 1) := by norm_num; omega
  have hsplit : hexDigits 6 (r * 2 ^ 16 + g * 2 ^ 8 + b)
      = hexDigits 2 r ++ hexDigits 2 g ++ hexDigits 2 b := by
    have e1 := hexDigits_split 2 4 (r * 2 ^ 16 + g * 2 ^ 8 + b)
    have e2 := hexDigits_split 2 2 ((r * 2 ^ 16 + g * 2 ^ 8 + b) / 16 ^ 2)
    have e3 : (r * 2 ^ 16 + g * 2 ^ 8 + b) / 16 ^ 2 / 16 ^ 2 = r := by norm_num; omega
    have m4 : (r * 2 ^ 16 + g * 2 ^ 8 + b) / 16 ^ 2 % 16 ^ 2 = g := by norm_num; omega
    have m5 : (r * 2 ^ 16 + g * 2 ^ 8 + b) % 16 ^ 2 = b := by norm_num; omega
    have e4 : hexDigits 2 ((r * 2 ^ 16 + g * 2 ^ 8 + b) / 16 ^ 2) = hexDigits 2 g := by
      rw [← hexDigits_mod 2 ((r * 2 ^ 16 + g * 2 ^ 8 + b) / 16 ^ 2), m4]
    have e5 : hexDigits 2 (r * 2 ^ 16 + g * 2 ^ 8 + b) = hexDigits 2 b := by
      rw [← hexDigits_mod 2 (r * 2 ^ 16 + g * 2 ^ 8 + b), m5]
    simp only [Nat.reduceAdd] at e1 e2
    rw [e1, e2, e3, e4, e5]
  have hhex : hexOfRGB r g b = ⟨hexDigits 2 r ++ hexDigits 2 g ++ hexDigits 2 b⟩ := by
    rw [hexOfRGB, padStart_toStringHex 5 _ hn, hsplit]
  refine ⟨?_, ?_⟩
  · simp only [convertPixels, hpix, hhex]
  · have m6 : (toUint32 (0xFF000000 + 65536 * (r : Int) + 256 * (g : Int) + (b : Int)
        - 2 ^ 32)).toNat % 16 ^ 6 = r * 2 ^ 16 + g * 2 ^ 8 + b := by
      simp only [toUint32]; norm_num; omega
    rw [pixelColor_eq, ← hsplit, ← hexDigits_mod 6 (toUint32 _).toNat, m6]

/-- C7 (witness): the channels (0x12, 0x34, 0x56) are stored as -15584170 and decode to
the string 123456. -/
theorem pixel_pack_decode_witness :
    (0x12 ≤ 255 ∧ 0x34 ≤ 255 ∧ 0x56 ≤ 255) ∧
    convertPixels [0x12, 0x34, 0x56, 0xFF] = ([.num (-15584170)], ["123456"]) ∧
    pixelColor (-15584170) = "123456" :=
  ⟨by decide, pixel_pack_decode 0x12 0x34 0x56 0xFF [] (by decide) (by decide) (by decide)⟩

/-- C8: for every integer pixel value the colour string of `parsePaintFile` has exactly
six characters, they are the eight-digit hexadecimal numeral of the value read as an
unsigned 32-bit integer without its two leading digits, and the number they denote is the
value modulo 2^24. -/
theorem pixelColor_low24 (pixel : Int) :
    (pixelColor pixel).length = 6 ∧
    pixelColor pixel = ⟨(hexDigits 8 (pixel % 2 ^ 32).toNat).drop 2⟩ ∧
    (hexValue (pixelColor pixel) : Int) = pixel % 2 ^ 24 := by
  refine ⟨?_, ?_, ?_⟩
  · rw [pixelColor_eq]; simp [String.length, hexDigits_length]
  · rw [pixelColor_eq]
    have := hexDigits_split 6 2 (toUint32 pixel).toNat
    simp only [Nat.reduceAdd] at this
    simp only [toUint32] at this ⊢
    rw [this, List.drop_append_of_le_length (by simp [hexDigits_length]),
      List.drop_eq_nil_of_le (by simp [hexDigits_length]), List.nil_append]
  · rw [pixelColor_eq]
    simp only [hexValue]
    rw [hexValue_aux 6 _ 0]
    simp only [toUint32]; norm_num; omega

/-! ### The author and title pair -/

theorem isWhiteSpaceCode_iff (n : Nat) :
    isWhiteSpaceCode n = true ↔ n ∈ whiteSpaceCodePoints := by
  simp only [isWhiteSpaceCode, whiteSpaceCodePoints, Bool.or_eq_true, Bool.and_eq_true,
    decide_eq_true_eq, List.mem_cons, List.mem_singleton, List.not_mem_nil, or_false]
  omega

theorem dropWhile_head_not {α : Type} (p : α → Bool) : ∀ (l : List α) (x : α) (xs : List α),
    l.dropWhile p = x :: xs → p x = false
  | [], _, _, h => by cases h
  | y :: ys, x, xs, h => by
    rw [List.dropWhile_cons] at h
    by_cases hy : p y = true
    · rw [if_pos hy] at h
      exact dropWhile_head_not p ys x xs h
    · rw [if_neg hy] at h
      cases h
      simpa using hy

theorem trim_nil_iff {α : Type} (p : α → Bool) (l : List α) :
    ((l.dropWhile p).reverse.dropWhile p).reverse = [] ↔ ∀ x ∈ l, p x = true := by
  rw [List.reverse_eq_nil_iff, List.dropWhile_eq_nil_iff]
  constructor
  · intro h
    cases hd : l.dropWhile p with
    | nil => exact List.dropWhile_eq_nil_iff.mp hd
    | cons x xs =>
      have h1 := dropWhile_head_not p l x xs hd
      have h2 := h x (by rw [hd]; simp)
      rw [h1] at h2
      cases h2
  · intro h
    rw [List.dropWhile_eq_nil_iff.mpr h]
    intro x hx
    cases hx

theorem whiteSpace_contains (n : Nat) :
    whiteSpaceCodePoints.contains n = isWhiteSpaceCode n := by
  rw [Bool.eq_iff_iff, isWhiteSpaceCode_iff]
  simp

theorem jsTrim_ne_empty_iff (s : String) : jsTrim s ≠ "" ↔ nonBlank s = true := by
  have h1 : jsTrim s = "" ↔ ∀ c ∈ s.data, isJSWhiteSpace c = true := by
    rw [← trim_nil_iff]
    unfold jsTrim
    constructor
    · intro h; exact congrArg String.data h
    · intro h; rw [h]
  rw [Ne, h1]
  unfold nonBlank
  simp only [List.any_eq_true, Bool.not_eq_true', not_forall, isJSWhiteSpace,
    whiteSpace_contains, Bool.not_eq_true, exists_prop]

theorem truthy_andTrim_iff (value result : JSValue) (h : andTrim value = .ok result) :
    truthy result = true ↔ nonEmptyTrimmed value := by
  unfold andTrim at h
  by_cases ht : truthy value = true
  · rw [if_pos ht] at h
    cases value with
    | str s =>
      simp only [Outcome.ok.injEq] at h
      subst h
      simp [truthy, nonEmptyTrimmed, ← jsTrim_ne_empty_iff]
    | _ => simp at h
  · rw [if_neg ht] at h
    simp only [Outcome.ok.injEq] at h
    subst h
    constructor
    · intro h2; exact absurd h2 ht
    · rintro ⟨s, rfl, hs⟩
      exfalso
      have : s = "" := by simpa [truthy] using ht
      subst this
      cases hs

theorem andTrim_str (s : String) : ∃ result, andTrim (.str s) = .ok result := by
  unfold andTrim
  split
  · exact ⟨_, rfl⟩
  · exact ⟨_, rfl⟩

theorem andTrim_cases (value : JSValue) :
    (∃ result, andTrim value = .ok result) ∨ andTrim value = .throw .typeError := by
  unfold andTrim
  split
  · cases value <;> simp
  · exact Or.inl ⟨_, rfl⟩

/-- C9: whatever the document, `createPaintFile` either builds a compound or raises a
`TypeError`; the compound has the key `author` exactly when title and author are both
strings that are not empty after trimming (strings with a character that is not white
space), and the key `title` under the same condition, so it never has exactly one of the
two; a `TypeError` is only raised for a title or author that is not a string, so a lone
title or a lone author is left out silently. -/
theorem createCompound_author_title (p : PaintData) :
    match createCompound p with
    | .ok compound =>
      (hasField "author" compound = true ↔ nonEmptyTrimmed p.title ∧ nonEmptyTrimmed p.author) ∧
      (hasField "title" compound = true ↔ nonEmptyTrimmed p.title ∧ nonEmptyTrimmed p.author)
    | .throw e => e = .typeError ∧ ¬ ((∃ t, p.title = .str t) ∧ (∃ a, p.author = .str a))
    | .outOfFuel => False
    | .unmodelled => False := by
  unfold createCompound
  rcases andTrim_cases p.title with ⟨ht, et⟩ | et
  · rcases andTrim_cases p.author with ⟨ha, ea⟩ | ea
    · simp only [et, ea]
      have h1 := truthy_andTrim_iff _ _ et
      have h2 := truthy_andTrim_iff _ _ ea
      by_cases hb : (truthy ht && truthy ha) = true
      · have hb2 := hb
        rw [Bool.and_eq_true] at hb2
        have h3 : nonEmptyTrimmed p.title ∧ nonEmptyTrimmed p.author :=
          ⟨h1.mp hb2.1, h2.mp hb2.2⟩
        simp [hb, hasField, lookupField, h3]
      · have h3 : ¬ (nonEmptyTrimmed p.title ∧ nonEmptyTrimmed p.author) := by
          rintro ⟨a1, a2⟩
          exact hb (by rw [Bool.and_eq_true]; exact ⟨h1.mpr a1, h2.mpr a2⟩)
        simp [hb, hasField, lookupField, h3]
    · simp only [et, ea]
      refine ⟨trivial, ?_⟩
      rintro ⟨_, ⟨a, hpa⟩⟩
      rw [hpa] at ea
      obtain ⟨r, hr⟩ := andTrim_str a
      rw [hr] at ea
      cases ea
  · simp only [et]
    refine ⟨trivial, ?_⟩
    rintro ⟨⟨t, hpt⟩, _⟩
    rw [hpt] at et
    obtain ⟨r, hr⟩ := andTrim_str t
    rw [hr] at et
    cases et

/-- C9 (instance): the document `blankTitleDocument` has the author A and a title of
three white space characters; its compound is built without error and has neither the
key `author` nor the key `title`. -/
theorem createCompound_author_title_witness :
    createCompound blankTitleDocument
      = .ok [("generation", .num 1), ("ct", .num 0), ("pixels", .arr [.num 255]),
          ("v", .num 2), ("name", .str "n")] ∧
    nonEmptyTrimmed blankTitleDocument.author ∧
    ¬ nonEmptyTrimmed blankTitleDocument.title ∧
    hasField "author" [("generation", .num 1), ("ct", .num 0), ("pixels", .arr [.num 255]),
      ("v", .num 2), ("name", .str "n")] ≠ true ∧
    hasField "title" [("generation", .num 1), ("ct", .num 0), ("pixels", .arr [.num 255]),
      ("v", .num 2), ("name", .str "n")] ≠ true := by
  have e : createCompound blankTitleDocument
      = .ok [("generation", .num 1), ("ct", .num 0), ("pixels", .arr [.num 255]),
          ("v", .num 2), ("name", .str "n")] := rfl
  have h := createCompound_author_title blankTitleDocument
  rw [e] at h
  have hb : ¬ nonEmptyTrimmed blankTitleDocument.title := by
    rintro ⟨s, hs, hn⟩
    have hs2 : s = ⟨[' ', Char.ofNat 9, Char.ofNat 0xA0]⟩ := (JSValue.str.inj hs).symm
    subst hs2
    revert hn
    decide
  exact ⟨e, ⟨"A", rfl, by decide⟩, hb, fun ha => hb (h.1.mp ha).1, fun ht => hb (h.2.mp ht).1⟩

/-- C10 (evaluation at the failing input): the document `parsePaintFile` returns for a
file with the field ct = 1 and no pixels has an empty pixel sequence, and
`createPaintFile` raises a `TypeError` on it instead of returning bytes. -/
theorem createPaintFile_empty_pixels :
    parsePaintFile 5 exampleBytesLayout = .ok documentWithoutPixels ∧
    createPaintFile documentWithoutPixels = .throw .typeError := by
  exact ⟨rfl, rfl⟩

/-! ### UTF-8 -/

theorem char_range (c : Char) :
    c.toNat < 0xD800 ∨ (0xDFFF < c.toNat ∧ c.toNat < 0x110000) := by
  have := c.valid
  simpa [UInt32.isValidChar, Nat.isValidChar, Char.toNat] using this

theorem utf8Decode_cons (st : Utf8State) (b : Nat) (bs : List Nat) :
    utf8Decode st (b :: bs) = (utf8Step st b).1 ++ utf8Decode (utf8Step st b).2 bs := rfl

theorem utf8Step_initial (b : Nat) : utf8Step Utf8State.initial b = utf8Start b := by
  simp [utf8Step, Utf8State.initial]

theorem utf8Step_last (cp lo hi b : Nat) (h1 : lo ≤ b) (h2 : b ≤ hi) :
    utf8Step ⟨cp, 1, lo, hi⟩ b = ([Char.ofNat (cp * 64 + (b - 0x80))], Utf8State.initial) := by
  have h3 : ¬ (b < lo ∨ hi < b) := by omega
  simp [utf8Step, h3]

theorem utf8Step_more (cp k lo hi b : Nat) (h1 : lo ≤ b) (h2 : b ≤ hi) :
    utf8Step ⟨cp, k + 2, lo, hi⟩ b = ([], ⟨cp * 64 + (b - 0x80), k + 1, 0x80, 0xBF⟩) := by
  have h3 : ¬ (b < lo ∨ hi < b) := by omega
  simp [utf8Step, h3]

theorem utf8Start_ascii (b : Nat) (h : b < 0x80) :
    utf8Start b = ([Char.ofNat b], Utf8State.initial) := by
  simp [utf8Start, h]

theorem utf8Start_two (b : Nat) (h1 : 0xC2 ≤ b) (h2 : b ≤ 0xDF) :
    utf8Start b = ([], ⟨b - 0xC0, 1, 0x80, 0xBF⟩) := by
  have a1 : ¬ b < 0x80 := by omega
  simp [utf8Start, a1, h1, h2]

theorem utf8Start_three (b : Nat) (h1 : 0xE0 ≤ b) (h2 : b ≤ 0xEF) :
    utf8Start b = ([], ⟨b - 0xE0, 2, if b = 0xE0 then 0xA0 else 0x80,
      if b = 0xED then 0x9F else 0xBF⟩) := by
  have a1 : ¬ b < 0x80 := by omega
  have a2 : ¬ (0xC2 ≤ b ∧ b ≤ 0xDF) := by omega
  simp only [utf8Start, if_neg a1, if_neg a2, if_pos (And.intro h1 h2)]

theorem utf8Start_four (b : Nat) (h1 : 0xF0 ≤ b) (h2 : b ≤ 0xF4) :
    utf8Start b = ([], ⟨b - 0xF0, 3, if b = 0xF0 then 0x90 else 0x80,
      if b = 0xF4 then 0x8F else 0xBF⟩) := by
  have a1 : ¬ b < 0x80 := by omega
  have a2 : ¬ (0xC2 ≤ b ∧ b ≤ 0xDF) := by omega
  have a3 : ¬ (0xE0 ≤ b ∧ b ≤ 0xEF) := by omega
  simp only [utf8Start, if_neg a1, if_neg a2, if_neg a3, if_pos (And.intro h1 h2)]

theorem utf8Decode_char (c : Char) (rest : List Nat) :
    utf8Decode Utf8State.initial (utf8EncodeCodePoint c.toNat ++ rest)
      = c :: utf8Decode Utf8State.initial rest := by
  have hr := char_range c
  have hc := Char.ofNat_toNat c
  generalize c.toNat = n at hr hc
  unfold utf8EncodeCodePoint
  by_cases h1 : n < 0x80
  · simp only [if_pos h1, List.singleton_append, utf8Decode_cons, utf8Step_initial,
      utf8Start_ascii n h1, hc, List.singleton_append]
  · by_cases h2 : n < 0x800
    · simp only [if_neg h1, if_pos h2, List.cons_append, List.nil_append, utf8Decode_cons,
        utf8Step_initial]
      rw [utf8Start_two _ (by omega) (by omega)]
      simp only [List.nil_append]
      rw [utf8Step_last _ _ _ _ (by omega) (by omega)]
      have a4 : (0xC0 + n / 64 - 0xC0) * 64 + (0x80 + n % 64 - 0x80) = n := by omega
      simp only [a4, hc, List.singleton_append]
    · by_cases h3 : n < 0x10000
      · simp only [if_neg h1, if_neg h2, if_pos h3, List.cons_append, List.nil_append,
          utf8Decode_cons, utf8Step_initial]
        rw [utf8Start_three _ (by omega) (by omega)]
        simp only [List.nil_append]
        rw [utf8Step_more _ 0 _ _ _ (by split <;> omega) (by split <;> omega)]
        simp only [List.nil_append]
        rw [utf8Step_last _ _ _ _ (by omega) (by omega)]
        have a4 : ((0xE0 + n / 4096 - 0xE0) * 64 + (0x80 + n / 64 % 64 - 0x80)) * 64
            + (0x80 + n % 64 - 0x80) = n := by omega
        simp only [a4, hc, List.singleton_append]
      · simp only [if_neg h1, if_neg h2, if_neg h3, List.cons_append, List.nil_append,
          utf8Decode_cons, utf8Step_initial]
        rw [utf8Start_four _ (by omega) (by omega)]
        simp only [List.nil_append]
        rw [utf8Step_more _ 1 _ _ _ (by split <;> omega) (by split <;> omega)]
        simp only [List.nil_append]
        rw [utf8Step_more _ 0 _ _ _ (by omega) (by omega)]
        simp only [List.nil_append]
        rw [utf8Step_last _ _ _ _ (by omega) (by omega)]
        have a4 : (((0xF0 + n / 262144 - 0xF0) * 64 + (0x80 + n / 4096 % 64 - 0x80)) * 64
            + (0x80 + n / 64 % 64 - 0x80)) * 64 + (0x80 + n % 64 - 0x80) = n := by omega
        simp only [a4, hc, List.singleton_append]

theorem utf8Decode_encode (cs : List Char) :
    utf8Decode Utf8State.initial (cs.flatMap fun c => utf8EncodeCodePoint c.toNat) = cs := by
  induction cs with
  | nil => rfl
  | cons c cs ih =>
    rw [List.flatMap_cons, utf8Decode_char, ih]

theorem utf8EncodeCodePoint_lt (c : Char) : ∀ b ∈ utf8EncodeCodePoint c.toNat, b < 256 := by
  have hr := char_range c
  generalize c.toNat = n at hr
  intro b hb
  unfold utf8EncodeCodePoint at hb
  split_ifs at hb <;> simp at hb <;> omega

theorem textEncode_lt (s : String) : ∀ b ∈ textEncode s, b < 256 := by
  intro b hb
  simp only [textEncode, List.mem_flatMap] at hb
  obtain ⟨c, _, hc⟩ := hb
  exact utf8EncodeCodePoint_lt c b hc

theorem textDecode_textEncode (s : String) (h : s.data.head? ≠ some (Char.ofNat 0xFEFF)) :
    textDecode (textEncode s) = s := by
  have key : textDecode (textEncode s) = ⟨utf8Decode Utf8State.initial (textEncode s)⟩ := by
    unfold textDecode
    split
    · rename_i rest heq
      exfalso
      obtain ⟨cs⟩ := s
      cases cs with
      | nil => simp [textEncode] at heq
      | cons c cs =>
        simp only [textEncode, List.flatMap_cons] at heq
        apply h
        simp only [List.head?_cons, Option.some.injEq]
        have hr := char_range c
        have hc := Char.ofNat_toNat c
        rw [← hc]
        generalize c.toNat = n at hr hc heq
        unfold utf8EncodeCodePoint at heq
        split_ifs at heq
        · simp at heq; omega
        · simp at heq; omega
        · simp at heq
          have : n = 0xFEFF := by omega
          rw [this]
        · simp at heq; omega
    · rfl
  rw [key]
  simp only [textEncode]
  rw [utf8Decode_encode]

/-! ### Errors of the reader -/

theorem unknownKind_cases (type : Option Nat) (h : unknownKind type) :
    type = none ∨ ∃ m, type = some (m + 13) := by
  cases type with
  | none => exact Or.inl rfl
  | some n => exact Or.inr ⟨n - 13, by have := h n rfl; congr 1; omega⟩

theorem readTagPayload_unknown (buffer : List Nat) (fuel : Nat) (offset : Int)
    (type : Option Nat) (h : unknownKind type) :
    readTagPayload buffer (fuel + 1) offset type = .throw (.unknownTagType type) := by
  rcases unknownKind_cases type h with rfl | ⟨m, rfl⟩
  · rfl
  · rfl

theorem getTagTypeName_unknown (type : Option Nat) (h : unknownKind type) :
    getTagTypeName type = "unknown" := by
  rcases unknownKind_cases type h with rfl | ⟨m, rfl⟩
  · rfl
  · rfl

theorem getTagTypeName_ne_end (type : Option Nat) (h : type ≠ some 0) :
    getTagTypeName type ≠ "end" := by
  cases type with
  | none => decide
  | some n =>
    by_cases h13 : n < 13
    · interval_cases n <;> first | exact absurd rfl h | decide
    · obtain ⟨m, rfl⟩ : ∃ m, n = m + 13 := ⟨n - 13, by omega⟩
      show "unknown" ≠ "end"
      decide

theorem readListLoop_succ (buffer : List Nat) (fuel : Nat) (offset : Int)
    (type : Option Nat) (n : Nat) (acc : List JSValue) :
    readListLoop buffer (fuel + 1) offset type (n + 1) acc =
      match readTagPayload buffer fuel offset type with
      | .ok (v, offset1) => readListLoop buffer fuel offset1 type n (v :: acc)
      | .throw e => .throw e
      | .outOfFuel => .outOfFuel
      | .unmodelled => .unmodelled := rfl

theorem readListLoop_zero (buffer : List Nat) (fuel : Nat) (offset : Int)
    (type : Option Nat) (acc : List JSValue) :
    readListLoop buffer fuel offset type 0 acc = .ok (acc.reverse, offset) := by
  cases fuel <;> rfl

theorem readList_succ (buffer : List Nat) (fuel : Nat) (offset : Int) :
    readList buffer (fuel + 1) offset =
      match readListLoop buffer fuel (offset + 5) (readByte buffer offset).1
          (readInt buffer (offset + 1)).1.toNat [] with
      | .ok (list, offset1) =>
        .ok (.obj [("elementType", .str (getTagTypeName (readByte buffer offset).1)),
                   ("elements", .arr list)], offset1)
      | .throw e => .throw e
      | .outOfFuel => .outOfFuel
      | .unmodelled => .unmodelled := rfl

theorem readCompound_succ (buffer : List Nat) (fuel : Nat) (offset : Int)
    (acc : List (String × JSValue)) :
    readCompound buffer (fuel + 1) offset acc =
      match readTag buffer fuel offset with
      | .ok (tag, offset1) =>
        if tag.type = "end" then .ok (.obj acc, offset1)
        else
          match setField acc (tag.name.getD "undefined") tag.value with
          | .ok acc1 => readCompound buffer fuel offset1 acc1
          | .throw e => .throw e
          | .outOfFuel => .outOfFuel
          | .unmodelled => .unmodelled
      | .throw e => .throw e
      | .outOfFuel => .outOfFuel
      | .unmodelled => .unmodelled := rfl

theorem readTag_succ (buffer : List Nat) (fuel : Nat) (offset : Int) :
    readTag buffer (fuel + 1) offset =
      if (readByte buffer offset).1 = some 0 then .ok (⟨"end", none, .null⟩, offset + 1)
      else
        match readTagPayload buffer fuel (readString buffer (offset + 1)).2
            (readByte buffer offset).1 with
        | .ok (value, offset1) =>
          .ok (⟨getTagTypeName (readByte buffer offset).1,
                some (readString buffer (offset + 1)).1, value⟩, offset1)
        | .throw e => .throw e
        | .outOfFuel => .outOfFuel
        | .unmodelled => .unmodelled := rfl

theorem readTag_unknown (buffer : List Nat) (fuel : Nat) (offset : Int)
    (h : unknownKind (readByte buffer offset).1) :
    readTag buffer (fuel + 2) offset = .throw (.unknownTagType (readByte buffer offset).1) := by
  have h0 : (readByte buffer offset).1 ≠ some 0 := by
    intro h1
    have := h 0 h1
    omega
  show readTag buffer (fuel + 1 + 1) offset = _
  rw [readTag_succ, if_neg h0, readTagPayload_unknown _ _ _ _ h]

theorem readCompound_throw_of_readTag (buffer : List Nat) (fuel : Nat) (offset : Int)
    (acc : List (String × JSValue)) (e : JSError) (h : readTag buffer fuel offset = .throw e) :
    readCompound buffer (fuel + 1) offset acc = .throw e := by
  rw [readCompound_succ, h]

theorem readTag_throw_of_payload (buffer : List Nat) (fuel : Nat) (offset : Int) (e : JSError)
    (h0 : (readByte buffer offset).1 ≠ some 0)
    (h : readTagPayload buffer fuel (readString buffer (offset + 1)).2
      (readByte buffer offset).1 = .throw e) :
    readTag buffer (fuel + 1) offset = .throw e := by
  rw [readTag_succ, if_neg h0, h]

theorem readListLoop_throw_of_payload (buffer : List Nat) (fuel : Nat) (offset : Int)
    (type : Option Nat) (n : Nat) (acc : List JSValue) (e : JSError)
    (h : readTagPayload buffer fuel offset type = .throw e) :
    readListLoop buffer (fuel + 1) offset type (n + 1) acc = .throw e := by
  rw [readListLoop_succ, h]

theorem readList_throw_of_loop (buffer : List Nat) (fuel : Nat) (offset : Int) (e : JSError)
    (h : readListLoop buffer fuel (offset + 5) (readByte buffer offset).1
      (readInt buffer (offset + 1)).1.toNat [] = .throw e) :
    readList buffer (fuel + 1) offset = .throw e := by
  rw [readList_succ, h]

theorem parse_throw_of_readTag (buffer : List Nat) (fuel : Nat) (e : JSError)
    (h : readTag (new buffer) fuel 0 = .throw e) : parse fuel buffer = .throw e := by
  rw [parse, h]

theorem byteAt_none_of_length_le (buffer : List Nat) (offset : Int)
    (h : (buffer.length : Int) ≤ offset) : byteAt buffer offset = none := by
  unfold byteAt
  split
  · rfl
  · exact List.getElem?_eq_none (by omega)

theorem unknownKind_none : unknownKind none := by
  intro n h
  cases h

theorem readTag_end (buffer : List Nat) (fuel : Nat) (offset offset1 : Int) (tag : Tag)
    (h : readTag buffer fuel offset = .ok (tag, offset1)) (hend : tag.type = "end") :
    offset1 = offset + 1 ∧ byteAt buffer offset = some 0 := by
  cases fuel with
  | zero => cases h
  | succ fuel =>
    rw [readTag_succ] at h
    by_cases h0 : (readByte buffer offset).1 = some 0
    · rw [if_pos h0] at h
      simp only [Outcome.ok.injEq, Prod.mk.injEq] at h
      exact ⟨h.2.symm, h0⟩
    · rw [if_neg h0] at h
      exfalso
      cases hp : readTagPayload buffer fuel (readString buffer (offset + 1)).2
          (readByte buffer offset).1 with
      | ok r =>
        rw [hp] at h
        simp only [Outcome.ok.injEq, Prod.mk.injEq] at h
        apply getTagTypeName_ne_end _ h0
        rw [← hend, ← h.1]
      | throw e => rw [hp] at h; cases h
      | outOfFuel => rw [hp] at h; cases h
      | unmodelled => rw [hp] at h; cases h

theorem readCompound_end_inside (buffer : List Nat) (fuel : Nat) :
    ∀ (offset : Int) (acc : List (String × JSValue)) (r : JSValue × Int),
      readCompound buffer fuel offset acc = .ok r → byteAt buffer (r.2 - 1) = some 0 := by
  induction fuel with
  | zero => intro offset acc r h; cases h
  | succ fuel ih =>
    intro offset acc r h
    rw [readCompound_succ] at h
    cases ht : readTag buffer fuel offset with
    | ok tr =>
      obtain ⟨tag, offset1⟩ := tr
      rw [ht] at h
      by_cases hend : tag.type = "end"
      · simp only [hend, if_true, Outcome.ok.injEq] at h
        obtain ⟨h1, h2⟩ := readTag_end buffer fuel offset offset1 tag ht hend
        rw [← h]
        simp only [h1, add_sub_cancel_right]
        exact h2
      · simp only [hend, if_false] at h
        cases hs : setField acc (tag.name.getD "undefined") tag.value with
        | ok acc1 => rw [hs] at h; exact ih offset1 acc1 r h
        | throw e => rw [hs] at h; cases h
        | outOfFuel => rw [hs] at h; cases h
        | unmodelled => rw [hs] at h; cases h
    | throw e => rw [ht] at h; cases h
    | outOfFuel => rw [ht] at h; cases h
    | unmodelled => rw [ht] at h; cases h

/-! ### Fuel -/

theorem readTagPayload_leaf (buffer : List Nat) (f g : Nat) (offset : Int) (type : Option Nat)
    (h9 : type ≠ some 9) (h10 : type ≠ some 10) :
    readTagPayload buffer (f + 1) offset type = readTagPayload buffer (g + 1) offset type := by
  cases type with
  | none => rfl
  | some n =>
    by_cases h13 : n < 13
    · interval_cases n <;> first | rfl | exact absurd rfl h9 | exact absurd rfl h10
    · obtain ⟨m, rfl⟩ : ∃ m, n = m + 13 := ⟨n - 13, by omega⟩
      rfl

theorem readTagPayload_list (buffer : List Nat) (f : Nat) (offset : Int) :
    readTagPayload buffer (f + 1) offset (some 9) = readList buffer f offset := rfl

theorem readTagPayload_compound (buffer : List Nat) (f : Nat) (offset : Int) :
    readTagPayload buffer (f + 1) offset (some 10) = readCompound buffer f offset [] := rfl

/-- An outcome other than `outOfFuel` does not change when more fuel is given. -/
theorem fuel_succ (buffer : List Nat) (fuel : Nat) :
    (∀ offset type, readTagPayload buffer fuel offset type ≠ .outOfFuel →
      readTagPayload buffer (fuel + 1) offset type = readTagPayload buffer fuel offset type) ∧
    (∀ offset, readList buffer fuel offset ≠ .outOfFuel →
      readList buffer (fuel + 1) offset = readList buffer fuel offset) ∧
    (∀ offset type n acc, readListLoop buffer fuel offset type n acc ≠ .outOfFuel →
      readListLoop buffer (fuel + 1) offset type n acc
        = readListLoop buffer fuel offset type n acc) ∧
    (∀ offset acc, readCompound buffer fuel offset acc ≠ .outOfFuel →
      readCompound buffer (fuel + 1) offset acc = readCompound buffer fuel offset acc) ∧
    (∀ offset, readTag buffer fuel offset ≠ .outOfFuel →
      readTag buffer (fuel + 1) offset = readTag buffer fuel offset) := by
  induction fuel with
  | zero =>
    refine ⟨fun _ _ h => absurd rfl h, fun _ h => absurd rfl h, ?_, fun _ _ h => absurd rfl h,
      fun _ h => absurd rfl h⟩
    intro offset type n acc h
    cases n with
    | zero => rw [readListLoop_zero, readListLoop_zero]
    | succ n => exact absurd rfl h
  | succ f ih =>
    obtain ⟨ihP, ihL, ihLoop, ihC, ihT⟩ := ih
    refine ⟨?_, ?_, ?_, ?_, ?_⟩
    · intro offset type h
      by_cases h9 : type = some 9
      · subst h9
        rw [readTagPayload_list] at h ⊢
        rw [readTagPayload_list]
        exact ihL offset h
      · by_cases h10 : type = some 10
        · subst h10
          rw [readTagPayload_compound] at h ⊢
          rw [readTagPayload_compound]
          exact ihC offset [] h
        · exact readTagPayload_leaf buffer (f + 1) f offset type h9 h10
    · intro offset h
      rw [readList_succ] at h
      rw [readList_succ, readList_succ]
      have h2 : readListLoop buffer f (offset + 5) (readByte buffer offset).1
          (readInt buffer (offset + 1)).1.toNat [] ≠ .outOfFuel := by
        intro e; rw [e] at h; exact h rfl
      rw [ihLoop _ _ _ _ h2]
    · intro offset type n acc h
      cases n with
      | zero => rw [readListLoop_zero, readListLoop_zero]
      | succ n =>
        rw [readListLoop_succ] at h
        rw [readListLoop_succ, readListLoop_succ]
        have h2 : readTagPayload buffer f offset type ≠ .outOfFuel := by
          intro e; rw [e] at h; exact h rfl
        rw [ihP _ _ h2]
        cases hp : readTagPayload buffer f offset type with
        | ok r =>
          obtain ⟨v, o1⟩ := r
          rw [hp] at h
          exact ihLoop _ _ _ _ h
        | throw e => rfl
        | outOfFuel => rfl
        | unmodelled => rfl
    · intro offset acc h
      rw [readCompound_succ] at h
      rw [readCompound_succ, readCompound_succ]
      have h2 : readTag buffer f offset ≠ .outOfFuel := by
        intro e; rw [e] at h; exact h rfl
      rw [ihT _ h2]
      cases ht : readTag buffer f offset with
      | ok r =>
        obtain ⟨tag, o1⟩ := r
        rw [ht] at h
        by_cases hend : tag.type = "end"
        · simp only [hend, if_true]
        · simp only [hend, if_false] at h ⊢
          cases hs : setField acc (tag.name.getD "undefined") tag.value with
          | ok acc1 =>
            rw [hs] at h
            exact ihC _ _ h
          | throw e => rfl
          | outOfFuel => rfl
          | unmodelled => rfl
      | throw e => rfl
      | outOfFuel => rfl
      | unmodelled => rfl
    · intro offset h
      rw [readTag_succ] at h
      rw [readTag_succ, readTag_succ]
      by_cases h0 : (readByte buffer offset).1 = some 0
      · simp only [h0, if_true]
      · simp only [h0, if_false] at h ⊢
        have h2 : readTagPayload buffer f (readString buffer (offset + 1)).2
            (readByte buffer offset).1 ≠ .outOfFuel := by
          intro e; rw [e] at h; exact h rfl
        rw [ihP _ _ h2]

/-- Once `parse` has an outcome other than `outOfFuel`, every larger fuel gives the same
outcome. -/
theorem parse_fuel_mono (buffer : List Nat) (fuel extra : Nat)
    (h : parse fuel buffer ≠ .outOfFuel) : parse (fuel + extra) buffer = parse fuel buffer := by
  induction extra with
  | zero => rfl
  | succ k ih =>
    have h1 : parse (fuel + k) buffer ≠ .outOfFuel := by rw [ih]; exact h
    have h2 : readTag (new buffer) (fuel + k) 0 ≠ .outOfFuel := by
      intro e
      apply h1
      simp only [parse, e]
    have h3 := (fuel_succ (new buffer) (fuel + k)).2.2.2.2 0 h2
    rw [← ih]
    show parse (fuel + k + 1) buffer = _
    simp only [parse, h3]

/-! ### Truncated buffers -/

/-- C5 (counterexample): a root Int tag whose payload has one byte instead of four is
decoded to 0, a root List that declares two Int elements and holds none is decoded to two
zeros, and a root byte array that declares five bytes and holds two is decoded to those
two bytes; no error is raised. -/
theorem parse_truncated_returns :
    parse 2 [3, 0, 0, 0] = .ok (.num 0) ∧
    parse 6 [9, 0, 0, 3, 0, 0, 0, 2]
      = .ok (.obj [("elementType", .str "int"), ("elements", .arr [.num 0, .num 0])]) ∧
    parse 2 [7, 0, 0, 0, 0, 0, 5, 1, 2] = .ok (.u8 [1, 2]) := by
  exact ⟨rfl, rfl, rfl⟩

/-! ### Unknown tag types -/

/-- C6 (counterexample): a root List whose element-kind byte is 99 and whose declared
count is 0 is decoded without error, to an empty list of element type "unknown". -/
theorem parse_unknown_element_kind :
    parse 3 [9, 0, 0, 99, 0, 0, 0, 0]
      = .ok (.obj [("elementType", .str "unknown"), ("elements", .arr [])]) := by
  rfl

/-! ### Reading back what the writer wrote -/


theorem suffixAt_byteAt (buffer : List Nat) (offset : Int) (x : Nat) (rest : List Nat)
    (h : suffixAt buffer offset (x :: rest)) : byteAt buffer offset = some x := by
  obtain ⟨h0, h1⟩ := h
  unfold byteAt
  rw [if_neg (by omega)]
  have := List.head?_drop buffer offset.toNat
  rw [h1] at this
  simpa using this.symm

theorem suffixAt_succ (buffer : List Nat) (offset : Int) (x : Nat) (rest : List Nat)
    (h : suffixAt buffer offset (x :: rest)) : suffixAt buffer (offset + 1) rest := by
  obtain ⟨h0, h1⟩ := h
  refine ⟨by omega, ?_⟩
  have e : (offset + 1).toNat = offset.toNat + 1 := by omega
  rw [e, ← List.drop_drop, h1]
  rfl

theorem suffixAt_append (buffer : List Nat) (offset : Int) (bs rest : List Nat)
    (h : suffixAt buffer offset (bs ++ rest)) :
    suffixAt buffer (offset + bs.length) rest := by
  induction bs generalizing offset with
  | nil => simpa using h
  | cons x bs ih =>
    have h2 := ih (offset + 1) (suffixAt_succ buffer offset x (bs ++ rest) h)
    have e : offset + ((x :: bs).length : Nat) = offset + 1 + (bs.length : Nat) := by
      simp only [List.length_cons]; push_cast; ring
    rw [e]; exact h2

theorem suffixAt_slice (buffer : List Nat) (offset : Int) (bs rest : List Nat)
    (h : suffixAt buffer offset (bs ++ rest)) :
    NBTParser.slice buffer offset (offset + bs.length) = bs := by
  obtain ⟨h0, h1⟩ := h
  have hlen : buffer.length - offset.toNat = bs.length + rest.length := by
    have := congrArg List.length h1
    simpa using this
  unfold NBTParser.slice NBTParser.sliceIndex
  rw [if_neg (by omega), if_neg (by omega)]
  by_cases hle : offset.toNat ≤ buffer.length
  · have e1 : min offset.toNat buffer.length = offset.toNat := by omega
    have e2 : min (offset + (bs.length : Int)).toNat buffer.length - offset.toNat
        = bs.length := by omega
    rw [e1, e2, h1]
    simp
  · have hbs : bs = [] := by
      have : bs.length = 0 := by omega
      exact List.length_eq_zero.mp this
    subst hbs
    simp


theorem readShort_at (buffer : List Nat) (offset : Int) (b0 b1 : Nat) (rest : List Nat)
    (h : suffixAt buffer offset (b0 :: b1 :: rest)) :
    readShort buffer offset = ((b0 : Int) * 256 + (b1 : Int), offset + 2) := by
  have h0 := suffixAt_byteAt _ _ _ _ h
  have h1 := suffixAt_byteAt _ _ _ _ (suffixAt_succ _ _ _ _ h)
  simp [readShort, h0, h1, operand]

theorem readInt_at (buffer : List Nat) (offset : Int) (b0 b1 b2 b3 : Nat) (rest : List Nat)
    (h : suffixAt buffer offset (b0 :: b1 :: b2 :: b3 :: rest)) :
    readInt buffer offset
      = (toInt32 ((b0 : Int) * 2 ^ 24 + (b1 : Int) * 2 ^ 16 + (b2 : Int) * 2 ^ 8 + (b3 : Int)),
         offset + 4) := by
  have s1 := suffixAt_succ _ _ _ _ h
  have s2 := suffixAt_succ _ _ _ _ s1
  have s3 := suffixAt_succ _ _ _ _ s2
  have h0 := suffixAt_byteAt _ _ _ _ h
  have h1 := suffixAt_byteAt _ _ _ _ s1
  have h2 := suffixAt_byteAt _ _ _ _ s2
  have h3 := suffixAt_byteAt _ _ _ _ s3
  have e2 : offset + 1 + 1 = offset + 2 := by ring
  have e3 : offset + 1 + 1 + 1 = offset + 3 := by ring
  rw [e2] at h2
  rw [e3] at h3
  simp [readInt, h0, h1, h2, h3, operand]

/-- The bytes `writeInt` appends. -/
theorem writeInt_buffer (w : NBTWriter) (i : Int) :
    w.writeInt i = ⟨w.buffer ++ (NBTWriter.writeInt ⟨[]⟩ i).buffer⟩ := by
  simp [NBTWriter.writeInt]

theorem readInt_writeInt (buffer : List Nat) (offset : Int) (i : Int) (rest : List Nat)
    (hi : -2 ^ 31 ≤ i ∧ i < 2 ^ 31)
    (h : suffixAt buffer offset ((NBTWriter.writeInt ⟨[]⟩ i).buffer ++ rest)) :
    readInt buffer offset = (i, offset + 4) := by
  simp only [NBTWriter.writeInt, List.nil_append, List.cons_append] at h
  rw [readInt_at _ _ _ _ _ _ _ h]
  refine Prod.ext ?_ rfl
  simp only [toInt32]
  omega

theorem readInt_writeInt_mod (buffer : List Nat) (offset : Int) (i : Int) (rest : List Nat)
    (h : suffixAt buffer offset ((NBTWriter.writeInt ⟨[]⟩ i).buffer ++ rest)) :
    readInt buffer offset = (toInt32 i, offset + 4) := by
  simp only [NBTWriter.writeInt, List.nil_append, List.cons_append] at h
  rw [readInt_at _ _ _ _ _ _ _ h]
  refine Prod.ext ?_ rfl
  simp only [toInt32]
  omega

theorem writeInt_lt (i : Int) : ∀ x ∈ (NBTWriter.writeInt ⟨[]⟩ i).buffer, x < 256 := by
  intro x hx
  simp only [NBTWriter.writeInt, List.nil_append, List.mem_cons, List.mem_singleton,
    List.not_mem_nil, or_false] at hx
  omega

theorem writeInt_length (i : Int) : (NBTWriter.writeInt ⟨[]⟩ i).buffer.length = 4 := rfl

theorem readIntLoop_writeInts (xs : List JSValue) (hx : int32Elements xs = true) :
    ∃ bs : List Nat, (∀ w : NBTWriter, writeInts w xs = .ok ⟨w.buffer ++ bs⟩) ∧
      (∀ x ∈ bs, x < 256) ∧
      ∀ (buffer : List Nat) (offset : Int) (rest : List Nat) (acc : List JSValue),
        suffixAt buffer offset (bs ++ rest) →
        readIntLoop buffer xs.length offset acc = (acc.reverse ++ xs, offset + bs.length) := by
  induction xs with
  | nil =>
    refine ⟨[], fun w => by simp [writeInts], by simp, ?_⟩
    intro buffer offset rest acc _
    simp [readIntLoop]
  | cons x xs ih =>
    cases x with
    | num i =>
      simp only [int32Elements, Bool.and_eq_true, decide_eq_true_eq] at hx
      obtain ⟨bs, hw, hlt, hr⟩ := ih hx.2
      refine ⟨(NBTWriter.writeInt ⟨[]⟩ i).buffer ++ bs, ?_, ?_, ?_⟩
      · intro w
        simp only [writeInts, toIntegral]
        rw [hw, writeInt_buffer, List.append_assoc]
      · intro y hy
        rcases List.mem_append.mp hy with h1 | h1
        · exact writeInt_lt i y h1
        · exact hlt y h1
      · intro buffer offset rest acc hs
        rw [List.append_assoc] at hs
        have h1 := readInt_writeInt buffer offset i _ ⟨hx.1.1, hx.1.2⟩ hs
        have h2 := suffixAt_append _ _ _ _ hs
        rw [writeInt_length] at h2
        simp only [List.length_cons, readIntLoop, h1]
        rw [hr buffer (offset + 4) rest _ h2]
        simp only [List.reverse_cons, List.append_assoc, List.singleton_append,
          List.length_append, writeInt_length]
        refine Prod.ext rfl ?_
        simp only
        push_cast
        ring
    | _ => simp [int32Elements] at hx

/-- The bytes `writeShort` appends. -/
theorem writeShort_buffer (w : NBTWriter) (i : Int) :
    w.writeShort i = ⟨w.buffer ++ (NBTWriter.writeShort ⟨[]⟩ i).buffer⟩ := by
  simp [NBTWriter.writeShort]

theorem readShort_writeShort (buffer : List Nat) (offset : Int) (i : Int) (rest : List Nat)
    (hi : 0 ≤ i ∧ i < 2 ^ 16)
    (h : suffixAt buffer offset ((NBTWriter.writeShort ⟨[]⟩ i).buffer ++ rest)) :
    readShort buffer offset = (i, offset + 2) := by
  simp only [NBTWriter.writeShort, List.nil_append, List.cons_append] at h
  rw [readShort_at _ _ _ _ _ h]
  refine Prod.ext ?_ rfl
  simp only [toInt32]
  omega

theorem writeShort_lt (i : Int) : ∀ x ∈ (NBTWriter.writeShort ⟨[]⟩ i).buffer, x < 256 := by
  intro x hx
  simp only [NBTWriter.writeShort, List.nil_append, List.mem_cons, List.mem_singleton,
    List.not_mem_nil, or_false] at hx
  omega

theorem readString_writeString (s : String) (hs : stringRoundTrips s = true) :
    ∃ bs : List Nat, (∀ w : NBTWriter, w.writeString (.str s) = .ok ⟨w.buffer ++ bs⟩) ∧
      (∀ x ∈ bs, x < 256) ∧
      ∀ (buffer : List Nat) (offset : Int) (rest : List Nat),
        suffixAt buffer offset (bs ++ rest) →
        readString buffer offset = (s, offset + bs.length) := by
  simp only [stringRoundTrips, Bool.and_eq_true, decide_eq_true_eq, bne_iff_ne, ne_eq] at hs
  refine ⟨(NBTWriter.writeShort ⟨[]⟩ (textEncode s).length).buffer ++ textEncode s, ?_, ?_, ?_⟩
  · intro w
    simp only [NBTWriter.writeString]
    rw [writeShort_buffer, List.append_assoc]
  · intro y hy
    rcases List.mem_append.mp hy with h1 | h1
    · exact writeShort_lt _ y h1
    · exact textEncode_lt s y h1
  · intro buffer offset rest hsuf
    rw [List.append_assoc] at hsuf
    have h1 := readShort_writeShort buffer offset (textEncode s).length _
      ⟨by omega, by omega⟩ hsuf
    have h2 := suffixAt_append _ _ _ _ hsuf
    have hl : (NBTWriter.writeShort ⟨[]⟩ ((textEncode s).length : Int)).buffer.length = 2 := rfl
    rw [hl] at h2
    have h3 := suffixAt_slice _ _ _ _ h2
    simp only [readString, h1]
    refine Prod.ext ?_ ?_
    · simp only
      have e : offset + 2 + ((textEncode s).length : Int) = offset + (2 : Nat) + (textEncode s).length := by
        push_cast; ring
      have e2 : offset + 2 = offset + ((2 : Nat) : Int) := by push_cast; ring
      rw [e, e2, h3]
      exact textDecode_textEncode s hs.2
    · simp only [List.length_append, hl]
      push_cast
      ring

theorem inferTagType_num_byte (i : Int) (h : 0 ≤ i ∧ i ≤ 127) : inferTagType (.num i) = 1 := by
  simp only [inferTagType]
  rw [if_pos (by omega)]

theorem inferTagType_num_short (i : Int) (h : 128 ≤ i ∧ i ≤ 32767) :
    inferTagType (.num i) = 2 := by
  simp only [inferTagType]
  rw [if_neg (by omega), if_pos (by omega)]

theorem inferTagType_num_int (i : Int)
    (h : (i < -32768 ∨ 32767 < i) ∧ -2147483648 ≤ i ∧ i ≤ 2147483647) :
    inferTagType (.num i) = 3 := by
  simp only [inferTagType]
  rw [if_neg (by omega), if_neg (by omega), if_pos (by omega)]

theorem inferTagType_num_long (i : Int) (h : i < -2147483648 ∨ 2147483647 < i) :
    inferTagType (.num i) = 4 := by
  simp only [inferTagType]
  rw [if_neg (by omega), if_neg (by omega), if_neg (by omega)]

theorem payload_num (i : Int) (h : numberRoundTrips i = true) : PayloadRoundTrips (.num i) := by
  simp only [numberRoundTrips, Bool.and_eq_true, Bool.or_eq_true, decide_eq_true_eq] at h
  obtain ⟨⟨⟨hsign, hlo⟩, hhi⟩, hdbl⟩ := h
  by_cases c1 : 0 ≤ i ∧ i ≤ 127
  · have hty := inferTagType_num_byte i c1
    refine ⟨[(toInt32 i % 256).toNat], 1, ?_, ?_, ?_⟩
    · intro w; rw [hty]; rfl
    · intro x hx
      simp only [List.mem_singleton] at hx
      omega
    · intro buffer offset rest fuel hf hs
      obtain ⟨f, rfl⟩ : ∃ f, fuel = f + 1 := ⟨fuel - 1, by omega⟩
      rw [hty]
      show Outcome.ok (byteValue (readByte buffer offset).1, (readByte buffer offset).2) = _
      have hb := suffixAt_byteAt _ _ _ _ hs
      simp only [readByte, hb, byteValue, List.length_singleton]
      have e : (((toInt32 i % 256).toNat : Nat) : Int) = i := by
        simp only [toInt32]; omega
      rw [e]
      rfl
  · by_cases c2 : 0 ≤ i ∧ i ≤ 32767
    · have hty := inferTagType_num_short i ⟨by omega, c2.2⟩
      refine ⟨(NBTWriter.writeShort ⟨[]⟩ i).buffer, 1, ?_, writeShort_lt i, ?_⟩
      · intro w; rw [hty]
        show Outcome.ok (w.writeShort i) = _
        rw [writeShort_buffer]
      · intro buffer offset rest fuel hf hs
        obtain ⟨f, rfl⟩ : ∃ f, fuel = f + 1 := ⟨fuel - 1, by omega⟩
        rw [hty]
        show Outcome.ok (JSValue.num (readShort buffer offset).1, (readShort buffer offset).2) = _
        rw [readShort_writeShort buffer offset i rest ⟨by omega, by omega⟩ hs]
        rfl
    · by_cases c3 : -2147483648 ≤ i ∧ i ≤ 2147483647
      · have hty := inferTagType_num_int i ⟨by omega, c3⟩
        refine ⟨(NBTWriter.writeInt ⟨[]⟩ i).buffer, 1, ?_, writeInt_lt i, ?_⟩
        · intro w; rw [hty]
          show Outcome.ok (w.writeInt i) = _
          rw [writeInt_buffer]
        · intro buffer offset rest fuel hf hs
          obtain ⟨f, rfl⟩ : ∃ f, fuel = f + 1 := ⟨fuel - 1, by omega⟩
          rw [hty]
          show Outcome.ok (JSValue.num (readInt buffer offset).1, (readInt buffer offset).2) = _
          rw [readInt_writeInt buffer offset i rest ⟨by omega, by omega⟩ hs]
          rfl
      · have hty := inferTagType_num_long i (by omega)
        refine ⟨(NBTWriter.writeInt ⟨[]⟩ (i / 0x100000000)).buffer
            ++ (NBTWriter.writeInt ⟨[]⟩ (toInt32 i)).buffer, 1, ?_, ?_, ?_⟩
        · intro w; rw [hty]
          show Outcome.ok ((w.writeInt (i / 0x100000000)).writeInt (toInt32 i)) = _
          rw [writeInt_buffer (w.writeInt _), writeInt_buffer w, List.append_assoc]
        · intro y hy
          rcases List.mem_append.mp hy with h1 | h1
          · exact writeInt_lt _ y h1
          · exact writeInt_lt _ y h1
        · intro buffer offset rest fuel hf hs
          obtain ⟨f, rfl⟩ : ∃ f, fuel = f + 1 := ⟨fuel - 1, by omega⟩
          rw [hty]
          show Outcome.ok (JSValue.num (readLong buffer offset).1, (readLong buffer offset).2) = _
          rw [List.append_assoc] at hs
          have h1 := readInt_writeInt buffer offset (i / 0x100000000) _
            ⟨by omega, by omega⟩ hs
          have h2 := suffixAt_append _ _ _ _ hs
          rw [writeInt_length] at h2
          have h3 := readInt_writeInt_mod buffer (offset + (4 : Nat)) (toInt32 i) _ h2
          have e4 : offset + ((4 : Nat) : Int) = offset + 4 := by push_cast; ring
          rw [e4] at h3
          simp only [readLong, h1, h3]
          have e : i / 0x100000000 * 0x100000000 + toUint32 (toInt32 (toInt32 i)) = i := by
            simp only [toInt32, toUint32]; omega
          rw [e, hdbl]
          simp only [List.length_append, writeInt_length]
          rfl

theorem payload_str (s : String) (h : stringRoundTrips s = true) :
    PayloadRoundTrips (.str s) := by
  obtain ⟨bs, hw, hlt, hr⟩ := readString_writeString s h
  refine ⟨bs, 1, ?_, hlt, ?_⟩
  · intro w
    show w.writeString (.str s) = _
    exact hw w
  · intro buffer offset rest fuel hf hs
    obtain ⟨f, rfl⟩ : ∃ f, fuel = f + 1 := ⟨fuel - 1, by omega⟩
    show Outcome.ok (JSValue.str (readString buffer offset).1, (readString buffer offset).2) = _
    rw [hr buffer offset rest hs]

theorem payload_arr (xs : List JSValue)
    (h : (!xs.isEmpty && decide (xs.length < 2 ^ 31) && int32Elements xs) = true) :
    PayloadRoundTrips (.arr xs) := by
  simp only [Bool.and_eq_true, decide_eq_true_eq, Bool.not_eq_true', List.isEmpty_eq_false]
    at h
  obtain ⟨⟨hne, hlen⟩, hel⟩ := h
  obtain ⟨bs, hw, hlt, hr⟩ := readIntLoop_writeInts xs hel
  have hty : inferTagType (.arr xs) = 11 := by
    cases xs with
    | nil => exact absurd rfl hne
    | cons x xs =>
      cases x with
      | num i => rfl
      | _ => simp [int32Elements] at hel
  refine ⟨(NBTWriter.writeInt ⟨[]⟩ xs.length).buffer ++ bs, 1, ?_, ?_, ?_⟩
  · intro w
    rw [hty]
    show (match iterate (.arr xs) with
      | .ok ys => writeInts (w.writeInt ys.length) ys
      | .throw e => .throw e
      | .outOfFuel => .outOfFuel
      | .unmodelled => .unmodelled) = _
    simp only [iterate]
    rw [hw, writeInt_buffer, List.append_assoc]
  · intro y hy
    rcases List.mem_append.mp hy with h1 | h1
    · exact writeInt_lt _ y h1
    · exact hlt y h1
  · intro buffer offset rest fuel hf hs
    obtain ⟨f, rfl⟩ : ∃ f, fuel = f + 1 := ⟨fuel - 1, by omega⟩
    rw [hty]
    show Outcome.ok (readIntArray buffer offset) = _
    rw [List.append_assoc] at hs
    have h1 := readInt_writeInt buffer offset xs.length _ ⟨by omega, by omega⟩ hs
    have h2 := suffixAt_append _ _ _ _ hs
    rw [writeInt_length] at h2
    have e4 : offset + ((4 : Nat) : Int) = offset + 4 := by push_cast; ring
    rw [e4] at h2
    simp only [readIntArray, h1, Int.toNat_ofNat]
    rw [hr buffer (offset + 4) rest [] h2]
    simp only [List.reverse_nil, List.nil_append, List.length_append, writeInt_length]
    refine congrArg Outcome.ok (Prod.ext rfl ?_)
    simp only
    push_cast
    ring

theorem bitsAt_foldl (buffer : List Nat) (bs : List Nat) :
    ∀ (offset : Int) (acc : Nat) (rest : List Nat), suffixAt buffer offset (bs ++ rest) →
      bitsAt buffer bs.length offset acc = bs.foldl (fun a x => a * 256 + x) acc := by
  induction bs with
  | nil => intro offset acc rest _; rfl
  | cons x bs ih =>
    intro offset acc rest hs
    have hb := suffixAt_byteAt _ _ _ _ hs
    have h2 := suffixAt_succ _ _ _ _ hs
    simp only [List.length_cons, bitsAt, hb, Option.getD_some, List.foldl_cons]
    exact ih (offset + 1) _ rest h2

theorem bigEndian_length (n : Nat) : ∀ x, (bigEndian n x).length = n := by
  induction n with
  | zero => intro x; rfl
  | succ n ih => intro x; simp [bigEndian, ih]

theorem bigEndian_lt (n : Nat) : ∀ x, ∀ y ∈ bigEndian n x, y < 256 := by
  induction n with
  | zero => intro x y hy; simp [bigEndian] at hy
  | succ n ih =>
    intro x y hy
    simp only [bigEndian, List.mem_append, List.mem_singleton] at hy
    rcases hy with h1 | h1
    · exact ih _ y h1
    · omega

theorem bigEndian_foldl (n : Nat) : ∀ (x acc : Nat),
    (bigEndian n x).foldl (fun a y => a * 256 + y) acc = acc * 256 ^ n + x % 256 ^ n := by
  induction n with
  | zero => intro x acc; simp [bigEndian, Nat.mod_one]
  | succ n ih =>
    intro x acc
    simp only [bigEndian, List.foldl_append, List.foldl_cons, List.foldl_nil, ih]
    have e1 : x % 256 ^ (n + 1) = 256 * (x / 256 % 256 ^ n) + x % 256 := by
      rw [pow_succ, mul_comm, Nat.mod_mul]; omega
    rw [e1, pow_succ]; ring

theorem payload_frac (bits : Nat) (h : fracRoundTrips bits = true) :
    PayloadRoundTrips (.frac bits) := by
  simp only [fracRoundTrips, Bool.and_eq_true, decide_eq_true_eq, bne_iff_ne, ne_eq] at h
  obtain ⟨⟨hlt, _⟩, hdec⟩ := h
  have hval : float64OfBits bits = .frac bits := by
    cases hf : float64OfBits bits with
    | frac b =>
      rw [hf] at hdec
      simp only [beq_iff_eq] at hdec
      rw [hdec]
    | _ => rw [hf] at hdec; simp at hdec
  refine ⟨bigEndian 8 bits, 1, ?_, bigEndian_lt 8 bits, ?_⟩
  · intro w; rfl
  · intro buffer offset rest fuel hf hs
    obtain ⟨f, rfl⟩ : ∃ f, fuel = f + 1 := ⟨fuel - 1, by omega⟩
    show Outcome.ok (readDouble buffer offset) = _
    have hb := bitsAt_foldl buffer (bigEndian 8 bits) offset 0 rest hs
    rw [bigEndian_length, bigEndian_foldl] at hb
    have e : 0 * 256 ^ 8 + bits % 256 ^ 8 = bits := by
      have : bits % 256 ^ 8 = bits := Nat.mod_eq_of_lt (by norm_num; omega)
      omega
    rw [e] at hb
    simp only [readDouble, hb, hval, bigEndian_length]
    rfl

theorem hasField_false (k : String) (acc : List (String × JSValue))
    (h : (acc.map Prod.fst).contains k = false) : hasField k acc = false := by
  induction acc with
  | nil => rfl
  | cons e acc ih =>
    obtain ⟨k1, v1⟩ := e
    simp only [List.map_cons, List.contains_cons, Bool.or_eq_false_iff, beq_eq_false_iff_ne,
      ne_eq] at h
    have h1 : ¬ k1 = k := fun e => h.1 e.symm
    have := ih h.2
    simp only [hasField, lookupField, if_neg h1] at this ⊢
    exact this

theorem insertIndexField_append (n : Nat) (k : String) (v : JSValue)
    (acc : List (String × JSValue)) (h : (acc.map Prod.fst).all (indexBelow n) = true) :
    insertIndexField n k v acc = acc ++ [(k, v)] := by
  induction acc with
  | nil => rfl
  | cons e acc ih =>
    obtain ⟨k1, v1⟩ := e
    simp only [List.map_cons, List.all_cons, Bool.and_eq_true] at h
    have h1 := h.1
    simp only [indexBelow] at h1
    cases ha : arrayIndex k1 with
    | none => rw [ha] at h1; simp at h1
    | some m =>
      rw [ha] at h1
      simp only [decide_eq_true_eq] at h1
      simp only [insertIndexField, ha, if_pos h1, ih h.2, List.cons_append]

theorem setField_append (acc : List (String × JSValue)) (k : String) (v : JSValue)
    (rest : List String)
    (h : entriesOrderFrom (acc.map Prod.fst) (k :: rest) = true) :
    setField acc k v = .ok (acc ++ [(k, v)]) ∧
    entriesOrderFrom ((acc ++ [(k, v)]).map Prod.fst) rest = true := by
  simp only [entriesOrderFrom, Bool.and_eq_true, Bool.not_eq_true', bne_iff_ne, ne_eq] at h
  obtain ⟨⟨⟨h1, h2⟩, h3⟩, h4⟩ := h
  refine ⟨?_, by simpa using h4⟩
  unfold setField
  rw [if_neg h2, hasField_false k acc h1]
  simp only [Bool.false_eq_true, if_false]
  cases ha : arrayIndex k with
  | none => rfl
  | some n =>
    rw [ha] at h3
    simp only [insertIndexField_append n k v acc h3]

theorem inferTagType_range (v : JSValue) : 1 ≤ inferTagType v ∧ inferTagType v ≤ 11 := by
  cases v with
  | num i => simp only [inferTagType]; split_ifs <;> omega
  | arr xs =>
    cases xs with
    | nil => simp [inferTagType]
    | cons x xs => cases x <;> simp [inferTagType]
  | _ => simp [inferTagType]

theorem writeByte_small (w : NBTWriter) (n : Nat) (h : n < 256) :
    w.writeByte n = ⟨w.buffer ++ [n]⟩ := by
  have e : (toInt32 (n : Int) % 256).toNat = n := by
    simp only [toInt32]; omega
  simp only [NBTWriter.writeByte, e]

theorem writeCompound_cons (w : NBTWriter) (name : String) (value : JSValue)
    (rest : List (String × JSValue)) (hname : name ≠ "__proto__") :
    writeCompound w ((name, value) :: rest) =
      if inferTagType value = 0 then writeCompound (w.writeByte 0) rest
      else
        match (w.writeByte (inferTagType value)).writeString (.str name) with
        | .ok w1 =>
          match writeTagPayload w1 (inferTagType value) value with
          | .ok w2 => writeCompound w2 rest
          | .throw e => .throw e
          | .outOfFuel => .outOfFuel
          | .unmodelled => .unmodelled
        | .throw e => .throw e
        | .outOfFuel => .outOfFuel
        | .unmodelled => .unmodelled := by
  have h : writeCompound w ((name, value) :: rest) =
      if name = "__proto__" then
        (match value with
         | .obj _ => writeCompound w rest
         | _ => .unmodelled)
      else if inferTagType value = 0 then writeCompound (w.writeByte 0) rest
      else
        match (w.writeByte (inferTagType value)).writeString (.str name) with
        | .ok w1 =>
          match writeTagPayload w1 (inferTagType value) value with
          | .ok w2 => writeCompound w2 rest
          | .throw e => .throw e
          | .outOfFuel => .outOfFuel
          | .unmodelled => .unmodelled
        | .throw e => .throw e
        | .outOfFuel => .outOfFuel
        | .unmodelled => .unmodelled := rfl
  rw [h, if_neg hname]

theorem entries_nil : EntriesRoundTrip [] := by
  refine ⟨[0], 2, ?_, ?_, ?_⟩
  · intro w; rfl
  · intro x hx; simp only [List.mem_singleton] at hx; omega
  · intro buffer offset rest fuel acc hf _ hs
    obtain ⟨f, rfl⟩ : ∃ f, fuel = f + 2 := ⟨fuel - 2, by omega⟩
    have hb := suffixAt_byteAt _ _ _ _ hs
    show readCompound buffer (f + 1 + 1) offset acc = _
    rw [readCompound_succ, readTag_succ]
    have h0 : (readByte buffer offset).1 = some 0 := hb
    rw [if_pos h0]
    simp

theorem entries_cons (k : String) (v : JSValue) (fields : List (String × JSValue))
    (hk : stringRoundTrips k = true) (hname : k ≠ "__proto__") (hv : PayloadRoundTrips v)
    (hrest : EntriesRoundTrip fields) : EntriesRoundTrip ((k, v) :: fields) := by
  obtain ⟨bk, hwk, hltk, hrk⟩ := readString_writeString k hk
  obtain ⟨bv, fv, hwv, hltv, hrv⟩ := hv
  obtain ⟨br, fr, hwr, hltr, hrr⟩ := hrest
  obtain ⟨ty1, ty11⟩ := inferTagType_range v
  refine ⟨inferTagType v :: (bk ++ (bv ++ br)), fv + fr + 2, ?_, ?_, ?_⟩
  · intro w
    rw [writeCompound_cons _ _ _ _ hname, if_neg (by omega), writeByte_small w _ (by omega)]
    simp only [hwk, hwv, hwr, List.append_assoc, List.singleton_append]
    rfl
  · intro y hy
    simp only [List.mem_cons, List.mem_append] at hy
    rcases hy with h1 | h1 | h1 | h1
    · omega
    · exact hltk y h1
    · exact hltv y h1
    · exact hltr y h1
  · intro buffer offset rest fuel acc hf ho hs
    obtain ⟨f, rfl⟩ : ∃ f, fuel = f + 2 := ⟨fuel - 2, by omega⟩
    simp only [List.cons_append, List.append_assoc] at hs
    have hb := suffixAt_byteAt _ _ _ _ hs
    have s1 := suffixAt_succ _ _ _ _ hs
    have hname := hrk buffer (offset + 1) _ s1
    have s2 := suffixAt_append _ _ _ _ s1
    have hval := hrv buffer _ _ f (by omega) s2
    have s3 := suffixAt_append _ _ _ _ s2
    obtain ⟨hset, hord⟩ := setField_append acc k v (fields.map Prod.fst) ho
    have hloop := hrr buffer _ rest (f + 1) (acc ++ [(k, v)]) (by omega) hord s3
    have h0 : (readByte buffer offset).1 ≠ some 0 := by
      show byteAt buffer offset ≠ some 0
      rw [hb]
      intro h
      simp only [Option.some.injEq] at h
      omega
    have hty : (readByte buffer offset).1 = some (inferTagType v) := hb
    show readCompound buffer (f + 1 + 1) offset acc = _
    rw [readCompound_succ, readTag_succ, if_neg h0, hname, hty]
    simp only [hval]
    rw [if_neg (getTagTypeName_ne_end _ (by rw [← hty]; exact h0))]
    simp only [Option.getD_some, hset, hloop]
    refine congrArg Outcome.ok (Prod.ext ?_ ?_)
    · simp
    · simp only [List.length_cons, List.length_append]
      push_cast
      ring

theorem payload_obj (fields : List (String × JSValue))
    (horder : entriesOrderFrom [] (fields.map Prod.fst) = true)
    (h : EntriesRoundTrip fields) : PayloadRoundTrips (.obj fields) := by
  obtain ⟨bs, f0, hw, hlt, hr⟩ := h
  refine ⟨bs, f0 + 1, ?_, hlt, ?_⟩
  · intro w
    show writeCompound w fields = _
    exact hw w
  · intro buffer offset rest fuel hf hs
    obtain ⟨f, rfl⟩ : ∃ f, fuel = f + 1 := ⟨fuel - 1, by omega⟩
    show readCompound buffer f offset [] = _
    rw [hr buffer offset rest f [] (by omega) horder hs]
    rfl

mutual
theorem payload_roundTrips : ∀ (v : JSValue), roundTrips v = true → PayloadRoundTrips v
  | .num i, h => payload_num i h
  | .frac bits, h => payload_frac bits h
  | .str s, h => payload_str s h
  | .arr xs, h => payload_arr xs h
  | .obj fields, h => by
    have h2 : (entriesOrderFrom [] (fields.map Prod.fst) && fieldsRoundTrip fields) = true := h
    rw [Bool.and_eq_true] at h2
    exact payload_obj fields h2.1 (entries_roundTrip fields h2.2)
  | .undefined, h => by have h2 : false = true := h; cases h2
  | .null, h => by have h2 : false = true := h; cases h2
  | .u8 _, h => by have h2 : false = true := h; cases h2
theorem entries_roundTrip : ∀ (fields : List (String × JSValue)),
    fieldsRoundTrip fields = true → EntriesRoundTrip fields
  | [], _ => entries_nil
  | (k, v) :: rest, h => by
    have h2 : (stringRoundTrips k && k != "__proto__" && roundTrips v
        && fieldsRoundTrip rest) = true := h
    rw [Bool.and_eq_true, Bool.and_eq_true, Bool.and_eq_true] at h2
    exact entries_cons k v rest h2.1.1.1 (by simpa using h2.1.1.2)
      (payload_roundTrips v h2.1.2) (entries_roundTrip rest h2.2)
end

theorem map_mod_of_lt (bs : List Nat) (h : ∀ x ∈ bs, x < 256) : bs.map (· % 256) = bs := by
  induction bs with
  | nil => rfl
  | cons x bs ih =>
    simp only [List.map_cons, List.cons.injEq]
    exact ⟨Nat.mod_eq_of_lt (h x (List.mem_cons_self x bs)),
      ih fun y hy => h y (List.mem_cons_of_mem x hy)⟩

/-! ### The round trip -/

/-- C1 (counterexample): the compound with the single integer field a = 2^63 is written
as a Long with the bytes 80 00 00 00 00 00 00 00, which decode to -2^63; the compound
with the single field a = -1 is written as a Byte with the payload FF, which decodes
to 255. -/
theorem roundtrip_fails :
    writeTag NBTWriter.new 10 (.str "") (.obj [("a", .num (2 ^ 63))])
      = .ok ⟨[10, 0, 0, 4, 0, 1, 97, 128, 0, 0, 0, 0, 0, 0, 0, 0]⟩ ∧
    parse 5 (NBTWriter.build ⟨[10, 0, 0, 4, 0, 1, 97, 128, 0, 0, 0, 0, 0, 0, 0, 0]⟩)
      = .ok (.obj [("a", .num (-(2 ^ 63)))]) ∧
    writeTag NBTWriter.new 10 (.str "") (.obj [("a", .num (-1))])
      = .ok ⟨[10, 0, 0, 1, 0, 1, 97, 255, 0]⟩ ∧
    parse 5 (NBTWriter.build ⟨[10, 0, 0, 1, 0, 1, 97, 255, 0]⟩)
      = .ok (.obj [("a", .num 255)]) := by
  exact ⟨rfl, rfl, rfl, rfl⟩

/-- C1 (amended): for every compound of the kinds of `roundTrips` (integers outside
-32768..-1 that are 64-bit and binary64 values, numbers that are not integers,
well-formed strings, that is sequences of Unicode scalar values without an unpaired
surrogate, of at most 65535 UTF-8 bytes without a leading byte order mark, non-empty
arrays of 32-bit integers, and compounds of these with entries in property order),
`writeTag(10, '', t)` succeeds and, from some amount of fuel on, `parse` of the built
bytes returns exactly the compound `t`: the same names in the same order, each with the
same value. -/
theorem write_parse_roundTrip (fields : List (String × JSValue))
    (h : roundTrips (.obj fields) = true) :
    ∃ w : NBTWriter, writeTag NBTWriter.new 10 (.str "") (.obj fields) = .ok w ∧
      ∃ fuel0 : Nat, ∀ fuel, fuel0 ≤ fuel → parse fuel w.build = .ok (.obj fields) := by
  obtain ⟨bs, f0, hw, hlt, hr⟩ := payload_roundTrips (.obj fields) h
  have hw2 := hw ⟨[10, 0, 0]⟩
  have hty : inferTagType (.obj fields) = 10 := rfl
  rw [hty] at hw2 hr
  refine ⟨⟨[10, 0, 0] ++ bs⟩, ?_, f0 + 1, ?_⟩
  · show (match (NBTWriter.writeByte NBTWriter.new 10).writeString (.str "") with
      | .ok w1 => writeTagPayload w1 10 (.obj fields)
      | .throw e => .throw e
      | .outOfFuel => .outOfFuel
      | .unmodelled => .unmodelled) = _
    have e : (NBTWriter.writeByte NBTWriter.new 10).writeString (.str "")
        = .ok ⟨[10, 0, 0]⟩ := rfl
    rw [e]
    exact hw2
  · intro fuel hf
    obtain ⟨f, rfl⟩ : ∃ f, fuel = f + 1 := ⟨fuel - 1, by omega⟩
    have hall : ∀ x ∈ [10, 0, 0] ++ bs, x < 256 := by
      intro x hx
      rcases List.mem_append.mp hx with h1 | h1
      · simp only [List.mem_cons, List.mem_singleton, List.not_mem_nil, or_false] at h1
        omega
      · exact hlt x h1
    have hb : NBTParser.new (NBTWriter.build ⟨[10, 0, 0] ++ bs⟩) = [10, 0, 0] ++ bs := by
      simp only [NBTParser.new, NBTWriter.build]
      rw [map_mod_of_lt _ hall, map_mod_of_lt _ hall]
    have hs : suffixAt ([10, 0, 0] ++ bs) 3 (bs ++ []) := by
      refine ⟨by omega, ?_⟩
      simp
    have hval := hr ([10, 0, 0] ++ bs) 3 [] f (by omega) hs
    simp only [parse, hb]
    rw [readTag_succ]
    have h0 : (readByte ([10, 0, 0] ++ bs) 0).1 = some 10 := rfl
    have hn : readString ([10, 0, 0] ++ bs) (0 + 1) = ("", 3) := by
      have hs1 : suffixAt ([10, 0, 0] ++ bs) (0 + 1) ([0, 0] ++ bs) := ⟨by omega, rfl⟩
      have := readShort_at _ _ 0 0 bs hs1
      have hs3 : suffixAt ([10, 0, 0] ++ bs) (0 + 1 + 2) ([] ++ bs) := ⟨by omega, rfl⟩
      have hsl := suffixAt_slice _ _ _ _ hs3
      simp only [readString, this]
      simp only [List.length_nil, Nat.cast_zero, add_zero] at hsl
      refine Prod.ext ?_ ?_
      · have e0 : (0 : Int) + 1 + 2 + (((0 : Nat) : Int) * 256 + ((0 : Nat) : Int))
            = 0 + 1 + 2 := by simp
        simp only [e0, hsl]
        rfl
      · simp
    rw [h0, if_neg (by decide), hn, hval]

/-- C1 (witness): the sample compound is of the kinds of `roundTrips`, so it is written
and decoded back unchanged. -/
theorem write_parse_roundTrip_witness :
    roundTrips (.obj sampleCompound) = true ∧
    ∃ w : NBTWriter, writeTag NBTWriter.new 10 (.str "") (.obj sampleCompound) = .ok w ∧
      ∃ fuel0 : Nat, ∀ fuel, fuel0 ≤ fuel → parse fuel w.build = .ok (.obj sampleCompound) :=
  ⟨by decide, write_parse_roundTrip sampleCompound (by decide)⟩

/-! ### Optional fields of a parsed document -/

theorem float64OfBits_defined (bits : Nat) : float64OfBits bits ≠ .undefined := by
  unfold float64OfBits
  simp only
  split_ifs <;> simp

theorem float32OfBits_defined (bits : Nat) : float32OfBits bits ≠ .undefined := by
  unfold float32OfBits
  simp only
  split_ifs <;> simp

theorem ok_value_defined (v : JSValue) (offset1 : Int) (r : JSValue × Int)
    (h : (Outcome.ok (v, offset1) : Outcome (JSValue × Int)) = .ok r) (hv : v ≠ .undefined) :
    r.1 ≠ .undefined := by
  simp only [Outcome.ok.injEq] at h
  subst h
  exact hv

theorem readTagPayload_undefined (buffer : List Nat) (fuel : Nat) (offset : Int)
    (type : Option Nat) (r : JSValue × Int)
    (h : readTagPayload buffer (fuel + 1) offset type = .ok r) (hr : r.1 = .undefined)
    (h9 : type ≠ some 9) (h10 : type ≠ some 10) :
    byteAt buffer offset = none ∧ r.2 = offset + 1 := by
  cases type with
  | none => cases h
  | some n =>
    by_cases h13 : n < 13
    · interval_cases n
      · cases h
      · have h1 : (Outcome.ok (byteValue (readByte buffer offset).1, (readByte buffer offset).2)
            : Outcome (JSValue × Int)) = .ok r := h
        simp only [Outcome.ok.injEq] at h1
        subst h1
        simp only [readByte, byteValue] at hr ⊢
        cases hb : byteAt buffer offset with
        | none => simp
        | some b => rw [hb] at hr; cases hr
      · exact absurd hr (ok_value_defined (.num (readShort buffer offset).1) _ r h (by simp))
      · exact absurd hr (ok_value_defined (.num (readInt buffer offset).1) _ r h (by simp))
      · exact absurd hr (ok_value_defined (.num (readLong buffer offset).1) _ r h (by simp))
      · exact absurd hr (ok_value_defined (float32OfBits (bitsAt buffer 4 offset 0)) _ r h
          (float32OfBits_defined _))
      · exact absurd hr (ok_value_defined (float64OfBits (bitsAt buffer 8 offset 0)) _ r h
          (float64OfBits_defined _))
      · exact absurd hr (ok_value_defined (.u8 _) _ r h (by simp))
      · exact absurd hr (ok_value_defined (.str (readString buffer offset).1) _ r h (by simp))
      · exact absurd rfl h9
      · exact absurd rfl h10
      · exact absurd hr (ok_value_defined (.arr _) _ r h (by simp))
      · exact absurd hr (ok_value_defined (.arr _) _ r h (by simp))
    · obtain ⟨m, rfl⟩ : ∃ m, n = m + 13 := ⟨n - 13, by omega⟩
      cases h

theorem readList_value (buffer : List Nat) (fuel : Nat) (offset : Int) (r : JSValue × Int)
    (h : readList buffer fuel offset = .ok r) :
    ∃ list, r.1 = .obj [("elementType", .str (getTagTypeName (readByte buffer offset).1)),
      ("elements", .arr list)] := by
  cases fuel with
  | zero => cases h
  | succ fuel =>
    rw [readList_succ] at h
    cases hl : readListLoop buffer fuel (offset + 5) (readByte buffer offset).1
        (readInt buffer (offset + 1)).1.toNat [] with
    | ok lr =>
      rw [hl] at h
      simp only [Outcome.ok.injEq] at h
      exact ⟨lr.1, by rw [← h]⟩
    | throw e => rw [hl] at h; cases h
    | outOfFuel => rw [hl] at h; cases h
    | unmodelled => rw [hl] at h; cases h

theorem readCompound_value (buffer : List Nat) (fuel : Nat) :
    ∀ (offset : Int) (acc : List (String × JSValue)) (r : JSValue × Int),
      readCompound buffer fuel offset acc = .ok r → ∃ fields, r.1 = .obj fields := by
  induction fuel with
  | zero => intro offset acc r h; cases h
  | succ fuel ih =>
    intro offset acc r h
    rw [readCompound_succ] at h
    cases ht : readTag buffer fuel offset with
    | ok tr =>
      obtain ⟨tag, offset1⟩ := tr
      rw [ht] at h
      by_cases hend : tag.type = "end"
      · simp only [hend, if_true, Outcome.ok.injEq] at h
        exact ⟨acc, by rw [← h]⟩
      · simp only [hend, if_false] at h
        cases hs : setField acc (tag.name.getD "undefined") tag.value with
        | ok acc1 => rw [hs] at h; exact ih offset1 acc1 r h
        | throw e => rw [hs] at h; cases h
        | outOfFuel => rw [hs] at h; cases h
        | unmodelled => rw [hs] at h; cases h
    | throw e => rw [ht] at h; cases h
    | outOfFuel => rw [ht] at h; cases h
    | unmodelled => rw [ht] at h; cases h

theorem byteAt_nonneg (buffer : List Nat) (offset : Int) (b : Nat)
    (h : byteAt buffer offset = some b) : 0 ≤ offset := by
  unfold byteAt at h
  split at h
  · cases h
  · omega

theorem byteAt_none_succ (buffer : List Nat) (offset : Int) (h0 : 0 ≤ offset)
    (h : byteAt buffer offset = none) : byteAt buffer (offset + 1) = none := by
  apply byteAt_none_of_length_le
  unfold byteAt at h
  rw [if_neg (by omega)] at h
  have := List.getElem?_eq_none_iff.mp h
  omega

theorem readShort_nonneg (buffer : List Nat) (offset : Int) :
    0 ≤ (readShort buffer offset).1 := by
  unfold readShort operand
  positivity

theorem readTag_not_ok_of_none (buffer : List Nat) (fuel : Nat) (offset : Int)
    (h : byteAt buffer offset = none) (r : Tag × Int) :
    readTag buffer fuel offset ≠ .ok r := by
  intro hr
  cases fuel with
  | zero => cases hr
  | succ fuel =>
    have h0 : (readByte buffer offset).1 = none := h
    rw [readTag_succ, h0, if_neg (by simp)] at hr
    cases fuel with
    | zero => cases hr
    | succ fuel => rw [readTagPayload_unknown _ _ _ _ unknownKind_none] at hr; cases hr

/-- A tag whose value is `undefined` is a byte read past the end of the buffer, so the
next tag cannot be read. -/
theorem readTag_undefined_value (buffer : List Nat) (fuel : Nat) (offset offset1 : Int)
    (tag : Tag) (h : readTag buffer fuel offset = .ok (tag, offset1))
    (hend : tag.type ≠ "end") (hv : tag.value = .undefined) :
    byteAt buffer offset1 = none := by
  cases fuel with
  | zero => cases h
  | succ fuel =>
    rw [readTag_succ] at h
    by_cases h0 : (readByte buffer offset).1 = some 0
    · rw [if_pos h0] at h
      simp only [Outcome.ok.injEq, Prod.mk.injEq] at h
      exact absurd (by rw [← h.1]) hend
    · rw [if_neg h0] at h
      cases hp : readTagPayload buffer fuel (readString buffer (offset + 1)).2
          (readByte buffer offset).1 with
      | ok pr =>
        rw [hp] at h
        simp only [Outcome.ok.injEq, Prod.mk.injEq] at h
        obtain ⟨h1, h2⟩ := h
        have hpv : pr.1 = .undefined := by rw [← hv, ← h1]
        cases fuel with
        | zero => cases hp
        | succ fuel =>
          by_cases h9 : (readByte buffer offset).1 = some 9
          · rw [h9, readTagPayload_list] at hp
            obtain ⟨l, hl⟩ := readList_value _ _ _ _ hp
            rw [hl] at hpv
            cases hpv
          · by_cases h10 : (readByte buffer offset).1 = some 10
            · rw [h10, readTagPayload_compound] at hp
              obtain ⟨l, hl⟩ := readCompound_value _ _ _ _ _ hp
              rw [hl] at hpv
              cases hpv
            · obtain ⟨hnone, hoff⟩ := readTagPayload_undefined _ _ _ _ _ hp hpv h9 h10
              cases hb : byteAt buffer offset with
              | none =>
                have hb1 : (readByte buffer offset).1 = none := hb
                rw [hb1, readTagPayload_unknown _ _ _ _ unknownKind_none] at hp
                cases hp
              | some b =>
                have hnn := byteAt_nonneg _ _ _ hb
                have hs := readShort_nonneg buffer (offset + 1)
                have hpos : 0 ≤ (readString buffer (offset + 1)).2 := by
                  show 0 ≤ offset + 1 + 2 + (readShort buffer (offset + 1)).1
                  omega
                rw [← h2, hoff]
                exact byteAt_none_succ _ _ hpos hnone
      | throw e => rw [hp] at h; cases h
      | outOfFuel => rw [hp] at h; cases h
      | unmodelled => rw [hp] at h; cases h

theorem replaceField_noUndefined (k : String) (v : JSValue) (hv : v ≠ .undefined)
    (fields : List (String × JSValue)) (h : noUndefined fields) :
    noUndefined (replaceField k v fields) := by
  induction fields with
  | nil => exact h
  | cons p rest ih =>
    obtain ⟨k1, v1⟩ := p
    have hrest : noUndefined rest := fun q hq => h q (List.mem_cons_of_mem _ hq)
    have hp : v1 ≠ .undefined := h (k1, v1) (List.mem_cons_self _ _)
    unfold replaceField
    split_ifs
    · intro q hq
      rcases List.mem_cons.mp hq with rfl | hq
      · exact hv
      · exact hrest q hq
    · intro q hq
      rcases List.mem_cons.mp hq with rfl | hq
      · exact hp
      · exact ih hrest q hq

theorem insertIndexField_noUndefined (n : Nat) (k : String) (v : JSValue)
    (hv : v ≠ .undefined) (fields : List (String × JSValue)) (h : noUndefined fields) :
    noUndefined (insertIndexField n k v fields) := by
  induction fields with
  | nil =>
    intro q hq
    rcases List.mem_singleton.mp hq with rfl
    exact hv
  | cons p rest ih =>
    obtain ⟨k1, v1⟩ := p
    have hrest : noUndefined rest := fun q hq => h q (List.mem_cons_of_mem _ hq)
    have hp : v1 ≠ .undefined := h (k1, v1) (List.mem_cons_self _ _)
    have hnew : noUndefined ((k, v) :: (k1, v1) :: rest) := by
      intro q hq
      rcases List.mem_cons.mp hq with rfl | hq
      · exact hv
      · exact h q hq
    unfold insertIndexField
    split
    · split_ifs
      · intro q hq
        rcases List.mem_cons.mp hq with rfl | hq
        · exact hp
        · exact ih hrest q hq
      · exact hnew
    · exact hnew

theorem setField_noUndefined (fields fields1 : List (String × JSValue)) (k : String)
    (v : JSValue) (hv : v ≠ .undefined) (h : noUndefined fields)
    (hs : setField fields k v = .ok fields1) : noUndefined fields1 := by
  unfold setField at hs
  by_cases h1 : k = "__proto__"
  · rw [if_pos h1] at hs
    cases v with
    | obj pfields =>
      simp only [Outcome.ok.injEq] at hs
      rw [← hs]
      unfold setPrototype
      split_ifs
      · exact replaceField_noUndefined _ _ hv fields h
      · intro q hq
        rcases List.mem_append.mp hq with hq | hq
        · exact h q hq
        · rcases List.mem_singleton.mp hq with rfl
          exact hv
    | arr xs => cases hs
    | u8 bytes => cases hs
    | null => cases hs
    | undefined => cases hs; exact h
    | num i => cases hs; exact h
    | frac bits => cases hs; exact h
    | str t => cases hs; exact h
  · rw [if_neg h1] at hs
    by_cases h3 : hasField k fields = true
    · rw [if_pos h3] at hs
      cases hs
      exact replaceField_noUndefined k v hv fields h
    · rw [if_neg h3] at hs
      cases ha : arrayIndex k with
      | some n =>
        rw [ha] at hs
        cases hs
        exact insertIndexField_noUndefined _ k v hv fields h
      | none =>
        rw [ha] at hs
        cases hs
        intro q hq
        rcases List.mem_append.mp hq with hq | hq
        · exact h q hq
        · rcases List.mem_singleton.mp hq with rfl
          exact hv

/-- No property of a decoded compound holds `undefined`. -/
theorem readCompound_noUndefined (buffer : List Nat) (fuel : Nat) :
    ∀ (offset : Int) (acc : List (String × JSValue)) (r : JSValue × Int),
      noUndefined acc → readCompound buffer fuel offset acc = .ok r →
      ∃ fields, r.1 = .obj fields ∧ noUndefined fields := by
  induction fuel with
  | zero => intro offset acc r _ h; cases h
  | succ fuel ih =>
    intro offset acc r hacc h
    rw [readCompound_succ] at h
    cases ht : readTag buffer fuel offset with
    | ok tr =>
      obtain ⟨tag, offset1⟩ := tr
      rw [ht] at h
      by_cases hend : tag.type = "end"
      · simp only [hend, if_true, Outcome.ok.injEq] at h
        exact ⟨acc, by rw [← h], hacc⟩
      · simp only [hend, if_false] at h
        cases hs : setField acc (tag.name.getD "undefined") tag.value with
        | ok acc1 =>
          rw [hs] at h
          by_cases hv : tag.value = .undefined
          · exfalso
            have hnone := readTag_undefined_value buffer fuel offset offset1 tag ht hend hv
            cases fuel with
            | zero => cases h
            | succ fuel =>
              have h1 : readCompound buffer (fuel + 1) offset1 acc1 = .ok r := h
              rw [readCompound_succ] at h1
              cases ht1 : readTag buffer fuel offset1 with
              | ok tr1 => exact readTag_not_ok_of_none buffer fuel offset1 hnone tr1 ht1
              | throw e => rw [ht1] at h1; cases h1
              | outOfFuel => rw [ht1] at h1; cases h1
              | unmodelled => rw [ht1] at h1; cases h1
          · exact ih offset1 acc1 r (setField_noUndefined acc acc1 _ _ hv hacc hs) h
        | throw e => rw [hs] at h; cases h
        | outOfFuel => rw [hs] at h; cases h
        | unmodelled => rw [hs] at h; cases h
    | throw e => rw [ht] at h; cases h
    | outOfFuel => rw [ht] at h; cases h
    | unmodelled => rw [ht] at h; cases h

theorem lookupField_mem (k : String) (v : JSValue) (fields : List (String × JSValue))
    (h : lookupField k fields = some v) : (k, v) ∈ fields := by
  induction fields with
  | nil => cases h
  | cons p rest ih =>
    obtain ⟨k1, v1⟩ := p
    unfold lookupField at h
    split_ifs at h with hk
    · simp only [Option.some.injEq] at h
      rw [hk, h]; exact List.mem_cons_self _ _
    · exact List.mem_cons_of_mem _ (ih h)

theorem propOf_obj (fields : List (String × JSValue)) (k : String) :
    propOf (.obj fields) k
      = (match lookupField k fields with
         | some v => v
         | none => inheritedProp fields k) := rfl

theorem inheritedProp_cons (k1 : String) (v : JSValue) (rest : List (String × JSValue))
    (k : String) :
    inheritedProp ((k1, v) :: rest) k
      = (if k1 = "__proto__" then propOf v k else inheritedProp rest k) := rfl

/-- An object without the entry `__proto__` inherits no property of the names read. -/
theorem inheritedProp_none (k : String) : ∀ (fields : List (String × JSValue)),
    lookupField "__proto__" fields = none → inheritedProp fields k = .undefined
  | [], _ => rfl
  | (k1, v) :: rest, h => by
    unfold lookupField at h
    split_ifs at h with h1
    rw [inheritedProp_cons, if_neg h1]
    exact inheritedProp_none k rest h

theorem definedValue_propOf (fields : List (String × JSValue)) (k : String)
    (h : noUndefined fields) (hproto : lookupField "__proto__" fields = none) :
    definedValue (propOf (.obj fields) k) = lookupField k fields := by
  rw [propOf_obj]
  cases hl : lookupField k fields with
  | none =>
    simp only [inheritedProp_none k fields hproto]
    rfl
  | some v =>
    have hv : v ≠ .undefined := h (k, v) (lookupField_mem k v fields hl)
    cases v with
    | undefined => exact absurd rfl hv
    | _ => rfl

theorem float64OfBits_not_obj (bits : Nat) (fields : List (String × JSValue)) :
    float64OfBits bits ≠ .obj fields := by
  unfold float64OfBits
  simp only
  split_ifs <;> simp

theorem float32OfBits_not_obj (bits : Nat) (fields : List (String × JSValue)) :
    float32OfBits bits ≠ .obj fields := by
  unfold float32OfBits
  simp only
  split_ifs <;> simp

theorem ok_value_not_obj (v : JSValue) (offset1 : Int) (r : JSValue × Int)
    (h : (Outcome.ok (v, offset1) : Outcome (JSValue × Int)) = .ok r)
    (hv : ∀ fields, v ≠ .obj fields) : ∀ fields, r.1 ≠ .obj fields := by
  simp only [Outcome.ok.injEq] at h
  subst h
  exact hv

theorem readTagPayload_leaf_not_obj (buffer : List Nat) (fuel : Nat) (offset : Int)
    (type : Option Nat) (r : JSValue × Int)
    (h : readTagPayload buffer (fuel + 1) offset type = .ok r)
    (h9 : type ≠ some 9) (h10 : type ≠ some 10) : ∀ fields, r.1 ≠ .obj fields := by
  cases type with
  | none => cases h
  | some n =>
    by_cases h13 : n < 13
    · interval_cases n
      · cases h
      · refine ok_value_not_obj (byteValue (readByte buffer offset).1) _ r h ?_
        intro fields
        unfold byteValue
        split <;> simp
      · exact ok_value_not_obj (.num (readShort buffer offset).1) _ r h (by simp)
      · exact ok_value_not_obj (.num (readInt buffer offset).1) _ r h (by simp)
      · exact ok_value_not_obj (.num (readLong buffer offset).1) _ r h (by simp)
      · exact ok_value_not_obj (float32OfBits (bitsAt buffer 4 offset 0)) _ r h
          (float32OfBits_not_obj _)
      · exact ok_value_not_obj (float64OfBits (bitsAt buffer 8 offset 0)) _ r h
          (float64OfBits_not_obj _)
      · exact ok_value_not_obj (.u8 _) _ r h (by simp)
      · exact ok_value_not_obj (.str (readString buffer offset).1) _ r h (by simp)
      · exact absurd rfl h9
      · exact absurd rfl h10
      · exact ok_value_not_obj (.arr _) _ r h (by simp)
      · exact ok_value_not_obj (.arr _) _ r h (by simp)
    · obtain ⟨m, rfl⟩ : ∃ m, n = m + 13 := ⟨n - 13, by omega⟩
      cases h

/-- No property of a decoded root value holds `undefined`. -/
theorem parse_noUndefined (fuel : Nat) (buffer : List Nat) (fields : List (String × JSValue))
    (h : parse fuel buffer = .ok (.obj fields)) : noUndefined fields := by
  unfold parse at h
  cases ht : readTag (new buffer) fuel 0 with
  | ok tr =>
    obtain ⟨tag, offset1⟩ := tr
    rw [ht] at h
    simp only [Outcome.ok.injEq] at h
    cases fuel with
    | zero => cases ht
    | succ fuel =>
      rw [readTag_succ] at ht
      by_cases h0 : (readByte (new buffer) 0).1 = some 0
      · rw [if_pos h0] at ht
        simp only [Outcome.ok.injEq, Prod.mk.injEq] at ht
        rw [← ht.1] at h
        cases h
      · rw [if_neg h0] at ht
        cases hp : readTagPayload (new buffer) fuel (readString (new buffer) (0 + 1)).2
            (readByte (new buffer) 0).1 with
        | ok pr =>
          rw [hp] at ht
          simp only [Outcome.ok.injEq, Prod.mk.injEq] at ht
          have hpv : pr.1 = .obj fields := by rw [← h, ← ht.1]
          cases fuel with
          | zero => cases hp
          | succ fuel =>
            by_cases h9 : (readByte (new buffer) 0).1 = some 9
            · rw [h9, readTagPayload_list] at hp
              obtain ⟨l, hl⟩ := readList_value _ _ _ _ hp
              rw [hl] at hpv
              simp only [JSValue.obj.injEq] at hpv
              rw [← hpv]
              intro q hq
              simp only [List.mem_cons, List.mem_singleton, List.not_mem_nil, or_false] at hq
              rcases hq with rfl | rfl <;> simp
            · by_cases h10 : (readByte (new buffer) 0).1 = some 10
              · rw [h10, readTagPayload_compound] at hp
                obtain ⟨fs, hfs, hno⟩ := readCompound_noUndefined _ _ _ _ _
                  (fun q hq => absurd hq (List.not_mem_nil q)) hp
                rw [hfs] at hpv
                simp only [JSValue.obj.injEq] at hpv
                rw [← hpv]
                exact hno
              · exact absurd hpv (readTagPayload_leaf_not_obj _ _ _ _ _ hp h9 h10 fields)
        | throw e => rw [hp] at ht; cases ht
        | outOfFuel => rw [hp] at ht; cases ht
        | unmodelled => rw [hp] at ht; cases ht
  | throw e => rw [ht] at h; cases h
  | outOfFuel => rw [ht] at h; cases h
  | unmodelled => rw [ht] at h; cases h

theorem parse_definedValue (fuel : Nat) (buffer : List Nat) (nbtData : JSValue)
    (h : parse fuel buffer = .ok nbtData) (hproto : fieldOf nbtData "__proto__" = none)
    (k : String) : definedValue (propOf nbtData k) = fieldOf nbtData k := by
  cases nbtData with
  | obj fields =>
    exact definedValue_propOf fields k (parse_noUndefined fuel buffer fields h) hproto
  | _ => rfl

theorem parsePaintFile_ok (fuel : Nat) (arrayBuffer : List Nat) (paintData : PaintData)
    (h : parsePaintFile fuel arrayBuffer = .ok paintData) :
    ∃ nbtData, parse fuel arrayBuffer = .ok nbtData ∧
      extractPaintData nbtData = .ok paintData := by
  unfold parsePaintFile at h
  cases hp : parse fuel arrayBuffer with
  | ok nbtData =>
    rw [hp] at h
    simp only at h
    refine ⟨nbtData, rfl, ?_⟩
    cases he : extractPaintData nbtData with
    | ok p => rw [he] at h; simp only [Outcome.ok.injEq] at h; rw [h]
    | throw e => rw [he] at h; cases h
    | outOfFuel => rw [he] at h; cases h
    | unmodelled => rw [he] at h; cases h
  | throw e => rw [hp] at h; cases h
  | outOfFuel => rw [hp] at h; cases h
  | unmodelled => rw [hp] at h; cases h

theorem extractPaintData_ok (nbtData : JSValue) (paintData : PaintData)
    (h : extractPaintData nbtData = .ok paintData) :
    paintData.canvasType = propOf nbtData "ct" ∧
    paintData.generation = definedValue (propOf nbtData "generation") ∧
    paintData.version = definedValue (propOf nbtData "v") := by
  unfold extractPaintData at h
  cases hc : getProp nbtData "ct" with
  | ok ct =>
    rw [hc] at h
    have hct : ct = propOf nbtData "ct" := by
      unfold getProp at hc
      split at hc
      · cases hc
      · cases hc
      · simp only [Outcome.ok.injEq] at hc
        exact hc.symm
    cases hm : mapPixels (jsOr (propOf nbtData "pixels") (.arr [])) with
    | ok cs =>
      rw [hm] at h
      simp only [Outcome.ok.injEq] at h
      rw [← h]
      exact ⟨hct, rfl, rfl⟩
    | throw e => rw [hm] at h; cases h
    | outOfFuel => rw [hm] at h; cases h
    | unmodelled => rw [hm] at h; cases h
  | throw e => rw [hc] at h; cases h
  | outOfFuel => rw [hc] at h; cases h
  | unmodelled => rw [hc] at h; cases h

/-- When the decoded value has no field named `__proto__`, the document `parsePaintFile`
returns has a generation exactly when the decoded compound has a property `generation`,
and a version exactly when it has a property `v`, each with the decoded value. -/
theorem parsePaintFile_own_fields (fuel : Nat) (arrayBuffer : List Nat)
    (paintData : PaintData) (h : parsePaintFile fuel arrayBuffer = .ok paintData) :
    ∃ nbtData, parse fuel arrayBuffer = .ok nbtData ∧
      (fieldOf nbtData "__proto__" = none →
        paintData.generation = fieldOf nbtData "generation" ∧
        paintData.version = fieldOf nbtData "v") := by
  obtain ⟨nbtData, hp, he⟩ := parsePaintFile_ok fuel arrayBuffer paintData h
  obtain ⟨_, hg, hv⟩ := extractPaintData_ok nbtData paintData he
  exact ⟨nbtData, hp, fun hproto =>
    ⟨by rw [hg, parse_definedValue fuel arrayBuffer nbtData hp hproto],
     by rw [hv, parse_definedValue fuel arrayBuffer nbtData hp hproto]⟩⟩

theorem parsePaintFile_generationBytes :
    parsePaintFile 6 generationBytes = .ok generationDocument := rfl

/-- C11: the root compound of `inheritedBytes` has one field, named `__proto__`, whose
value is a compound with the field `generation` = 5.  The assignment
`compound[tag.name] = tag.value` installs that value as the prototype, so the decoded
compound has no property `generation` of its own, yet `nbtData.generation` is 5 and
the document `parsePaintFile` returns has the generation 5. -/
theorem inherited_generation :
    parse 10 inheritedBytes = .ok (.obj [("__proto__", .obj [("generation", .num 5)])]) ∧
    fieldOf (.obj [("__proto__", .obj [("generation", .num 5)])]) "generation" = none ∧
    parsePaintFile 10 inheritedBytes
      = .ok ⟨.undefined, .str "", .str "", .str "", .arr [], some (.num 5), none, []⟩ :=
  ⟨rfl, rfl, rfl⟩

/-! ### Loops over a typed array -/

theorem foldl_range_length (step : List Nat → Nat → List Nat)
    (hlen : ∀ d i, (step d i).length = d.length) (n : Nat) (d : List Nat) :
    ((List.range n).foldl step d).length = d.length := by
  induction n with
  | zero => rfl
  | succ n ih => rw [List.range_succ, List.foldl_append, List.foldl_cons, List.foldl_nil, hlen, ih]

theorem foldl_range_untouched (step : List Nat → Nat → List Nat) (j n : Nat)
    (h : ∀ i, i < n → ∀ d, (step d i)[j]? = d[j]?) (d : List Nat) :
    ((List.range n).foldl step d)[j]? = d[j]? := by
  induction n with
  | zero => rfl
  | succ n ih =>
    rw [List.range_succ, List.foldl_append, List.foldl_cons, List.foldl_nil,
      h n (Nat.lt_succ_self n), ih (fun i hi => h i (Nat.lt_succ_of_lt hi))]

theorem foldl_range_sets (step : List Nat → Nat → List Nat) (j : Nat) (v : Option Nat)
    (len n i0 : Nat) (hi0 : i0 < n) (hlen : ∀ d i, (step d i).length = d.length)
    (hset : ∀ d, d.length = len → (step d i0)[j]? = v)
    (hother : ∀ i, i < n → i ≠ i0 → ∀ d, (step d i)[j]? = d[j]?)
    (d : List Nat) (hd : d.length = len) :
    ((List.range n).foldl step d)[j]? = v := by
  induction n with
  | zero => omega
  | succ n ih =>
    rw [List.range_succ, List.foldl_append, List.foldl_cons, List.foldl_nil]
    by_cases hn : i0 = n
    · subst hn
      exact hset _ (by rw [foldl_range_length step hlen, hd])
    · rw [hother n (Nat.lt_succ_self n) (fun e => hn e.symm)]
      exact ih (by omega) (fun i hi => hother i (Nat.lt_succ_of_lt hi))

theorem setPixel_length (data : List Nat) (dataIndex : Nat) (r g b : Option Int) :
    (setPixel data dataIndex r g b).length = data.length := by
  simp [setPixel]

theorem setPixel_other (data : List Nat) (dataIndex j : Nat) (r g b : Option Int)
    (h : j < dataIndex ∨ dataIndex + 4 ≤ j) :
    (setPixel data dataIndex r g b)[j]? = data[j]? := by
  unfold setPixel
  rw [List.getElem?_set_ne (by omega), List.getElem?_set_ne (by omega),
    List.getElem?_set_ne (by omega), List.getElem?_set_ne (by omega)]

theorem setPixel_get (data : List Nat) (dataIndex c : Nat) (r g b : Option Int)
    (h : dataIndex + 3 < data.length) (hc : c < 4) :
    (setPixel data dataIndex r g b)[dataIndex + c]? = (storedPixel r g b)[c]? := by
  unfold setPixel storedPixel
  interval_cases c
  · rw [List.getElem?_set_ne (by omega), List.getElem?_set_ne (by omega),
      List.getElem?_set_ne (by omega), Nat.add_zero, List.getElem?_set_self (by omega)]
    rfl
  · rw [List.getElem?_set_ne (by omega), List.getElem?_set_ne (by omega),
      List.getElem?_set_self (by simp; omega)]
    rfl
  · rw [List.getElem?_set_ne (by omega), List.getElem?_set_self (by simp; omega)]
    rfl
  · rw [List.getElem?_set_self (by simp; omega)]
    rfl

theorem fillScaled_length (data : List Nat) (canvasWidth scale x y : Nat)
    (r g b : Option Int) :
    (fillScaled data canvasWidth scale x y r g b).length = data.length := by
  unfold fillScaled
  apply foldl_range_length
  intro d sy
  apply foldl_range_length
  intro d sx
  exact setPixel_length _ _ _ _ _

theorem fillScaled_untouched (data : List Nat) (canvasWidth scale x y : Nat)
    (r g b : Option Int) (target c : Nat) (hc : c < 4)
    (hne : ∀ sy, sy < scale → ∀ sx, sx < scale →
      (y * scale + sy) * canvasWidth + (x * scale + sx) ≠ target) :
    (fillScaled data canvasWidth scale x y r g b)[target * 4 + c]? = data[target * 4 + c]? := by
  unfold fillScaled
  apply foldl_range_untouched
  intro sy hsy d
  apply foldl_range_untouched
  intro sx hsx d
  apply setPixel_other
  have := hne sy hsy sx hsx
  omega

theorem fillScaled_sets (data : List Nat) (canvasWidth scale x y : Nat)
    (r g b : Option Int) (sy0 sx0 c : Nat) (hc : c < 4) (hsy0 : sy0 < scale)
    (hsx0 : sx0 < scale)
    (hinj : ∀ sy, sy < scale → ∀ sx, sx < scale →
      (y * scale + sy) * canvasWidth + (x * scale + sx)
        = (y * scale + sy0) * canvasWidth + (x * scale + sx0) → sy = sy0 ∧ sx = sx0)
    (hlen : ((y * scale + sy0) * canvasWidth + (x * scale + sx0)) * 4 + 3 < data.length) :
    (fillScaled data canvasWidth scale x y r g b)[
        ((y * scale + sy0) * canvasWidth + (x * scale + sx0)) * 4 + c]?
      = (storedPixel r g b)[c]? := by
  unfold fillScaled
  refine foldl_range_sets _ _ _ data.length scale sy0 hsy0 ?_ ?_ ?_ data rfl
  · intro d sy
    apply foldl_range_length
    intro d sx
    exact setPixel_length _ _ _ _ _
  · intro d hd
    refine foldl_range_sets _ _ _ data.length scale sx0 hsx0 ?_ ?_ ?_ d hd
    · intro d sx
      exact setPixel_length _ _ _ _ _
    · intro d hd
      exact setPixel_get d _ c r g b (by rw [hd]; exact hlen) hc
    · intro sx hsx hne d
      apply setPixel_other
      have h2 : (y * scale + sy0) * canvasWidth + (x * scale + sx)
          ≠ (y * scale + sy0) * canvasWidth + (x * scale + sx0) :=
        fun e => hne (hinj sy0 hsy0 sx hsx e).2
      omega
  · intro sy hsy hne d
    apply foldl_range_untouched
    intro sx hsx d
    apply setPixel_other
    have h2 : (y * scale + sy) * canvasWidth + (x * scale + sx)
        ≠ (y * scale + sy0) * canvasWidth + (x * scale + sx0) :=
      fun e => hne (hinj sy hsy sx hsx e).1
    omega

theorem fillImage_length (info : CanvasInfo) (pixelColors : List String)
    (canvasWidth scale : Nat) (data : List Nat) :
    (fillImage info pixelColors canvasWidth scale data).length = data.length := by
  unfold fillImage
  apply foldl_range_length
  intro d y
  apply foldl_range_length
  intro d x
  exact fillScaled_length _ _ _ _ _ _ _ _

theorem fillImage_sets (info : CanvasInfo) (pixelColors : List String)
    (canvasWidth scale : Nat) (data : List Nat) (y0 x0 sy0 sx0 c : Nat) (hc : c < 4)
    (hy0 : y0 < info.height) (hx0 : x0 < info.width) (hsy0 : sy0 < scale)
    (hsx0 : sx0 < scale)
    (hinj : ∀ y, y < info.height → ∀ x, x < info.width → ∀ sy, sy < scale →
      ∀ sx, sx < scale →
      (y * scale + sy) * canvasWidth + (x * scale + sx)
        = (y0 * scale + sy0) * canvasWidth + (x0 * scale + sx0) →
      y = y0 ∧ x = x0 ∧ sy = sy0 ∧ sx = sx0)
    (hlen : ((y0 * scale + sy0) * canvasWidth + (x0 * scale + sx0)) * 4 + 3 < data.length) :
    (fillImage info pixelColors canvasWidth scale data)[
        ((y0 * scale + sy0) * canvasWidth + (x0 * scale + sx0)) * 4 + c]?
      = (pixelOfColor (colorHexAt pixelColors (y0 * info.width + x0)))[c]? := by
  unfold fillImage
  refine foldl_range_sets _ _ _ data.length info.height y0 hy0 ?_ ?_ ?_ data rfl
  · intro d y
    apply foldl_range_length
    intro d x
    exact fillScaled_length _ _ _ _ _ _ _ _
  · intro d hd
    refine foldl_range_sets _ _ _ data.length info.width x0 hx0 ?_ ?_ ?_ d hd
    · intro d x
      exact fillScaled_length _ _ _ _ _ _ _ _
    · intro d hd
      exact fillScaled_sets d canvasWidth scale x0 y0 _ _ _ sy0 sx0 c hc hsy0 hsx0
        (fun sy hsy sx hsx e => (hinj y0 hy0 x0 hx0 sy hsy sx hsx e).2.2)
        (by rw [hd]; exact hlen)
    · intro x hx hne d
      apply fillScaled_untouched _ _ _ _ _ _ _ _ _ _ hc
      intro sy hsy sx hsx e
      exact hne (hinj y0 hy0 x hx sy hsy sx hsx e).2.1
  · intro y hy hne d
    apply foldl_range_untouched
    intro x hx d
    apply fillScaled_untouched _ _ _ _ _ _ _ _ _ _ hc
    intro sy hsy sx hsx e
    exact hne (hinj y hy x hx sy hsy sx hsx e).1

/-! ### Positions of the scaled pixels -/

theorem div_mod_unique (n a b a1 b1 : Nat) (hb : b < n) (hb1 : b1 < n)
    (h : a * n + b = a1 * n + b1) : a = a1 ∧ b = b1 := by
  have hn : 0 < n := by omega
  have e1 : (a * n + b) / n = a := by
    rw [Nat.add_comm, Nat.add_mul_div_right _ _ hn, Nat.div_eq_of_lt hb, Nat.zero_add]
  have e2 : (a1 * n + b1) / n = a1 := by
    rw [Nat.add_comm, Nat.add_mul_div_right _ _ hn, Nat.div_eq_of_lt hb1, Nat.zero_add]
  have ha : a = a1 := by rw [← e1, ← e2, h]
  subst ha
  exact ⟨rfl, by omega⟩

theorem scaled_lt (n scale x sx : Nat) (hx : x < n) (hsx : sx < scale) :
    x * scale + sx < n * scale := by
  have h1 : (x + 1) * scale ≤ n * scale := Nat.mul_le_mul_right scale hx
  rw [Nat.add_mul, Nat.one_mul] at h1
  omega

theorem position_injective (width scale y x sy sx y0 x0 sy0 sx0 : Nat)
    (hx : x < width) (hx0 : x0 < width) (hsy : sy < scale) (hsy0 : sy0 < scale)
    (hsx : sx < scale) (hsx0 : sx0 < scale)
    (h : (y * scale + sy) * (width * scale) + (x * scale + sx)
      = (y0 * scale + sy0) * (width * scale) + (x0 * scale + sx0)) :
    y = y0 ∧ x = x0 ∧ sy = sy0 ∧ sx = sx0 := by
  obtain ⟨h1, h2⟩ := div_mod_unique (width * scale) _ _ _ _
    (scaled_lt width scale x sx hx hsx) (scaled_lt width scale x0 sx0 hx0 hsx0) h
  obtain ⟨h3, h4⟩ := div_mod_unique scale _ _ _ _ hsy hsy0 h1
  obtain ⟨h5, h6⟩ := div_mod_unique scale _ _ _ _ hsx hsx0 h2
  exact ⟨h3, h5, h4, h6⟩

theorem position_lt (width height scale y x sy sx : Nat) (hy : y < height)
    (hx : x < width) (hsy : sy < scale) (hsx : sx < scale) :
    (y * scale + sy) * (width * scale) + (x * scale + sx)
      < width * scale * (height * scale) := by
  have h1 := scaled_lt width scale x sx hx hsx
  have h2 := scaled_lt height scale y sy hy hsy
  have h3 : (y * scale + sy + 1) * (width * scale) ≤ height * scale * (width * scale) :=
    Nat.mul_le_mul_right _ h2
  rw [Nat.add_mul, Nat.one_mul] at h3
  rw [Nat.mul_comm (width * scale) (height * scale)]
  omega

/-! ### The table of canvas types -/

theorem canvasInfo_entries (canvasType : JSValue) (info : CanvasInfo)
    (h : canvasInfo canvasType = .ok (some info)) :
    info = ⟨"Small", 16, 16⟩ ∨ info = ⟨"Large", 32, 32⟩ ∨ info = ⟨"Long", 32, 16⟩
      ∨ info = ⟨"Tall", 16, 32⟩ := by
  have key : ∀ n, CANVAS_TYPES n = some info →
      info = ⟨"Small", 16, 16⟩ ∨ info = ⟨"Large", 32, 32⟩ ∨ info = ⟨"Long", 32, 16⟩
        ∨ info = ⟨"Tall", 16, 32⟩ := by
    intro n hn
    match n, hn with
    | 0, hn => left; exact (Option.some.inj hn).symm
    | 1, hn => right; left; exact (Option.some.inj hn).symm
    | 2, hn => right; right; left; exact (Option.some.inj hn).symm
    | 3, hn => right; right; right; exact (Option.some.inj hn).symm
    | _ + 4, hn => cases hn
  cases canvasType with
  | num i =>
    simp only [canvasInfo, Outcome.ok.injEq] at h
    split_ifs at h
    exact key _ h
  | str s =>
    simp only [canvasInfo] at h
    split_ifs at h
    all_goals first
      | exact key _ (Outcome.ok.inj h)
      | cases h
  | undefined => cases h
  | null => cases h
  | frac bits => cases h
  | arr xs => cases h
  | u8 bytes => cases h
  | obj fields => cases h

theorem canvasInfo_pos (canvasType : JSValue) (info : CanvasInfo)
    (h : canvasInfo canvasType = .ok (some info)) : 0 < info.width ∧ 0 < info.height := by
  rcases canvasInfo_entries canvasType info h with rfl | rfl | rfl | rfl <;> decide

theorem canvasInfo_num_unknown (i : Int) (h : i < 0 ∨ 3 < i) :
    canvasInfo (.num i) = .ok none := by
  unfold canvasInfo
  simp only [Outcome.ok.injEq]
  split_ifs with h0
  · obtain ⟨n, hn⟩ : ∃ n, i.toNat = n + 4 := ⟨i.toNat - 4, by omega⟩
    rw [hn]
    rfl
  · rfl

/-! ### The raster of `paintToImage` -/

theorem paintToImage_ok (paintData : PaintData) (info : CanvasInfo) (scale : Int)
    (hinfo : canvasInfo paintData.canvasType = .ok (some info)) (hscale : 1 ≤ scale) :
    paintToImage paintData (some scale) =
      .ok ⟨info.width * scale.toNat, info.height * scale.toNat,
        fillImage info paintData.pixelColors (info.width * scale.toNat) scale.toNat
          (List.replicate (info.width * scale.toNat * (info.height * scale.toNat) * 4) 0)⟩ := by
  obtain ⟨hw, hh⟩ := canvasInfo_pos _ _ hinfo
  obtain ⟨n, rfl⟩ : ∃ n : Nat, scale = (n : Int) := ⟨scale.toNat, by omega⟩
  have hn : 1 ≤ n := by omega
  have e1 : canvasSize ((info.width : Int) * (n : Int)) 300 = info.width * n := by
    unfold canvasSize
    rw [if_pos (by positivity)]
    exact_mod_cast Int.toNat_natCast (info.width * n)
  have e2 : canvasSize ((info.height : Int) * (n : Int)) 150 = info.height * n := by
    unfold canvasSize
    rw [if_pos (by positivity)]
    exact_mod_cast Int.toNat_natCast (info.height * n)
  have hne : ¬ (info.width * n = 0 ∨ info.height * n = 0) := by
    intro h
    rcases h with h | h
    · exact absurd h (Nat.mul_ne_zero (by omega) (by omega))
    · exact absurd h (Nat.mul_ne_zero (by omega) (by omega))
  unfold paintToImage
  rw [hinfo]
  simp only [Option.getD_some, Int.toNat_ofNat, e1, e2, createImageData, if_neg hne]

/-- The bytes of one scaled pixel after `paintToImage`. -/
theorem paintToImage_data (paintData : PaintData) (info : CanvasInfo) (scale : Nat)
    (y x sy sx c : Nat) (hc : c < 4) (hy : y < info.height) (hx : x < info.width)
    (hsy : sy < scale) (hsx : sx < scale) :
    (fillImage info paintData.pixelColors (info.width * scale) scale
        (List.replicate (info.width * scale * (info.height * scale) * 4) 0))[
      ((y * scale + sy) * (info.width * scale) + (x * scale + sx)) * 4 + c]?
      = (pixelOfColor (colorHexAt paintData.pixelColors (y * info.width + x)))[c]? := by
  apply fillImage_sets info paintData.pixelColors (info.width * scale) scale _ y x sy sx c
    hc hy hx hsy hsx
  · intro y1 _ x1 hx1 sy1 hsy1 sx1 hsx1 e
    exact position_injective info.width scale y1 x1 sy1 sx1 y x sy sx hx1 hx hsy1 hsy hsx1
      hsx e
  · rw [List.length_replicate]
    have := position_lt info.width info.height scale y x sy sx hy hx hsy hsx
    omega

theorem pixelAt_eq (data : List Nat) (index : Nat) (pixel : List Nat)
    (hp : pixel.length = 4)
    (h : ∀ c, c < 4 → data[index * 4 + c]? = pixel[c]?) : pixelAt data index = pixel := by
  apply List.ext_getElem?
  intro c
  unfold pixelAt
  rw [List.getElem?_take]
  split_ifs with hc
  · rw [List.getElem?_drop]
    exact h c hc
  · exact (List.getElem?_eq_none (by omega)).symm

theorem pixelOfColor_length (colorHex : String) : (pixelOfColor colorHex).length = 4 := rfl

/-- The pixel at (`x * scale + sx`, `y * scale + sy`) of the raster `paintToImage`
returns is the pixel of the colour number `y * width + x`. -/
theorem paintToImage_pixel (paintData : PaintData) (info : CanvasInfo) (scale : Int)
    (canvas : Canvas) (hinfo : canvasInfo paintData.canvasType = .ok (some info))
    (hscale : 1 ≤ scale) (hcanvas : paintToImage paintData (some scale) = .ok canvas)
    (y x sy sx : Nat) (hy : y < info.height) (hx : x < info.width)
    (hsy : sy < scale.toNat) (hsx : sx < scale.toNat) :
    pixelAt canvas.data ((y * scale.toNat + sy) * canvas.width + (x * scale.toNat + sx))
      = pixelOfColor (colorHexAt paintData.pixelColors (y * info.width + x)) := by
  rw [paintToImage_ok paintData info scale hinfo hscale] at hcanvas
  simp only [Outcome.ok.injEq] at hcanvas
  subst hcanvas
  apply pixelAt_eq _ _ _ (pixelOfColor_length _)
  intro c hc
  exact paintToImage_data paintData info scale.toNat y x sy sx c hc hy hx hsy hsx

theorem foldl_range_congr (f g : List Nat → Nat → List Nat) (n : Nat)
    (h : ∀ i, i < n → ∀ d, f d i = g d i) (d : List Nat) :
    (List.range n).foldl f d = (List.range n).foldl g d := by
  induction n with
  | zero => rfl
  | succ n ih =>
    rw [List.range_succ, List.foldl_append, List.foldl_append, List.foldl_cons,
      List.foldl_cons, List.foldl_nil, List.foldl_nil,
      ih (fun i hi => h i (Nat.lt_succ_of_lt hi)), h n (Nat.lt_succ_self n)]

theorem foldl_range_id (f : List Nat → Nat → List Nat) (n : Nat) (h : ∀ d i, f d i = d)
    (d : List Nat) : (List.range n).foldl f d = d := by
  induction n with
  | zero => rfl
  | succ n ih => rw [List.range_succ, List.foldl_append, List.foldl_cons, List.foldl_nil, h, ih]

theorem fillImage_congr (info : CanvasInfo) (colors1 colors2 : List String)
    (canvasWidth scale : Nat) (data : List Nat)
    (h : ∀ i, i < info.width * info.height → colorHexAt colors1 i = colorHexAt colors2 i) :
    fillImage info colors1 canvasWidth scale data
      = fillImage info colors2 canvasWidth scale data := by
  unfold fillImage
  apply foldl_range_congr
  intro y hy d
  apply foldl_range_congr
  intro x hx d
  have hlt : y * info.width + x < info.width * info.height := by
    have := scaled_lt info.height info.width y x hy hx
    rw [Nat.mul_comm info.width info.height]
    exact this
  simp only [h _ hlt]

theorem fillImage_scale_zero (info : CanvasInfo) (pixelColors : List String)
    (canvasWidth : Nat) (data : List Nat) :
    fillImage info pixelColors canvasWidth 0 data = data := by
  unfold fillImage
  apply foldl_range_id
  intro d y
  apply foldl_range_id
  intro d x
  rfl

theorem colorHexAt_take (pixelColors : List String) (n i : Nat) (h : i < n) :
    colorHexAt (pixelColors.take n) i = colorHexAt pixelColors i := by
  unfold colorHexAt
  rw [List.getElem?_take, if_pos h]

theorem colorHexAt_past_end (pixelColors : List String) (i : Nat)
    (h : pixelColors.length ≤ i) : colorHexAt pixelColors i = "000000" := by
  unfold colorHexAt
  rw [List.getElem?_eq_none h]

theorem paintToImage_congr (paintData other : PaintData) (info : CanvasInfo)
    (scale : Option Int) (hinfo : canvasInfo paintData.canvasType = .ok (some info))
    (htype : other.canvasType = paintData.canvasType)
    (h : ∀ i, i < info.width * info.height →
      colorHexAt other.pixelColors i = colorHexAt paintData.pixelColors i) :
    paintToImage other scale = paintToImage paintData scale := by
  unfold paintToImage
  rw [htype, hinfo]
  simp only
  cases createImageData (canvasSize (info.width * scale.getD 1) 300)
      (canvasSize (info.height * scale.getD 1) 150) with
  | ok data => simp only [fillImage_congr info _ _ _ _ data h]
  | throw e => rfl
  | outOfFuel => rfl
  | unmodelled => rfl

/-! ### Claims on `paintToImage` -/

/-- C16: for a document whose canvas type has the table entry `info` and a colour
sequence of any length, `paintToImage` returns a raster; a canvas position at or past
the end of the sequence is opaque black, and the raster is the one of the first
`width * height` colours, so the entries from `width * height` on have no effect. -/
theorem paintToImage_any_length (paintData : PaintData) (info : CanvasInfo) (scale : Int)
    (hinfo : canvasInfo paintData.canvasType = .ok (some info)) (hscale : 1 ≤ scale) :
    ∃ canvas, paintToImage paintData (some scale) = .ok canvas ∧
      (∀ y x sy sx, y < info.height → x < info.width → sy < scale.toNat →
        sx < scale.toNat → paintData.pixelColors.length ≤ y * info.width + x →
        pixelAt canvas.data
            ((y * scale.toNat + sy) * canvas.width + (x * scale.toNat + sx))
          = [0, 0, 0, 255]) ∧
      paintToImage ⟨paintData.canvasType, paintData.author, paintData.title,
          paintData.name, paintData.pixels, paintData.generation, paintData.version,
          paintData.pixelColors.take (info.width * info.height)⟩ (some scale)
        = .ok canvas := by
  have hok := paintToImage_ok paintData info scale hinfo hscale
  refine ⟨_, hok, ?_, ?_⟩
  · intro y x sy sx hy hx hsy hsx hlen
    rw [paintToImage_pixel paintData info scale _ hinfo hscale hok y x sy sx hy hx hsy hsx,
      colorHexAt_past_end _ _ hlen]
    rfl
  · rw [← hok]
    exact paintToImage_congr paintData _ info (some scale) hinfo rfl
      (fun i hi => colorHexAt_take _ _ _ hi)

/-- C16 (witness): the document `sampleSmallDocument`, which has two colours. -/
theorem paintToImage_any_length_witness :
    canvasInfo sampleSmallDocument.canvasType = .ok (some ⟨"Small", 16, 16⟩) ∧
    (1 : Int) ≤ 1 ∧
    ∃ canvas, paintToImage sampleSmallDocument (some 1) = .ok canvas ∧
      pixelAt canvas.data ((5 * 1 + 0) * canvas.width + (3 * 1 + 0)) = [0, 0, 0, 255] :=
  ⟨rfl, by decide,
    (paintToImage_any_length sampleSmallDocument ⟨"Small", 16, 16⟩ 1 rfl (by decide)).imp
      fun _ h => ⟨h.1, h.2.1 5 3 0 0 (by decide) (by decide) (by decide) (by decide)
        (by decide)⟩⟩

/-- C15 (counterexample): with the scale 0 `paintToImage` does not return the raster of
the scale 1; it fails, because the browser rejects an image of 0 by 0 pixels. -/
theorem paintToImage_scale_zero_fails :
    paintToImage sampleSmallDocument (some 0) = .throw .indexSizeError ∧
    paintToImage sampleSmallDocument (some 0) ≠ paintToImage sampleSmallDocument (some 1) := by
  refine ⟨rfl, ?_⟩
  rw [paintToImage_ok sampleSmallDocument ⟨"Small", 16, 16⟩ 1 rfl (by decide)]
  intro h
  have h2 : (Outcome.throw .indexSizeError : Outcome Canvas) = .ok _ := h
  cases h2

/-- C15 (amended): `paintToImage` does not clamp a scale below 1.  For a document whose
canvas type is in the table, the scale 0 (the value `getImageScale` returns for a target
size smaller than the canvas) fails with the `IndexSizeError` of an empty image, a
negative scale returns the untouched transparent canvas of the default size 300 by
150, and only an omitted scale is replaced by 1. -/
theorem paintToImage_not_clamped (paintData : PaintData) (info : CanvasInfo)
    (hinfo : canvasInfo paintData.canvasType = .ok (some info)) :
    paintToImage paintData (some 0) = .throw .indexSizeError ∧
    (∀ targetSize, targetSize < max info.width info.height →
      paintToImage paintData (some (getImageScale targetSize info))
        = .throw .indexSizeError) ∧
    (∀ scale : Int, scale < 0 →
      paintToImage paintData (some scale) = .ok ⟨300, 150, List.replicate (300 * 150 * 4) 0⟩) ∧
    paintToImage paintData none = paintToImage paintData (some 1) := by
  obtain ⟨hw, hh⟩ := canvasInfo_pos _ _ hinfo
  have hzero : paintToImage paintData (some 0) = .throw .indexSizeError := by
    unfold paintToImage
    rw [hinfo]
    rfl
  refine ⟨hzero, ?_, ?_, rfl⟩
  · intro targetSize hsize
    unfold getImageScale
    rw [Nat.div_eq_of_lt hsize]
    exact hzero
  · intro scale hscale
    have e1 : canvasSize ((info.width : Int) * scale) 300 = 300 := by
      unfold canvasSize
      rw [if_neg]
      have : (info.width : Int) * scale < 0 :=
        Int.mul_neg_of_pos_of_neg (by exact_mod_cast hw) hscale
      omega
    have e2 : canvasSize ((info.height : Int) * scale) 150 = 150 := by
      unfold canvasSize
      rw [if_neg]
      have : (info.height : Int) * scale < 0 :=
        Int.mul_neg_of_pos_of_neg (by exact_mod_cast hh) hscale
      omega
    have e3 : scale.toNat = 0 := by omega
    unfold paintToImage
    rw [hinfo]
    simp only [Option.getD_some, e1, e2, e3, fillImage_scale_zero]
    rfl

/-- C15 (witness): the document `sampleSmallDocument`. -/
theorem paintToImage_not_clamped_witness :
    canvasInfo sampleSmallDocument.canvasType = .ok (some ⟨"Small", 16, 16⟩) ∧
    paintToImage sampleSmallDocument (some 0) = .throw .indexSizeError ∧
    (∀ targetSize, targetSize < max 16 16 →
      paintToImage sampleSmallDocument (some (getImageScale targetSize ⟨"Small", 16, 16⟩))
        = .throw .indexSizeError) ∧
    (∀ scale : Int, scale < 0 →
      paintToImage sampleSmallDocument (some scale)
        = .ok ⟨300, 150, List.replicate (300 * 150 * 4) 0⟩) ∧
    paintToImage sampleSmallDocument none = paintToImage sampleSmallDocument (some 1) :=
  ⟨rfl, paintToImage_not_clamped sampleSmallDocument ⟨"Small", 16, 16⟩ rfl⟩

/-! ### The canvas type -/

theorem paintToImage_unknown_type (paintData : PaintData) (scale : Option Int)
    (h : canvasInfo paintData.canvasType = .ok none) :
    paintToImage paintData scale = .throw (.unknownCanvasType paintData.canvasType) := by
  unfold paintToImage
  rw [h]

theorem imageToPaint_unknown_type (raster : Nat → Nat → List Nat)
    (canvasType title author name : JSValue) (now : Nat)
    (h : canvasInfo canvasType = .ok none) :
    imageToPaint raster canvasType title author name now
      = .throw (.unknownCanvasType canvasType) := by
  unfold imageToPaint
  rw [h]

theorem splitImageToMultiCanvas_unknown_type (sections : Nat → Nat → Nat → Nat → List Nat)
    (clock : Nat → Nat) (canvasType : JSValue) (gridWidth gridHeight : Nat)
    (title : String) (author generation version : JSValue)
    (h : canvasInfo canvasType = .ok none) :
    splitImageToMultiCanvas sections clock canvasType gridWidth gridHeight title author
      generation version = .throw .typeError := by
  unfold splitImageToMultiCanvas
  rw [h]

/-- C12: the table maps 0 to 16 by 16, 1 to 32 by 32, 2 to 32 by 16 and 3 to 16 by 32.
For an integer outside 0 ... 3 `paintToImage` and `imageToPaint` fail with the error
"Unknown canvas type", but `splitImageToMultiCanvas` fails with a `TypeError`: it reads
`canvasInfo.width` without the test its two siblings make. -/
theorem canvas_type_lookup (i : Int) (h : i < 0 ∨ 3 < i) :
    (CANVAS_TYPES 0 = some ⟨"Small", 16, 16⟩ ∧ CANVAS_TYPES 1 = some ⟨"Large", 32, 32⟩ ∧
      CANVAS_TYPES 2 = some ⟨"Long", 32, 16⟩ ∧ CANVAS_TYPES 3 = some ⟨"Tall", 16, 32⟩) ∧
    (∀ (paintData : PaintData) (scale : Option Int), paintData.canvasType = .num i →
      paintToImage paintData scale = .throw (.unknownCanvasType (.num i))) ∧
    (∀ (raster : Nat → Nat → List Nat) (title author name : JSValue) (now : Nat),
      imageToPaint raster (.num i) title author name now
        = .throw (.unknownCanvasType (.num i))) ∧
    (∀ (sections : Nat → Nat → Nat → Nat → List Nat) (clock : Nat → Nat)
      (gridWidth gridHeight : Nat) (title : String) (author generation version : JSValue),
      splitImageToMultiCanvas sections clock (.num i) gridWidth gridHeight title author
        generation version = .throw .typeError) := by
  have hi := canvasInfo_num_unknown i h
  refine ⟨⟨rfl, rfl, rfl, rfl⟩, ?_, ?_, ?_⟩
  · intro paintData scale hct
    rw [paintToImage_unknown_type paintData scale (by rw [hct]; exact hi), hct]
  · intro raster title author name now
    exact imageToPaint_unknown_type raster _ title author name now hi
  · intro sections clock gridWidth gridHeight title author generation version
    exact splitImageToMultiCanvas_unknown_type sections clock _ gridWidth gridHeight title
      author generation version hi

/-- C12 (witness): the canvas type 4. -/
theorem canvas_type_lookup_witness :
    ((4 : Int) < 0 ∨ (3 : Int) < 4) ∧
    splitImageToMultiCanvas (fun _ _ _ _ => []) (fun _ => 0) (.num 4) 2 2 "Sunset"
      (.str "") (.num 0) (.num 99) = .throw .typeError ∧
    imageToPaint (fun _ _ => []) (.num 4) (.str "") (.str "") .null 0
      = .throw (.unknownCanvasType (.num 4)) :=
  ⟨by decide, (canvas_type_lookup 4 (by decide)).2.2.2 _ _ _ _ _ _ _ _,
    (canvas_type_lookup 4 (by decide)).2.2.1 _ _ _ _ _⟩

/-- C13 (counterexample): the document `unknownTypeDocument` has the canvas type 7, yet
`createPaintFile` returns its bytes and `parsePaintFile` returns the document from
them. -/
theorem unknown_type_file :
    createPaintFile unknownTypeDocument = .ok unknownTypeBytes ∧
    parsePaintFile 10 unknownTypeBytes = .ok unknownTypeDocument ∧
    unknownTypeDocument.canvasType = .num 7 :=
  ⟨rfl, rfl, rfl⟩

theorem createCompound_ct (paintData : PaintData) (compound : List (String × JSValue))
    (h : createCompound paintData = .ok compound) :
    lookupField "ct" compound = some paintData.canvasType := by
  unfold createCompound at h
  cases ht : andTrim paintData.title with
  | ok hasTitle =>
    rw [ht] at h
    cases ha : andTrim paintData.author with
    | ok hasAuthor =>
      rw [ha] at h
      simp only [Outcome.ok.injEq] at h
      rw [← h]
      rfl
    | throw e => rw [ha] at h; cases h
    | outOfFuel => rw [ha] at h; cases h
    | unmodelled => rw [ha] at h; cases h
  | throw e => rw [ht] at h; cases h
  | outOfFuel => rw [ht] at h; cases h
  | unmodelled => rw [ht] at h; cases h

theorem createPaintFile_ok (paintData : PaintData) (bytes : List Nat)
    (h : createPaintFile paintData = .ok bytes) :
    ∃ compound writer, createCompound paintData = .ok compound ∧
      NBTWriter.writeTag NBTWriter.new 10 (.str "") (.obj compound) = .ok writer ∧
      writer.build = bytes := by
  unfold createPaintFile at h
  cases hc : createCompound paintData with
  | ok compound =>
    rw [hc] at h
    simp only at h
    cases hw : NBTWriter.writeTag NBTWriter.new 10 (.str "") (.obj compound) with
    | ok writer =>
      rw [hw] at h
      simp only [Outcome.ok.injEq] at h
      exact ⟨compound, writer, rfl, hw, h⟩
    | throw e => rw [hw] at h; cases h
    | outOfFuel => rw [hw] at h; cases h
    | unmodelled => rw [hw] at h; cases h
  | throw e => rw [hc] at h; cases h
  | outOfFuel => rw [hc] at h; cases h
  | unmodelled => rw [hc] at h; cases h

/-! ### From an image to a document and back -/

theorem hexOfRGB_eq (r g b : Nat) (hr : r ≤ 255) (hg : g ≤ 255) (hb : b ≤ 255) :
    hexOfRGB r g b = ⟨hexDigits 2 r ++ hexDigits 2 g ++ hexDigits 2 b⟩ := by
  have hn : r * 2 ^ 16 + g * 2 ^ 8 + b < 16 ^ (5 + 1) := by norm_num; omega
  have e1 := hexDigits_split 2 4 (r * 2 ^ 16 + g * 2 ^ 8 + b)
  have e2 := hexDigits_split 2 2 ((r * 2 ^ 16 + g * 2 ^ 8 + b) / 16 ^ 2)
  have e3 : (r * 2 ^ 16 + g * 2 ^ 8 + b) / 16 ^ 2 / 16 ^ 2 = r := by norm_num; omega
  have m4 : (r * 2 ^ 16 + g * 2 ^ 8 + b) / 16 ^ 2 % 16 ^ 2 = g := by norm_num; omega
  have m5 : (r * 2 ^ 16 + g * 2 ^ 8 + b) % 16 ^ 2 = b := by norm_num; omega
  have e4 : hexDigits 2 ((r * 2 ^ 16 + g * 2 ^ 8 + b) / 16 ^ 2) = hexDigits 2 g := by
    rw [← hexDigits_mod 2 ((r * 2 ^ 16 + g * 2 ^ 8 + b) / 16 ^ 2), m4]
  have e5 : hexDigits 2 (r * 2 ^ 16 + g * 2 ^ 8 + b) = hexDigits 2 b := by
    rw [← hexDigits_mod 2 (r * 2 ^ 16 + g * 2 ^ 8 + b), m5]
  simp only [Nat.reduceAdd] at e1 e2
  rw [hexOfRGB, padStart_toStringHex 5 _ hn, e1, e2, e3, e4, e5]

set_option maxRecDepth 100000 in
theorem parseIntHex_hexDigits (r : Nat) (hr : r < 256) :
    toUint8Clamped (parseIntHex ((hexDigits 2 r).map Char.toNat)) = r := by
  revert r
  decide

/-- The code units of a string of characters below U+10000 are its characters. -/
theorem utf16_bmp : ∀ (cs : List Char), (∀ c ∈ cs, c.toNat < 0x10000) →
    utf16 ⟨cs⟩ = cs.map Char.toNat
  | [], _ => rfl
  | c :: cs, h => by
    have ih := utf16_bmp cs (fun d hd => h d (List.mem_cons_of_mem _ hd))
    have hc := h c (List.mem_cons_self _ _)
    unfold utf16 at ih ⊢
    simp only [List.flatMap_cons, if_pos hc, List.map_cons, List.singleton_append]
    rw [ih]

theorem digitChar_bmp (d : Nat) (h : d < 16) : (Nat.digitChar d).toNat < 0x10000 := by
  interval_cases d <;> decide

theorem hexDigits_bmp (k : Nat) : ∀ n, ∀ c ∈ hexDigits k n, c.toNat < 0x10000 := by
  induction k with
  | zero => intro n c hc; cases hc
  | succ k ih =>
    intro n c hc
    simp only [hexDigits, List.mem_append, List.mem_singleton] at hc
    rcases hc with hc | rfl
    · exact ih _ c hc
    · exact digitChar_bmp _ (Nat.mod_lt _ (by decide))

theorem pixelOfColor_hexOfRGB (r g b : Nat) (hr : r ≤ 255) (hg : g ≤ 255) (hb : b ≤ 255) :
    pixelOfColor (hexOfRGB r g b) = [r, g, b, 255] := by
  have l2 : ∀ n, ((hexDigits 2 n).map Char.toNat).length = 2 := by
    intro n; rw [List.length_map]; exact hexDigits_length 2 n
  have hu : utf16 ⟨hexDigits 2 r ++ hexDigits 2 g ++ hexDigits 2 b⟩
      = (hexDigits 2 r).map Char.toNat
        ++ ((hexDigits 2 g).map Char.toNat ++ (hexDigits 2 b).map Char.toNat) := by
    rw [utf16_bmp, List.map_append, List.map_append, List.append_assoc]
    intro c hc
    simp only [List.mem_append] at hc
    rcases hc with (hc | hc) | hc <;> exact hexDigits_bmp 2 _ c hc
  have s1 : substringFromTo ⟨hexDigits 2 r ++ hexDigits 2 g ++ hexDigits 2 b⟩ 0 2
      = (hexDigits 2 r).map Char.toNat := by
    simp only [substringFromTo, List.drop_zero, hu]
    rw [List.take_append_of_le_length (by rw [l2]), List.take_of_length_le (by rw [l2])]
  have s2 : substringFromTo ⟨hexDigits 2 r ++ hexDigits 2 g ++ hexDigits 2 b⟩ 2 4
      = (hexDigits 2 g).map Char.toNat := by
    simp only [substringFromTo, hu]
    rw [← List.append_assoc, List.take_append_of_le_length (by simp [l2]),
      List.take_of_length_le (by simp [l2]),
      List.drop_append_of_le_length (by rw [l2]), List.drop_of_length_le (by rw [l2]),
      List.nil_append]
  have s3 : substringFromTo ⟨hexDigits 2 r ++ hexDigits 2 g ++ hexDigits 2 b⟩ 4 6
      = (hexDigits 2 b).map Char.toNat := by
    simp only [substringFromTo, hu]
    rw [← List.append_assoc, List.take_of_length_le (by simp [l2]),
      List.drop_append_of_le_length (by simp [l2]),
      List.drop_of_length_le (by simp [l2]), List.nil_append]
  rw [hexOfRGB_eq r g b hr hg hb]
  unfold pixelOfColor storedPixel
  rw [s1, s2, s3, parseIntHex_hexDigits r (by omega), parseIntHex_hexDigits g (by omega),
    parseIntHex_hexDigits b (by omega)]

theorem hexOfRGB_ne_empty (r g b : Nat) (hr : r ≤ 255) (hg : g ≤ 255) (hb : b ≤ 255) :
    hexOfRGB r g b ≠ "" := by
  rw [hexOfRGB_eq r g b hr hg hb]
  intro h
  have h2 := congrArg String.length h
  simp [String.length, hexDigits_length] at h2

/-- The colour `imageToPaint` stores for the pixel number `i` of its raster. -/
theorem convertPixels_colors : ∀ (data : List Nat) (i : Nat), i * 4 + 3 < data.length →
    (convertPixels data).2[i]? = some (hexOfRGB (data[i * 4]?.getD 0)
      (data[i * 4 + 1]?.getD 0) (data[i * 4 + 2]?.getD 0))
  | [], _, h => by
    exfalso; simp only [List.length_nil] at h; omega
  | [_], _, h => by
    exfalso; simp only [List.length_cons, List.length_nil] at h; omega
  | [_, _], _, h => by
    exfalso; simp only [List.length_cons, List.length_nil] at h; omega
  | [_, _, _], _, h => by
    exfalso; simp only [List.length_cons, List.length_nil] at h; omega
  | r :: g :: b :: a :: rest, 0, _ => by simp [convertPixels]
  | r :: g :: b :: a :: rest, i + 1, h => by
    have ih := convertPixels_colors rest i
      (by simp only [List.length_cons] at h; omega)
    have e0 : (i + 1) * 4 = i * 4 + 1 + 1 + 1 + 1 := by omega
    rw [e0]
    simp only [convertPixels, List.getElem?_cons_succ]
    exact ih

theorem pixelAt_getElem? (data : List Nat) (index c : Nat) (hc : c < 4) :
    (pixelAt data index)[c]? = data[index * 4 + c]? := by
  unfold pixelAt
  rw [List.getElem?_take, if_pos hc, List.getElem?_drop]

theorem getD_le_of_forall (data : List Nat) (j : Nat) (h : ∀ b ∈ data, b ≤ 255) :
    data[j]?.getD 0 ≤ 255 := by
  cases hj : data[j]? with
  | none => simp
  | some b => exact h b (List.mem_iff_getElem?.mpr ⟨j, hj⟩)

theorem imageToPaint_ok (raster : Nat → Nat → List Nat) (canvasType title author name : JSValue)
    (now : Nat) (info : CanvasInfo) (hinfo : canvasInfo canvasType = .ok (some info)) :
    ∃ document, imageToPaint raster canvasType title author name now = .ok document ∧
      document.canvasType = canvasType ∧
      document.pixelColors = (convertPixels (raster info.width info.height)).2 ∧
      document.name
        = (if truthy name then name else .str (ROOT_UUID ++ "_" ++ toString (now / 1000))) ∧
      document.title = jsOr title (.str "") := by
  unfold imageToPaint
  rw [hinfo]
  exact ⟨_, rfl, rfl, rfl, rfl, rfl⟩

/-- The raster `paintToImage` returns at the scale 1 for a document `imageToPaint`
made: the colour channels of the source and the alpha 255. -/
theorem paintToImage_imageToPaint_pixel (document : PaintData) (info : CanvasInfo)
    (data : List Nat) (canvas : Canvas)
    (hinfo : canvasInfo document.canvasType = .ok (some info))
    (hcolors : document.pixelColors = (convertPixels data).2)
    (hlen : data.length = info.width * info.height * 4) (hbytes : ∀ b ∈ data, b ≤ 255)
    (hcanvas : paintToImage document (some 1) = .ok canvas) (i : Nat)
    (hi : i < info.width * info.height) :
    pixelAt canvas.data i
      = [data[i * 4]?.getD 0, data[i * 4 + 1]?.getD 0, data[i * 4 + 2]?.getD 0, 255] := by
  obtain ⟨hw, hh⟩ := canvasInfo_pos _ _ hinfo
  have hwidth : canvas.width = info.width := by
    rw [paintToImage_ok document info 1 hinfo (by decide)] at hcanvas
    simp only [Outcome.ok.injEq] at hcanvas
    rw [← hcanvas]
    simp
  have hy : i / info.width < info.height :=
    Nat.div_lt_of_lt_mul hi
  have hx : i % info.width < info.width := Nat.mod_lt _ hw
  have hpix := paintToImage_pixel document info 1 canvas hinfo (by decide) hcanvas
    (i / info.width) (i % info.width) 0 0 hy hx (by decide) (by decide)
  have hidx : i / info.width * info.width + i % info.width = i := by
    rw [Nat.mul_comm]; exact Nat.div_add_mod i info.width
  simp only [Int.toNat_one, Nat.mul_one, Nat.add_zero, hwidth, hidx] at hpix
  rw [hpix]
  have hc := convertPixels_colors data i (by omega)
  have hcol : colorHexAt document.pixelColors i = hexOfRGB (data[i * 4]?.getD 0)
      (data[i * 4 + 1]?.getD 0) (data[i * 4 + 2]?.getD 0) := by
    unfold colorHexAt
    rw [hcolors, hc]
    simp only
    rw [if_neg (hexOfRGB_ne_empty _ _ _ (getD_le_of_forall _ _ hbytes)
      (getD_le_of_forall _ _ hbytes) (getD_le_of_forall _ _ hbytes))]
  rw [hcol, pixelOfColor_hexOfRGB _ _ _ (getD_le_of_forall _ _ hbytes)
    (getD_le_of_forall _ _ hbytes) (getD_le_of_forall _ _ hbytes)]

theorem transparentRaster_getD (width height j : Nat) :
    (transparentRaster width height)[j]?.getD 0 = 0 := by
  unfold transparentRaster
  rw [List.getElem?_replicate]
  split_ifs <;> rfl

/-- C17 (counterexample): a transparent raster of 16 by 16 pixels is not reproduced: the
first pixel of the result is opaque. -/
theorem transparent_raster_not_reproduced :
    ∃ document canvas,
      imageToPaint transparentRaster (.num 0) (.str "") (.str "") .null 0 = .ok document ∧
      paintToImage document (some 1) = .ok canvas ∧
      pixelAt canvas.data 0 = [0, 0, 0, 255] ∧
      pixelAt (transparentRaster 16 16) 0 = [0, 0, 0, 0] ∧
      canvas.data ≠ transparentRaster 16 16 := by
  obtain ⟨document, hdoc, htype, hcolors, _⟩ := imageToPaint_ok transparentRaster (.num 0)
    (.str "") (.str "") .null 0 ⟨"Small", 16, 16⟩ rfl
  have hinfo : canvasInfo document.canvasType = .ok (some ⟨"Small", 16, 16⟩) := by
    rw [htype]; rfl
  obtain ⟨canvas, hcanvas⟩ : ∃ canvas, paintToImage document (some 1) = .ok canvas :=
    ⟨_, paintToImage_ok document ⟨"Small", 16, 16⟩ 1 hinfo (by decide)⟩
  have hpix := paintToImage_imageToPaint_pixel document ⟨"Small", 16, 16⟩
    (transparentRaster 16 16) canvas hinfo hcolors
    (by simp only [transparentRaster, List.length_replicate])
    (by intro b hb; rw [List.eq_of_mem_replicate hb]; omega) hcanvas 0 (by decide)
  have hfirst : pixelAt (transparentRaster 16 16) 0 = [0, 0, 0, 0] := rfl
  have hpix2 : pixelAt canvas.data 0 = [0, 0, 0, 255] := by
    rw [hpix]
    simp only [transparentRaster_getD]
  refine ⟨document, canvas, hdoc, hcanvas, hpix2, hfirst, ?_⟩
  intro h
  rw [h, hfirst] at hpix2
  cases hpix2

/-- C17 (amended): for a canvas type with the table entry `info` and a raster of
`width * height` RGBA pixels, `paintToImage(imageToPaint(raster, ...), 1)` returns a
raster of the same dimensions in which every pixel has the red, green and blue bytes of
the source pixel and the alpha 255; a raster whose pixels are all opaque is reproduced
byte for byte. -/
theorem image_paint_image (raster : Nat → Nat → List Nat)
    (canvasType title author name : JSValue) (now : Nat) (info : CanvasInfo)
    (hinfo : canvasInfo canvasType = .ok (some info))
    (hlen : (raster info.width info.height).length = info.width * info.height * 4)
    (hbytes : ∀ b ∈ raster info.width info.height, b ≤ 255) :
    ∃ document canvas,
      imageToPaint raster canvasType title author name now = .ok document ∧
      paintToImage document (some 1) = .ok canvas ∧
      canvas.width = info.width ∧ canvas.height = info.height ∧
      canvas.data.length = (raster info.width info.height).length ∧
      (∀ i, i < info.width * info.height →
        pixelAt canvas.data i
          = [(raster info.width info.height)[i * 4]?.getD 0,
             (raster info.width info.height)[i * 4 + 1]?.getD 0,
             (raster info.width info.height)[i * 4 + 2]?.getD 0, 255]) ∧
      ((∀ i, i < info.width * info.height →
          (raster info.width info.height)[i * 4 + 3]? = some 255) →
        canvas.data = raster info.width info.height) := by
  obtain ⟨document, hdoc, htype, hcolors, _⟩ :=
    imageToPaint_ok raster canvasType title author name now info hinfo
  have hinfo1 : canvasInfo document.canvasType = .ok (some info) := by rw [htype]; exact hinfo
  obtain ⟨canvas, hcanvas⟩ : ∃ canvas, paintToImage document (some 1) = .ok canvas :=
    ⟨_, paintToImage_ok document info 1 hinfo1 (by decide)⟩
  have hshape : canvas.width = info.width ∧ canvas.height = info.height ∧
      canvas.data.length = (raster info.width info.height).length := by
    have h := hcanvas
    rw [paintToImage_ok document info 1 hinfo1 (by decide)] at h
    simp only [Outcome.ok.injEq] at h
    rw [← h]
    simp only [Int.toNat_one, Nat.mul_one, fillImage_length, List.length_replicate, hlen,
      and_self]
  have hpix := fun i hi => paintToImage_imageToPaint_pixel document info
    (raster info.width info.height) canvas hinfo1 hcolors hlen hbytes hcanvas i hi
  refine ⟨document, canvas, hdoc, hcanvas, hshape.1, hshape.2.1, hshape.2.2, hpix, ?_⟩
  intro halpha
  apply List.ext_getElem?
  intro j
  by_cases hj : j < info.width * info.height * 4
  · obtain ⟨i, c, hc, rfl⟩ : ∃ i c, c < 4 ∧ j = i * 4 + c :=
      ⟨j / 4, j % 4, Nat.mod_lt _ (by decide), by omega⟩
    have hi : i < info.width * info.height := by omega
    rw [← pixelAt_getElem? canvas.data i c hc, hpix i hi]
    have hin : ∃ b, (raster info.width info.height)[i * 4 + c]? = some b :=
      ⟨_, List.getElem?_eq_getElem (by omega)⟩
    obtain ⟨b, hb⟩ := hin
    interval_cases c
    · simp only [Nat.add_zero] at hb ⊢
      rw [hb]
      rfl
    · rw [hb]
      rfl
    · rw [hb]
      rfl
    · rw [halpha i hi]
      rfl
  · rw [List.getElem?_eq_none (by omega), List.getElem?_eq_none (by omega)]

/-- C17 (witness): an opaque white raster for the canvas type 0. -/
theorem image_paint_image_witness :
    canvasInfo (.num 0) = .ok (some ⟨"Small", 16, 16⟩) ∧
    (whiteRaster 16 16).length = 16 * 16 * 4 ∧
    (∀ b ∈ whiteRaster 16 16, b ≤ 255) ∧
    ∃ document canvas,
      imageToPaint whiteRaster (.num 0) (.str "") (.str "") .null 0 = .ok document ∧
      paintToImage document (some 1) = .ok canvas ∧
      canvas.width = 16 ∧ canvas.height = 16 :=
  ⟨rfl, List.length_replicate _ _,
    fun _ hb => le_of_eq (List.eq_of_mem_replicate hb),
    (image_paint_image whiteRaster (.num 0) (.str "") (.str "") .null 0 ⟨"Small", 16, 16⟩
      rfl (List.length_replicate _ _)
      (fun _ hb => le_of_eq (List.eq_of_mem_replicate hb))).imp
      fun _ h => h.imp fun _ h2 => ⟨h2.1, h2.2.1, h2.2.2.1, h2.2.2.2.1⟩⟩

/-! ### Decimal numerals -/

theorem toDigitsCore_ten_acc (f : Nat) : ∀ (n : Nat) (ds : List Char),
    Nat.toDigitsCore 10 f n ds = Nat.toDigitsCore 10 f n [] ++ ds := by
  induction f with
  | zero => intro n ds; simp [Nat.toDigitsCore]
  | succ f ih =>
    intro n ds
    simp only [Nat.toDigitsCore]
    split
    · simp
    · rw [ih (n / 10) (Nat.digitChar (n % 10) :: ds), ih (n / 10) [Nat.digitChar (n % 10)]]
      simp

theorem digitChar_value (d : Nat) (h : d < 10) : (Nat.digitChar d).toNat - 48 = d := by
  interval_cases d <;> rfl

theorem toDigitsCore_ten_value (f : Nat) : ∀ n, n < f →
    (Nat.toDigitsCore 10 f n []).foldl (fun acc c => acc * 10 + (c.toNat - 48)) 0 = n := by
  induction f with
  | zero => intro n h; omega
  | succ f ih =>
    intro n h
    simp only [Nat.toDigitsCore]
    split
    · rename_i h0
      simp only [List.foldl_cons, List.foldl_nil, Nat.zero_mul, Nat.zero_add]
      rw [digitChar_value _ (Nat.mod_lt _ (by decide))]
      omega
    · rename_i h0
      rw [toDigitsCore_ten_acc, List.foldl_append, ih (n / 10) (by omega)]
      simp only [List.foldl_cons, List.foldl_nil]
      rw [digitChar_value _ (Nat.mod_lt _ (by decide))]
      omega

theorem decimalValue_toString (n : Nat) : decimalValue (toString n) = n :=
  toDigitsCore_ten_value (n + 1) n (Nat.lt_succ_self n)

theorem toString_injective (a b : Nat) (h : toString a = toString b) : a = b := by
  rw [← decimalValue_toString a, ← decimalValue_toString b, h]

theorem append_left_cancel (p a b : String) (h : p ++ a = p ++ b) : a = b := by
  have h1 : (p ++ a).data = (p ++ b).data := by rw [h]
  simp only [String.data_append] at h1
  exact String.ext (List.append_cancel_left h1)

/-! ### The grid of tiles -/

theorem grid_length {α : Type} (f : Nat → Nat → α) (gridWidth : Nat) (n : Nat) :
    ((List.range n).flatMap fun row => (List.range gridWidth).map fun col => f row col).length
      = n * gridWidth := by
  induction n with
  | zero => simp
  | succ n ih =>
    rw [List.range_succ, List.flatMap_append, List.length_append, ih]
    simp [Nat.succ_mul]

theorem grid_getElem? {α : Type} (f : Nat → Nat → α) (gridWidth : Nat) (n : Nat) :
    ∀ row col, row < n → col < gridWidth →
      ((List.range n).flatMap fun row => (List.range gridWidth).map fun col => f row col)[
        row * gridWidth + col]? = some (f row col) := by
  induction n with
  | zero => intro row col h; omega
  | succ n ih =>
    intro row col hrow hcol
    rw [List.range_succ, List.flatMap_append]
    by_cases hn : row < n
    · have hlt : row * gridWidth + col < n * gridWidth := scaled_lt n gridWidth row col hn hcol
      rw [List.getElem?_append_left (by rw [grid_length]; exact hlt)]
      exact ih row col hn hcol
    · have hrn : row = n := by omega
      subst hrn
      rw [List.getElem?_append_right (by rw [grid_length]; omega), grid_length]
      simp only [List.flatMap_cons, List.flatMap_nil, List.append_nil, Nat.add_sub_cancel_left,
        List.getElem?_map, List.getElem?_range hcol, Option.map_some']

theorem collect_ok {α : Type} : ∀ (l : List (Outcome α)),
    (∀ x ∈ l, ∃ a, x = .ok a) → ∃ values, collect l = .ok values ∧ l = values.map .ok
  | [], _ => ⟨[], rfl, rfl⟩
  | x :: rest, h => by
    obtain ⟨a, rfl⟩ := h x (List.mem_cons_self _ _)
    obtain ⟨values, hv, hl⟩ := collect_ok rest (fun y hy => h y (List.mem_cons_of_mem _ hy))
    refine ⟨a :: values, ?_, ?_⟩
    · simp only [collect, hv]
    · rw [hl]; rfl

theorem splitTile_ok (sections : Nat → Nat → Nat → Nat → List Nat) (clock : Nat → Nat)
    (canvasType : JSValue) (gridWidth : Nat) (title : String)
    (author generation version : JSValue) (info : CanvasInfo)
    (hinfo : canvasInfo canvasType = .ok (some info)) (row col : Nat) :
    ∃ tile, splitTile sections clock canvasType gridWidth title author generation version
        row col = .ok tile ∧
      tile.position = (row, col) ∧
      tile.filename = (if title ≠ "" then title ++ "_" ++ tileSuffix row col ++ ".paint"
        else "canvas_" ++ tileSuffix row col ++ ".paint") ∧
      tile.paintData.name = .str (ROOT_UUID ++ "_" ++
        toString (clock (2 * (row * gridWidth + col) + 1) / 1000 + (row * gridWidth + col))) ∧
      tile.paintData.generation = some generation ∧
      tile.paintData.version = some version := by
  unfold splitTile imageToPaint
  rw [hinfo]
  exact ⟨_, rfl, rfl, rfl, rfl, rfl, rfl⟩

/-- The tiles `splitImageToMultiCanvas` returns are the results of the loop body, row by
row. -/
theorem splitImageToMultiCanvas_ok (sections : Nat → Nat → Nat → Nat → List Nat)
    (clock : Nat → Nat) (canvasType : JSValue) (gridWidth gridHeight : Nat)
    (title : String) (author generation version : JSValue) (info : CanvasInfo)
    (hinfo : canvasInfo canvasType = .ok (some info)) :
    ∃ tiles, splitImageToMultiCanvas sections clock canvasType gridWidth gridHeight title
        author generation version = .ok tiles ∧
      tiles.length = gridWidth * gridHeight ∧
      ∀ row col, row < gridHeight → col < gridWidth →
        ∃ tile, tiles[row * gridWidth + col]? = some tile ∧
          splitTile sections clock canvasType gridWidth title author generation version
            row col = .ok tile := by
  have hall : ∀ x ∈ ((List.range gridHeight).flatMap fun row =>
      (List.range gridWidth).map fun col =>
        splitTile sections clock canvasType gridWidth title author generation version
          row col), ∃ a, x = .ok a := by
    intro x hx
    simp only [List.mem_flatMap, List.mem_map, List.mem_range] at hx
    obtain ⟨row, _, col, _, rfl⟩ := hx
    obtain ⟨tile, ht, _⟩ := splitTile_ok sections clock canvasType gridWidth title author
      generation version info hinfo row col
    exact ⟨tile, ht⟩
  obtain ⟨tiles, hc, hl⟩ := collect_ok _ hall
  have hlen : tiles.length = gridWidth * gridHeight := by
    have h1 := congrArg List.length hl
    rw [grid_length, List.length_map] at h1
    rw [← h1, Nat.mul_comm]
  refine ⟨tiles, ?_, hlen, ?_⟩
  · unfold splitImageToMultiCanvas
    rw [hinfo]
    exact hc
  · intro row col hrow hcol
    have h1 := grid_getElem? (fun row col => splitTile sections clock canvasType gridWidth
      title author generation version row col) gridWidth gridHeight row col hrow hcol
    rw [hl, List.getElem?_map] at h1
    cases ht : tiles[row * gridWidth + col]? with
    | none => rw [ht] at h1; cases h1
    | some tile =>
      rw [ht] at h1
      simp only [Option.map_some', Option.some.injEq] at h1
      exact ⟨tile, rfl, h1.symm⟩

/-- C18: for a canvas type in the table, `splitImageToMultiCanvas` returns
`gridWidth * gridHeight` tiles in row-major order: the tile at the index
`row * gridWidth + col` has the position (`row`, `col`) and the file name
`{title}_{row+1}_{col+1}.paint` when the title is not empty, and
`canvas_{row+1}_{col+1}.paint` otherwise. -/
theorem splitImageToMultiCanvas_tiles (sections : Nat → Nat → Nat → Nat → List Nat)
    (clock : Nat → Nat) (canvasType : JSValue) (gridWidth gridHeight : Nat)
    (title : String) (author generation version : JSValue) (info : CanvasInfo)
    (hinfo : canvasInfo canvasType = .ok (some info)) :
    ∃ tiles, splitImageToMultiCanvas sections clock canvasType gridWidth gridHeight title
        author generation version = .ok tiles ∧
      tiles.length = gridWidth * gridHeight ∧
      ∀ row col, row < gridHeight → col < gridWidth →
        ∃ tile, tiles[row * gridWidth + col]? = some tile ∧
          tile.position = (row, col) ∧
          tile.filename =
            (if title ≠ "" then
              title ++ "_" ++ toString (row + 1) ++ "_" ++ toString (col + 1) ++ ".paint"
            else "canvas_" ++ toString (row + 1) ++ "_" ++ toString (col + 1) ++ ".paint") := by
  obtain ⟨tiles, hok, hlen, htiles⟩ := splitImageToMultiCanvas_ok sections clock canvasType
    gridWidth gridHeight title author generation version info hinfo
  refine ⟨tiles, hok, hlen, ?_⟩
  intro row col hrow hcol
  obtain ⟨tile, hget, htile⟩ := htiles row col hrow hcol
  obtain ⟨tile1, h1, hpos, hname, _⟩ := splitTile_ok sections clock canvasType gridWidth
    title author generation version info hinfo row col
  rw [htile] at h1
  simp only [Outcome.ok.injEq] at h1
  subst h1
  refine ⟨tile, hget, hpos, ?_⟩
  rw [hname]
  simp only [tileSuffix, String.append_assoc]

/-- C18 (witness): the grid of 2 by 2 tiles with the title Sunset. -/
theorem splitImageToMultiCanvas_tiles_witness :
    canvasInfo (.num 0) = .ok (some ⟨"Small", 16, 16⟩) ∧
    (∃ tiles, splitImageToMultiCanvas emptySections tickingClock (.num 0) 2 2 "Sunset"
        (.str "") (.num 0) (.num 99) = .ok tiles ∧
      tiles.length = 2 * 2 ∧
      ∀ row col, row < 2 → col < 2 →
        ∃ tile, tiles[row * 2 + col]? = some tile ∧
          tile.position = (row, col) ∧
          tile.filename =
            (if "Sunset" ≠ "" then
              "Sunset" ++ "_" ++ toString (row + 1) ++ "_" ++ toString (col + 1) ++ ".paint"
            else "canvas_" ++ toString (row + 1) ++ "_" ++ toString (col + 1) ++ ".paint")) ∧
    (match splitImageToMultiCanvas emptySections tickingClock (.num 0) 2 2 "Sunset"
        (.str "") (.num 0) (.num 99) with
      | .ok tiles => tiles.map fun tile => tile.filename
      | _ => [])
      = ["Sunset_1_1.paint", "Sunset_1_2.paint", "Sunset_2_1.paint", "Sunset_2_2.paint"] :=
  ⟨rfl,
    splitImageToMultiCanvas_tiles emptySections tickingClock (.num 0) 2 2 "Sunset" (.str "")
      (.num 0) (.num 99) ⟨"Small", 16, 16⟩ rfl,
    by decide⟩

/-- The number at the end of the name of the tile number `k`: the epoch second read for
that tile plus `k`. -/
theorem tile_number_lt (clock : Nat → Nat) (hclock : ∀ m n, m ≤ n → clock m ≤ clock n)
    (i j : Nat) (h : i < j) :
    clock (2 * i + 1) / 1000 + i < clock (2 * j + 1) / 1000 + j := by
  have h1 : clock (2 * i + 1) / 1000 ≤ clock (2 * j + 1) / 1000 :=
    Nat.div_le_div_right (hclock _ _ (by omega))
  omega

/-- C19 (counterexample): with a clock that advances by one second between two readings
the two tiles of a grid of 2 by 1 get the numbers 1 and 4, which are not `base` and
`base + 1` for any shared `base`. -/
theorem shared_base_refuted :
    (match splitImageToMultiCanvas emptySections tickingClock (.num 0) 2 1 "" (.str "")
        (.num 0) (.num 99) with
      | .ok tiles => tiles.map fun tile => tile.paintData.name
      | _ => [])
      = [.str (ROOT_UUID ++ "_" ++ toString 1), .str (ROOT_UUID ++ "_" ++ toString 4)] ∧
    ¬ ∃ base : Nat,
      [JSValue.str (ROOT_UUID ++ "_" ++ toString 1), .str (ROOT_UUID ++ "_" ++ toString 4)]
        = [.str (ROOT_UUID ++ "_" ++ toString (base + 0)),
           .str (ROOT_UUID ++ "_" ++ toString (base + 1))] := by
  refine ⟨rfl, ?_⟩
  rintro ⟨base, h⟩
  simp only [List.cons.injEq, JSValue.str.injEq, and_true] at h
  have h1 := toString_injective _ _ (append_left_cancel _ _ _ h.1)
  have h2 := toString_injective _ _ (append_left_cancel _ _ _ h.2)
  omega

/-- C19 (amended): the name of the tile at (`row`, `col`) is `ROOT_UUID`, an underscore
and the number `t + row * gridWidth + col`, where `t` is the epoch second read from the
clock when that tile is built.  When the clock does not go backwards during the batch
the names of the tiles are pairwise distinct, and when all readings fall into one
second `base`, that second is shared by all tiles. -/
theorem tile_names (sections : Nat → Nat → Nat → Nat → List Nat)
    (clock : Nat → Nat) (canvasType : JSValue) (gridWidth gridHeight : Nat)
    (title : String) (author generation version : JSValue) (info : CanvasInfo)
    (hinfo : canvasInfo canvasType = .ok (some info)) :
    ∃ tiles, splitImageToMultiCanvas sections clock canvasType gridWidth gridHeight title
        author generation version = .ok tiles ∧
      (∀ row col, row < gridHeight → col < gridWidth →
        ∃ tile, tiles[row * gridWidth + col]? = some tile ∧
          tile.paintData.name = .str (ROOT_UUID ++ "_" ++
            toString (clock (2 * (row * gridWidth + col) + 1) / 1000
              + (row * gridWidth + col)))) ∧
      ((∀ m n, m ≤ n → clock m ≤ clock n) →
        ∀ (i j : Nat) (first second : PaintFile), tiles[i]? = some first → tiles[j]? = some second → i ≠ j →
          first.paintData.name ≠ second.paintData.name) ∧
      (∀ base, (∀ n, clock n / 1000 = base) →
        ∀ row col, row < gridHeight → col < gridWidth →
          ∃ tile, tiles[row * gridWidth + col]? = some tile ∧
            tile.paintData.name
              = .str (ROOT_UUID ++ "_" ++ toString (base + (row * gridWidth + col)))) := by
  obtain ⟨tiles, hok, hlen, htiles⟩ := splitImageToMultiCanvas_ok sections clock canvasType
    gridWidth gridHeight title author generation version info hinfo
  have hname : ∀ row col, row < gridHeight → col < gridWidth →
      ∃ tile, tiles[row * gridWidth + col]? = some tile ∧
        tile.paintData.name = .str (ROOT_UUID ++ "_" ++
          toString (clock (2 * (row * gridWidth + col) + 1) / 1000
            + (row * gridWidth + col))) := by
    intro row col hrow hcol
    obtain ⟨tile, hget, htile⟩ := htiles row col hrow hcol
    obtain ⟨tile1, h1, _, _, hn, _⟩ := splitTile_ok sections clock canvasType gridWidth
      title author generation version info hinfo row col
    rw [htile] at h1
    simp only [Outcome.ok.injEq] at h1
    subst h1
    exact ⟨tile, hget, hn⟩
  have hindex : ∀ (i : Nat) (tile : PaintFile), tiles[i]? = some tile →
      tile.paintData.name
        = .str (ROOT_UUID ++ "_" ++ toString (clock (2 * i + 1) / 1000 + i)) := by
    intro i tile hi
    have hlt : i < gridWidth * gridHeight := by
      rw [← hlen]
      exact (List.getElem?_eq_some_iff.mp hi).1
    have hw : 0 < gridWidth := by
      rcases Nat.eq_zero_or_pos gridWidth with h0 | h0
      · rw [h0, Nat.zero_mul] at hlt; omega
      · exact h0
    have hsplit : i / gridWidth * gridWidth + i % gridWidth = i := by
      rw [Nat.mul_comm]; exact Nat.div_add_mod i gridWidth
    obtain ⟨tile1, hget, hn⟩ := hname (i / gridWidth) (i % gridWidth)
      (Nat.div_lt_of_lt_mul hlt) (Nat.mod_lt _ hw)
    rw [hsplit] at hget hn
    rw [hi] at hget
    simp only [Option.some.injEq] at hget
    rw [hget]
    exact hn
  refine ⟨tiles, hok, hname, ?_, ?_⟩
  · intro hclock i j first second hi hj hij hnames
    rw [hindex i first hi, hindex j second hj] at hnames
    simp only [JSValue.str.injEq] at hnames
    have heq := toString_injective _ _ (append_left_cancel _ _ _ hnames)
    rcases Nat.lt_or_gt_of_ne hij with h | h
    · have := tile_number_lt clock hclock i j h
      omega
    · have := tile_number_lt clock hclock j i h
      omega
  · intro base hbase row col hrow hcol
    obtain ⟨tile, hget, hn⟩ := hname row col hrow hcol
    rw [hbase] at hn
    exact ⟨tile, hget, hn⟩

/-- C19 (witness): a grid of 2 by 2 tiles built while the clock stands at 5000 ms. -/
theorem tile_names_witness :
    canvasInfo (.num 0) = .ok (some ⟨"Small", 16, 16⟩) ∧
    ∃ tiles, splitImageToMultiCanvas emptySections (fun _ => 5000) (.num 0) 2 2 "Sunset"
        (.str "") (.num 0) (.num 99) = .ok tiles ∧
      ∀ (i j : Nat) (first second : PaintFile), tiles[i]? = some first → tiles[j]? = some second → i ≠ j →
        first.paintData.name ≠ second.paintData.name :=
  ⟨rfl,
    (tile_names emptySections (fun _ => 5000) (.num 0) 2 2 "Sunset" (.str "") (.num 0)
      (.num 99) ⟨"Small", 16, 16⟩ rfl).imp
      fun _ h => ⟨h.1, h.2.2.1 (fun _ _ _ => Nat.le_refl _)⟩⟩

/-! ### Long values -/

/-- C20: the eight bytes 00 20 00 00 00 00 00 01 denote 2^53 + 1 = 9007199254740993, but
`readLong` returns 9007199254740992: the sum `high * 0x100000000 + (low >>> 0)` is
rounded to a binary64 number. -/
theorem readLong_rounds :
    int64OfBytes oddLongBytes = 9007199254740993 ∧
    (readLong (NBTParser.new oddLongBytes) 0).1 = 9007199254740992 ∧
    (readLong (NBTParser.new oddLongBytes) 0).1 ≠ int64OfBytes oddLongBytes := by
  refine ⟨by decide, by decide, by decide⟩

/-! ### A document written and parsed back -/

theorem roundDouble_small (i : Int) (h : i.natAbs < 2 ^ 53) : roundDouble i = i := by
  unfold roundDouble
  simp only
  rw [if_pos h]

theorem numberRoundTrips_small (i : Int) (h0 : 0 ≤ i) (h1 : i < 2 ^ 31) :
    numberRoundTrips i = true := by
  unfold numberRoundTrips
  rw [roundDouble_small i (by omega)]
  simp only [Bool.and_eq_true, Bool.or_eq_true, decide_eq_true_eq]
  exact ⟨⟨⟨Or.inl h0, by omega⟩, by omega⟩, trivial⟩

theorem andTrim_str_eq (s : String) : andTrim (.str s) = .ok (.str (jsTrim s)) := by
  unfold andTrim
  by_cases h : truthy (.str s) = true
  · rw [if_pos h]
  · rw [if_neg h]
    have hs : s = "" := by simpa [truthy] using h
    subst hs
    rfl

theorem createCompound_strings (canvasType generation version : Int)
    (name title author : String) (pixels : List JSValue) (pixelColors : List String) :
    createCompound ⟨.num canvasType, .str author, .str title, .str name, .arr pixels,
        some (.num generation), some (.num version), pixelColors⟩
      = .ok (compoundOf canvasType generation version name title author pixels) := by
  unfold createCompound compoundOf
  simp only [andTrim_str_eq, Option.getD_some, truthy, Outcome.ok.injEq]
  congr 1
  have t1 := jsTrim_ne_empty_iff title
  have t2 := jsTrim_ne_empty_iff author
  by_cases h1 : jsTrim title = "" <;> by_cases h2 : jsTrim author = "" <;>
    simp [h1, h2] at t1 t2 ⊢ <;> simp [t1, t2]

theorem fieldsRoundTrip_cons (k : String) (v : JSValue) (rest : List (String × JSValue)) :
    fieldsRoundTrip ((k, v) :: rest)
      = (stringRoundTrips k && k != "__proto__" && roundTrips v && fieldsRoundTrip rest) :=
  rfl

theorem fieldsRoundTrip_nil : fieldsRoundTrip [] = true := rfl

theorem roundTrips_obj (fields : List (String × JSValue)) :
    roundTrips (.obj fields)
      = (entriesOrderFrom [] (fields.map Prod.fst) && fieldsRoundTrip fields) := rfl

theorem roundTrips_num (i : Int) : roundTrips (.num i) = numberRoundTrips i := rfl

theorem roundTrips_str (s : String) : roundTrips (.str s) = stringRoundTrips s := rfl

theorem roundTrips_arr (xs : List JSValue) :
    roundTrips (.arr xs)
      = (!xs.isEmpty && decide (xs.length < 2 ^ 31) && int32Elements xs) := rfl

theorem roundTrips_compoundOf (canvasType generation version : Int)
    (name title author : String) (pixels : List JSValue)
    (hct : numberRoundTrips canvasType = true) (hg : 0 ≤ generation ∧ generation < 2 ^ 31)
    (hv : 0 ≤ version ∧ version < 2 ^ 31) (hpix : pixels ≠ [])
    (hlen : pixels.length < 2 ^ 31) (hint : int32Elements pixels = true)
    (hname : stringRoundTrips name = true) (htitle : stringRoundTrips title = true)
    (hauthor : stringRoundTrips author = true) :
    roundTrips (.obj (compoundOf canvasType generation version name title author pixels))
      = true := by
  have h1 := hct
  have h2 := numberRoundTrips_small generation hg.1 hg.2
  have h3 := numberRoundTrips_small version hv.1 hv.2
  have h4 : (!pixels.isEmpty) = true := by
    cases pixels with
    | nil => exact absurd rfl hpix
    | cons x xs => rfl
  have k1 : stringRoundTrips "generation" = true := by decide
  have k2 : stringRoundTrips "ct" = true := by decide
  have k3 : stringRoundTrips "pixels" = true := by decide
  have k4 : stringRoundTrips "v" = true := by decide
  have k5 : stringRoundTrips "name" = true := by decide
  have k6 : stringRoundTrips "author" = true := by decide
  have k7 : stringRoundTrips "title" = true := by decide
  have n1 : ("generation" != "__proto__") = true := by decide
  have n2 : ("ct" != "__proto__") = true := by decide
  have n3 : ("pixels" != "__proto__") = true := by decide
  have n4 : ("v" != "__proto__") = true := by decide
  have n5 : ("name" != "__proto__") = true := by decide
  have n6 : ("author" != "__proto__") = true := by decide
  have n7 : ("title" != "__proto__") = true := by decide
  have o1 : entriesOrderFrom [] ["generation", "ct", "pixels", "v", "name"] = true := by
    decide
  have o2 : entriesOrderFrom [] ["generation", "ct", "pixels", "v", "name", "author", "title"]
      = true := by decide
  unfold compoundOf
  by_cases hc : nonBlank title = true ∧ nonBlank author = true
  · rw [if_pos hc]
    simp only [roundTrips_obj, List.cons_append, List.nil_append, List.map_cons, List.map_nil,
      fieldsRoundTrip_cons, fieldsRoundTrip_nil, roundTrips_num, roundTrips_str,
      roundTrips_arr, h1, h2, h3, h4, k1, k2, k3, k4, k5, k6, k7, n1, n2, n3, n4, n5, n6, n7,
      o2, hint, hname, htitle, hauthor, hlen, decide_True, Bool.and_self]
  · rw [if_neg hc]
    simp only [roundTrips_obj, List.cons_append, List.nil_append, List.map_cons, List.map_nil,
      List.append_nil, fieldsRoundTrip_cons, fieldsRoundTrip_nil, roundTrips_num,
      roundTrips_str, roundTrips_arr, h1, h2, h3, h4, k1, k2, k3, k4, k5, n1, n2, n3, n4, n5,
      o1, hint, hname, hlen, decide_True, Bool.and_self]

/-- A compound of the kinds of `roundTrips` is written by `writeTag` and read back by
`parse`, given enough fuel. -/
theorem compound_roundTrip (fields : List (String × JSValue))
    (h : roundTrips (.obj fields) = true) :
    ∃ w : NBTWriter, writeTag NBTWriter.new 10 (.str "") (.obj fields) = .ok w ∧
      ∃ fuel0 : Nat, ∀ fuel, fuel0 ≤ fuel → parse fuel w.build = .ok (.obj fields) := by
  obtain ⟨bs, f0, hw, hlt, hr⟩ := payload_roundTrips (.obj fields) h
  have hw2 := hw ⟨[10, 0, 0]⟩
  have hty : inferTagType (.obj fields) = 10 := rfl
  rw [hty] at hw2 hr
  refine ⟨⟨[10, 0, 0] ++ bs⟩, ?_, f0 + 1, ?_⟩
  · show (match (NBTWriter.writeByte NBTWriter.new 10).writeString (.str "") with
      | .ok w1 => writeTagPayload w1 10 (.obj fields)
      | .throw e => .throw e
      | .outOfFuel => .outOfFuel
      | .unmodelled => .unmodelled) = _
    have e : (NBTWriter.writeByte NBTWriter.new 10).writeString (.str "")
        = .ok ⟨[10, 0, 0]⟩ := rfl
    rw [e]
    exact hw2
  · intro fuel hf
    obtain ⟨f, rfl⟩ : ∃ f, fuel = f + 1 := ⟨fuel - 1, by omega⟩
    have hall : ∀ x ∈ [10, 0, 0] ++ bs, x < 256 := by
      intro x hx
      rcases List.mem_append.mp hx with h1 | h1
      · simp only [List.mem_cons, List.mem_singleton, List.not_mem_nil, or_false] at h1
        omega
      · exact hlt x h1
    have hb : NBTParser.new (NBTWriter.build ⟨[10, 0, 0] ++ bs⟩) = [10, 0, 0] ++ bs := by
      simp only [NBTParser.new, NBTWriter.build]
      rw [map_mod_of_lt _ hall, map_mod_of_lt _ hall]
    have hs : suffixAt ([10, 0, 0] ++ bs) 3 (bs ++ []) := by
      refine ⟨by omega, ?_⟩
      simp
    have hval := hr ([10, 0, 0] ++ bs) 3 [] f (by omega) hs
    simp only [parse, hb]
    rw [readTag_succ]
    have h0 : (readByte ([10, 0, 0] ++ bs) 0).1 = some 10 := rfl
    have hn : readString ([10, 0, 0] ++ bs) (0 + 1) = ("", 3) := by
      have hs1 : suffixAt ([10, 0, 0] ++ bs) (0 + 1) ([0, 0] ++ bs) := ⟨by omega, rfl⟩
      have := readShort_at _ _ 0 0 bs hs1
      have hs3 : suffixAt ([10, 0, 0] ++ bs) (0 + 1 + 2) ([] ++ bs) := ⟨by omega, rfl⟩
      have hsl := suffixAt_slice _ _ _ _ hs3
      simp only [readString, this]
      simp only [List.length_nil, Nat.cast_zero, add_zero] at hsl
      refine Prod.ext ?_ ?_
      · have e0 : (0 : Int) + 1 + 2 + (((0 : Nat) : Int) * 256 + ((0 : Nat) : Int))
            = 0 + 1 + 2 := by simp
        simp only [e0, hsl]
        rfl
      · simp
    rw [h0, if_neg (by decide), hn, hval]

theorem pixelColorsOf_int32 : ∀ (pixels : List JSValue), int32Elements pixels = true →
    ∃ colors, pixelColorsOf pixels = .ok colors
  | [], _ => ⟨[], rfl⟩
  | .num i :: rest, h => by
    have h2 : (decide (-2 ^ 31 ≤ i) && decide (i < 2 ^ 31) && int32Elements rest) = true := h
    rw [Bool.and_eq_true] at h2
    obtain ⟨colors, hc⟩ := pixelColorsOf_int32 rest h2.2
    exact ⟨pixelColor i :: colors, by simp only [pixelColorsOf, toIntegral, hc]⟩
  | .undefined :: _, h => by have h2 : false = true := h; cases h2
  | .null :: _, h => by have h2 : false = true := h; cases h2
  | .frac _ :: _, h => by have h2 : false = true := h; cases h2
  | .str _ :: _, h => by have h2 : false = true := h; cases h2
  | .arr _ :: _, h => by have h2 : false = true := h; cases h2
  | .u8 _ :: _, h => by have h2 : false = true := h; cases h2
  | .obj _ :: _, h => by have h2 : false = true := h; cases h2

theorem jsOr_str (s : String) : jsOr (.str s) (.str "") = .str s := by
  unfold jsOr
  by_cases h : truthy (.str s) = true
  · rw [if_pos h]
  · rw [if_neg h]
    have hs : s = "" := by simpa [truthy] using h
    rw [hs]

theorem propOf_compoundOf (canvasType generation version : Int)
    (name title author : String) (pixels : List JSValue) :
    propOf (.obj (compoundOf canvasType generation version name title author pixels)) "ct"
      = .num canvasType ∧
    propOf (.obj (compoundOf canvasType generation version name title author pixels))
      "pixels" = .arr pixels ∧
    propOf (.obj (compoundOf canvasType generation version name title author pixels))
      "generation" = .num generation ∧
    propOf (.obj (compoundOf canvasType generation version name title author pixels)) "v"
      = .num version ∧
    propOf (.obj (compoundOf canvasType generation version name title author pixels)) "name"
      = .str name ∧
    jsOr (propOf (.obj (compoundOf canvasType generation version name title author pixels))
      "author") (.str "")
      = .str (if nonBlank title = true ∧ nonBlank author = true then author else "") ∧
    jsOr (propOf (.obj (compoundOf canvasType generation version name title author pixels))
      "title") (.str "")
      = .str (if nonBlank title = true ∧ nonBlank author = true then title else "") := by
  unfold propOf compoundOf
  by_cases hc : nonBlank title = true ∧ nonBlank author = true
  · simp only [if_pos hc, List.cons_append, List.nil_append, lookupField, String.reduceEq,
      if_false, if_true, Option.getD_some, jsOr_str, and_self]
  · simp only [if_neg hc, List.append_nil, lookupField, String.reduceEq, if_false, if_true,
      Option.getD_some, Option.getD_none, and_true, true_and]
    exact ⟨rfl, rfl⟩

/-- The document `parsePaintFile` extracts from the object `createPaintFile` wrote. -/
theorem extractPaintData_compoundOf (canvasType generation version : Int)
    (name title author : String) (pixels : List JSValue)
    (hint : int32Elements pixels = true) :
    ∃ colors, extractPaintData
        (.obj (compoundOf canvasType generation version name title author pixels))
      = .ok ⟨.num canvasType,
          .str (if nonBlank title = true ∧ nonBlank author = true then author else ""),
          .str (if nonBlank title = true ∧ nonBlank author = true then title else ""),
          .str name, .arr pixels, some (.num generation), some (.num version), colors⟩ := by
  obtain ⟨colors, hcolors⟩ := pixelColorsOf_int32 pixels hint
  obtain ⟨p1, p2, p3, p4, p5, p6, p7⟩ :=
    propOf_compoundOf canvasType generation version name title author pixels
  have hor : jsOr (.arr pixels) (.arr []) = .arr pixels := rfl
  refine ⟨colors, ?_⟩
  unfold extractPaintData getProp
  simp only [p1, p2, p3, p4, p5, p6, p7, hor, jsOr_str, mapPixels, hcolors, definedValue]

/-- C21 (counterexample): the document `bomDocument` meets the conditions of the claim
(its name has 4 bytes of UTF-8), but its name starts with the byte order mark U+FEFF,
which the decoder drops: the name comes back as the string a. -/
theorem bom_name_changes :
    createPaintFile bomDocument = .ok bomBytes ∧
    (textEncode ⟨[Char.ofNat 0xFEFF, 'a']⟩).length = 4 ∧
    parsePaintFile 9 bomBytes
      = .ok ⟨.num 0, .str "", .str "", .str "a", .arr [.num (-1)], some (.num 1),
          some (.num 2), ["ffffff"]⟩ ∧
    bomDocument.name ≠ .str "a" := by
  refine ⟨rfl, rfl, rfl, ?_⟩
  intro h
  have h2 : JSValue.str ⟨[Char.ofNat 0xFEFF, 'a']⟩ = .str "a" := h
  simp only [JSValue.str.injEq] at h2
  have h3 := congrArg String.length h2
  simp [String.length] at h3

/-- A document of numbers and strings whose canvas type is any integer the writer stores
unchanged is written by `createPaintFile` and read back by `parsePaintFile`. -/
theorem document_roundTrip (canvasType generation version : Int)
    (name title author : String) (pixels : List JSValue) (pixelColors : List String)
    (hct : numberRoundTrips canvasType = true) (hg : 0 ≤ generation ∧ generation < 2 ^ 31)
    (hv : 0 ≤ version ∧ version < 2 ^ 31) (hpix : pixels ≠ [])
    (hlen : pixels.length < 2 ^ 31) (hint : int32Elements pixels = true)
    (hname : stringRoundTrips name = true) (htitle : stringRoundTrips title = true)
    (hauthor : stringRoundTrips author = true) :
    ∃ bytes, createPaintFile ⟨.num canvasType, .str author, .str title, .str name,
        .arr pixels, some (.num generation), some (.num version), pixelColors⟩ = .ok bytes ∧
      ∃ fuel0 : Nat, ∀ fuel, fuel0 ≤ fuel →
        ∃ document, parsePaintFile fuel bytes = .ok document ∧
          document.canvasType = .num canvasType ∧
          document.generation = some (.num generation) ∧
          document.version = some (.num version) ∧
          document.name = .str name ∧
          document.pixels = .arr pixels ∧
          document.title
            = .str (if nonBlank title = true ∧ nonBlank author = true then title else "") ∧
          document.author
            = .str (if nonBlank title = true ∧ nonBlank author = true then author else "") := by
  have hround := roundTrips_compoundOf canvasType generation version name title author pixels
    hct hg hv hpix hlen hint hname htitle hauthor
  obtain ⟨w, hw, fuel0, hparse⟩ := compound_roundTrip _ hround
  obtain ⟨colors, hextract⟩ := extractPaintData_compoundOf canvasType generation version
    name title author pixels hint
  refine ⟨w.build, ?_, fuel0, ?_⟩
  · unfold createPaintFile
    rw [createCompound_strings]
    simp only [hw]
  · intro fuel hfuel
    refine ⟨⟨.num canvasType,
      .str (if nonBlank title = true ∧ nonBlank author = true then author else ""),
      .str (if nonBlank title = true ∧ nonBlank author = true then title else ""),
      .str name, .arr pixels, some (.num generation), some (.num version), colors⟩,
      ?_, rfl, rfl, rfl, rfl, rfl, rfl, rfl⟩
    unfold parsePaintFile
    rw [hparse fuel hfuel]
    simp only [hextract]

/-- C21 (amended): for a document with a canvas type in 0 ... 3, a non-empty array of
fewer than 2^31 pixels that are signed 32-bit integers, a generation and a version in
0 ... 2^31 - 1, and a name, a title and an author that are well-formed strings of at
most 65535 bytes of UTF-8 and do not start with the byte order mark U+FEFF,
`createPaintFile` returns bytes from which `parsePaintFile`, given enough fuel, returns
a document with the same canvas type, generation, version, name and pixels; its title
and author are those of the document when both are not blank (each has a character that
is not white space), and empty strings otherwise. -/
theorem paint_file_roundTrip (canvasType generation version : Int)
    (name title author : String) (pixels : List JSValue) (pixelColors : List String)
    (hct : 0 ≤ canvasType ∧ canvasType ≤ 3) (hg : 0 ≤ generation ∧ generation < 2 ^ 31)
    (hv : 0 ≤ version ∧ version < 2 ^ 31) (hpix : pixels ≠ [])
    (hlen : pixels.length < 2 ^ 31) (hint : int32Elements pixels = true)
    (hname : stringRoundTrips name = true) (htitle : stringRoundTrips title = true)
    (hauthor : stringRoundTrips author = true) :
    ∃ bytes, createPaintFile ⟨.num canvasType, .str author, .str title, .str name,
        .arr pixels, some (.num generation), some (.num version), pixelColors⟩ = .ok bytes ∧
      ∃ fuel0 : Nat, ∀ fuel, fuel0 ≤ fuel →
        ∃ document, parsePaintFile fuel bytes = .ok document ∧
          document.canvasType = .num canvasType ∧
          document.generation = some (.num generation) ∧
          document.version = some (.num version) ∧
          document.name = .str name ∧
          document.pixels = .arr pixels ∧
          document.title
            = .str (if nonBlank title = true ∧ nonBlank author = true then title else "") ∧
          document.author
            = .str (if nonBlank title = true ∧ nonBlank author = true then author else "") :=
  document_roundTrip canvasType generation version name title author pixels pixelColors
    (numberRoundTrips_small canvasType hct.1 (by omega)) hg hv hpix hlen hint hname htitle
    hauthor

/-- C21 (witness): the document `signedDocument`, with the title Dawn between blanks and
the author Bob, comes back with its title and its author; the document
`blankTitleDocument`, whose title is blank, comes back with an empty title and an empty
author. -/
theorem paint_file_roundTrip_witness :
    ((0 : Int) ≤ 1 ∧ (1 : Int) ≤ 3) ∧
    int32Elements [.num (-16777216), .num 255] = true ∧
    stringRoundTrips "d1_5" = true ∧ stringRoundTrips " Dawn " = true ∧
    stringRoundTrips "Bob" = true ∧
    (∃ bytes, createPaintFile signedDocument = .ok bytes ∧
      ∃ fuel0 : Nat, ∀ fuel, fuel0 ≤ fuel →
        ∃ document, parsePaintFile fuel bytes = .ok document ∧
          document.canvasType = .num 1 ∧
          document.generation = some (.num 0) ∧
          document.version = some (.num 2) ∧
          document.name = .str "d1_5" ∧
          document.pixels = .arr [.num (-16777216), .num 255] ∧
          document.title = .str " Dawn " ∧
          document.author = .str "Bob") ∧
    (∃ bytes, createPaintFile blankTitleDocument = .ok bytes ∧
      ∃ fuel0 : Nat, ∀ fuel, fuel0 ≤ fuel →
        ∃ document, parsePaintFile fuel bytes = .ok document ∧
          document.canvasType = .num 0 ∧
          document.generation = some (.num 1) ∧
          document.version = some (.num 2) ∧
          document.name = .str "n" ∧
          document.pixels = .arr [.num 255] ∧
          document.title = .str "" ∧
          document.author = .str "") :=
  ⟨by decide, by decide, by decide, by decide, by decide,
    paint_file_roundTrip 1 0 2 "d1_5" " Dawn " "Bob" [.num (-16777216), .num 255] []
      (by decide) (by decide) (by decide) (List.cons_ne_nil _ _) (by decide) (by decide)
      (by decide) (by decide) (by decide),
    paint_file_roundTrip 0 1 2 "n" ⟨[' ', Char.ofNat 9, Char.ofNat 0xA0]⟩ "A" [.num 255] []
      (by decide) (by decide) (by decide) (List.cons_ne_nil _ _) (by decide) (by decide)
      (by decide) (by decide) (by decide)⟩

/-! ### Termination -/

/-- The ByteArray of `backwardBytes` is read from the offset 3 to the offset 3. -/
theorem readTag_backward (fuel : Nat) :
    readTag backwardBytes (fuel + 2) 3 = .ok (⟨"byteArray", some "", .u8 []⟩, 3) := rfl

theorem readTag_backward_zero : readTag backwardBytes 0 3 = .outOfFuel := rfl

theorem readTag_backward_one : readTag backwardBytes 1 3 = .outOfFuel := rfl

/-- The loop of `readCompound` on `backwardBytes` comes back to the offset 3 with the
same object, whatever the fuel. -/
theorem readCompound_backward (fuel : Nat) :
    ∀ acc, acc = [] ∨ acc = [("", JSValue.u8 [])] →
      readCompound backwardBytes fuel 3 acc = .outOfFuel := by
  induction fuel with
  | zero => intro acc _; rfl
  | succ fuel ih =>
    intro acc hacc
    rw [readCompound_succ]
    match fuel, ih with
    | 0, _ => rfl
    | 1, _ => rfl
    | fuel + 2, ih =>
      rw [readTag_backward]
      have hs : setField acc ((some "" : Option String).getD "undefined") (.u8 [])
          = .ok [("", JSValue.u8 [])] := by
        rcases hacc with rfl | rfl <;> rfl
      simp only [hs]
      exact ih _ (Or.inr rfl)

/-- C22: on the ten bytes 0A 00 00 07 00 00 FF FF FF F9, a Compound whose ByteArray
declares the length -7, `parse` never returns: the ByteArray moves the offset back to
its own tag, so the loop of `readCompound` reads it again and again, and whatever the
fuel the outcome is `outOfFuel`. -/
theorem parse_does_not_terminate (fuel : Nat) :
    (readByteArray backwardBytes 6).2 = 3 ∧ parse fuel backwardBytes = .outOfFuel := by
  refine ⟨rfl, ?_⟩
  match fuel with
  | 0 => rfl
  | 1 => rfl
  | fuel + 2 =>
    have hb : NBTParser.new backwardBytes = backwardBytes := rfl
    have h0 : (readByte backwardBytes 0).1 = some 10 := rfl
    have hn : (readString backwardBytes (0 + 1)).2 = 3 := rfl
    unfold parse
    rw [hb, readTag_succ, h0, if_neg (by decide), hn, readTagPayload_compound,
      readCompound_backward fuel [] (Or.inl rfl)]

/-! ### The colours of `paintToImage` -/

theorem isHexDigit_cases (c : Char) (h : isHexDigit c = true) :
    c ∈ "0123456789abcdefABCDEF".data := by
  simpa [isHexDigit] using h

set_option maxRecDepth 100000 in
theorem parseIntHex_pair (c d : Char) (hc : isHexDigit c = true) (hd : isHexDigit d = true) :
    toUint8Clamped (parseIntHex [c.toNat, d.toNat]) = hexValue ⟨[c, d]⟩ := by
  have h : ∀ c ∈ "0123456789abcdefABCDEF".data, ∀ d ∈ "0123456789abcdefABCDEF".data,
      toUint8Clamped (parseIntHex [c.toNat, d.toNat]) = hexValue ⟨[c, d]⟩ := by
    decide
  exact h c (isHexDigit_cases c hc) d (isHexDigit_cases d hd)

theorem isHexDigit_bmp (c : Char) (hc : isHexDigit c = true) : c.toNat < 0x10000 := by
  have h : ∀ c ∈ "0123456789abcdefABCDEF".data, c.toNat < 0x10000 := by decide
  exact h c (isHexDigit_cases c hc)

theorem pixelOfColor_colorOfHex (colorHex : String) (r g b : Nat)
    (h : colorOfHex colorHex = some (r, g, b)) : pixelOfColor colorHex = [r, g, b, 255] := by
  obtain ⟨cs⟩ := colorHex
  unfold colorOfHex at h
  match cs, h with
  | [r1, r2, g1, g2, b1, b2], h =>
    simp only at h
    split_ifs at h with hd
    obtain ⟨h1, h2, h3, h4, h5, h6⟩ := hd
    simp only [Option.some.injEq, Prod.mk.injEq] at h
    obtain ⟨rfl, rfl, rfl⟩ := h
    have hu : utf16 ⟨[r1, r2, g1, g2, b1, b2]⟩
        = [r1.toNat, r2.toNat, g1.toNat, g2.toNat, b1.toNat, b2.toNat] := by
      rw [utf16_bmp]
      · rfl
      · intro c hc
        simp only [List.mem_cons, List.mem_singleton, List.not_mem_nil, or_false] at hc
        rcases hc with rfl | rfl | rfl | rfl | rfl | rfl <;>
          exact isHexDigit_bmp _ (by assumption)
    unfold pixelOfColor storedPixel substringFromTo
    rw [hu]
    show [toUint8Clamped (parseIntHex [r1.toNat, r2.toNat]),
      toUint8Clamped (parseIntHex [g1.toNat, g2.toNat]),
      toUint8Clamped (parseIntHex [b1.toNat, b2.toNat]), 255] = _
    rw [parseIntHex_pair r1 r2 h1 h2, parseIntHex_pair g1 g2 h3 h4,
      parseIntHex_pair b1 b2 h5 h6]

theorem colorOfHex_ne_empty (colorHex : String) (c : Nat × Nat × Nat)
    (h : colorOfHex colorHex = some c) : colorHex ≠ "" := by
  rintro rfl
  cases h

theorem colorHexAt_of_getElem? (pixelColors : List String) (i : Nat) (colorHex : String)
    (h : pixelColors[i]? = some colorHex) (hne : colorHex ≠ "") :
    colorHexAt pixelColors i = colorHex := by
  unfold colorHexAt
  rw [h]
  exact if_neg hne

/-- The colour string of a pixel integer is the six-digit numeral of its three low
bytes. -/
theorem pixelColor_hexOfRGB (pixel : Int) :
    pixelColor pixel = hexOfRGB ((pixel % 2 ^ 32).toNat / 2 ^ 16 % 256)
      ((pixel % 2 ^ 32).toNat / 2 ^ 8 % 256) ((pixel % 2 ^ 32).toNat % 256) := by
  have hn : (pixel % 2 ^ 32).toNat / 2 ^ 16 % 256 * 2 ^ 16
      + (pixel % 2 ^ 32).toNat / 2 ^ 8 % 256 * 2 ^ 8 + (pixel % 2 ^ 32).toNat % 256
      = (pixel % 2 ^ 32).toNat % 16 ^ 6 := by
    norm_num; omega
  rw [pixelColor_eq, hexOfRGB, hn, padStart_toStringHex 5 _ (Nat.mod_lt _ (by norm_num)),
    hexDigits_mod 6]
  rfl

theorem pixelColor_ne_empty (pixel : Int) : pixelColor pixel ≠ "" := by
  rw [pixelColor_eq]
  intro h
  have h2 := congrArg String.length h
  simp [String.length, hexDigits_length] at h2

theorem pixelOfColor_pixelColor (pixel : Int) :
    pixelOfColor (pixelColor pixel) = [(pixel % 2 ^ 32).toNat / 2 ^ 16 % 256,
      (pixel % 2 ^ 32).toNat / 2 ^ 8 % 256, (pixel % 2 ^ 32).toNat % 256, 255] := by
  rw [pixelColor_hexOfRGB]
  exact pixelOfColor_hexOfRGB _ _ _ (by omega) (by omega) (by omega)

/-- C14: for a document whose canvas type has the table entry `info` and an integer
scale of at least 1, `paintToImage` returns a raster of `width * scale` by
`height * scale` pixels (four bytes each).  The output pixel at (`x * scale + sx`,
`y * scale + sy`) is the pixel of the colour number `y * width + x` with the alpha 255:
for a colour `rrggbb` of six hexadecimal digits (in either case) that denotes the red,
green and blue values r, g, b it is (r, g, b, 255); for the colour `parsePaintFile`
derives from a pixel integer it is the three low bytes of the integer, most significant
first, and 255; for every colour string it is what `parseInt` reads from its three pairs
of code units.  Every output position is of this form, so every output pixel is
written. -/
theorem paintToImage_scaled (paintData : PaintData) (info : CanvasInfo) (scale : Int)
    (hinfo : canvasInfo paintData.canvasType = .ok (some info)) (hscale : 1 ≤ scale) :
    ∃ canvas, paintToImage paintData (some scale) = .ok canvas ∧
      (canvas.width : Int) = info.width * scale ∧
      (canvas.height : Int) = info.height * scale ∧
      canvas.data.length = canvas.width * canvas.height * 4 ∧
      (∀ (y x sy sx : Nat) (colorHex : String) (r g b : Nat), y < info.height →
        x < info.width → sy < scale.toNat → sx < scale.toNat →
        paintData.pixelColors[y * info.width + x]? = some colorHex →
        colorOfHex colorHex = some (r, g, b) →
        pixelAt canvas.data
            ((y * scale.toNat + sy) * canvas.width + (x * scale.toNat + sx))
          = [r, g, b, 255]) ∧
      (∀ (y x sy sx : Nat) (pixel : Int), y < info.height → x < info.width →
        sy < scale.toNat → sx < scale.toNat →
        paintData.pixelColors[y * info.width + x]? = some (pixelColor pixel) →
        pixelAt canvas.data
            ((y * scale.toNat + sy) * canvas.width + (x * scale.toNat + sx))
          = [(pixel % 2 ^ 32).toNat / 2 ^ 16 % 256, (pixel % 2 ^ 32).toNat / 2 ^ 8 % 256,
             (pixel % 2 ^ 32).toNat % 256, 255]) ∧
      (∀ y x sy sx, y < info.height → x < info.width → sy < scale.toNat →
        sx < scale.toNat →
        pixelAt canvas.data
            ((y * scale.toNat + sy) * canvas.width + (x * scale.toNat + sx))
          = [toUint8Clamped (parseIntHex (substringFromTo
                (colorHexAt paintData.pixelColors (y * info.width + x)) 0 2)),
             toUint8Clamped (parseIntHex (substringFromTo
                (colorHexAt paintData.pixelColors (y * info.width + x)) 2 4)),
             toUint8Clamped (parseIntHex (substringFromTo
                (colorHexAt paintData.pixelColors (y * info.width + x)) 4 6)),
             255]) ∧
      (∀ px py, px < canvas.width → py < canvas.height →
        ∃ y x sy sx, y < info.height ∧ x < info.width ∧ sy < scale.toNat ∧
          sx < scale.toNat ∧ px = x * scale.toNat + sx ∧ py = y * scale.toNat + sy) := by
  have hok := paintToImage_ok paintData info scale hinfo hscale
  have hpos : 0 < scale.toNat := by omega
  have hcast : ((scale.toNat : Nat) : Int) = scale := Int.toNat_of_nonneg (by omega)
  refine ⟨_, hok, ?_, ?_, ?_, ?_, ?_, ?_, ?_⟩
  · show ((info.width * scale.toNat : Nat) : Int) = _
    rw [Nat.cast_mul, hcast]
  · show ((info.height * scale.toNat : Nat) : Int) = _
    rw [Nat.cast_mul, hcast]
  · show (fillImage _ _ _ _ _).length = _
    rw [fillImage_length, List.length_replicate]
  · intro y x sy sx colorHex r g b hy hx hsy hsx hcolor hrgb
    rw [paintToImage_pixel paintData info scale _ hinfo hscale hok y x sy sx hy hx hsy hsx,
      colorHexAt_of_getElem? _ _ _ hcolor (colorOfHex_ne_empty _ _ hrgb)]
    exact pixelOfColor_colorOfHex colorHex r g b hrgb
  · intro y x sy sx pixel hy hx hsy hsx hcolor
    rw [paintToImage_pixel paintData info scale _ hinfo hscale hok y x sy sx hy hx hsy hsx,
      colorHexAt_of_getElem? _ _ _ hcolor (pixelColor_ne_empty pixel)]
    exact pixelOfColor_pixelColor pixel
  · intro y x sy sx hy hx hsy hsx
    exact paintToImage_pixel paintData info scale _ hinfo hscale hok y x sy sx hy hx hsy hsx
  · intro px py hpx hpy
    have hpx1 : px < info.width * scale.toNat := hpx
    have hpy1 : py < info.height * scale.toNat := hpy
    refine ⟨py / scale.toNat, px / scale.toNat, py % scale.toNat, px % scale.toNat,
      ?_, ?_, Nat.mod_lt _ hpos, Nat.mod_lt _ hpos, ?_, ?_⟩
    · exact Nat.div_lt_of_lt_mul (by rw [Nat.mul_comm]; exact hpy1)
    · exact Nat.div_lt_of_lt_mul (by rw [Nat.mul_comm]; exact hpx1)
    · rw [Nat.mul_comm]; exact (Nat.div_add_mod px scale.toNat).symm
    · rw [Nat.mul_comm]; exact (Nat.div_add_mod py scale.toNat).symm

/-- C14 (witness): the document `sampleSmallDocument` at the scale 2.  Its first colour
`ff8000` fills the block of the source position (0, 0) with (255, 128, 0, 255); its
second colour `0x12zz` gives (0, 18, 0, 255), since `parseInt` reads nothing from `0x`
and from `zz`. -/
theorem paintToImage_scaled_witness :
    canvasInfo sampleSmallDocument.canvasType = .ok (some ⟨"Small", 16, 16⟩) ∧
    (1 : Int) ≤ 2 ∧
    ∃ canvas, paintToImage sampleSmallDocument (some 2) = .ok canvas ∧
      (canvas.width : Int) = (16 : Nat) * 2 ∧ (canvas.height : Int) = (16 : Nat) * 2 ∧
      canvas.data.length = canvas.width * canvas.height * 4 ∧
      pixelAt canvas.data ((0 * 2 + 1) * canvas.width + (0 * 2 + 1)) = [255, 128, 0, 255] ∧
      pixelAt canvas.data ((0 * 2 + 1) * canvas.width + (1 * 2 + 0)) = [0, 18, 0, 255] :=
  ⟨rfl, by decide,
    (paintToImage_scaled sampleSmallDocument ⟨"Small", 16, 16⟩ 2 rfl (by decide)).imp
      fun _ h => ⟨h.1, h.2.1, h.2.2.1, h.2.2.2.1,
        h.2.2.2.2.1 0 0 1 1 "ff8000" 255 128 0 (by decide) (by decide) (by decide)
          (by decide) rfl rfl,
        (h.2.2.2.2.2.2.1 0 1 1 0 (by decide) (by decide) (by decide) (by decide)).trans
          (by decide)⟩⟩

/-! ### The canvas type in a file -/

/-- C13 (amended): for a document whose canvas type is an integer outside 0 ... 3,
`paintToImage` fails with the error "Unknown canvas type"; `createPaintFile` and
`parsePaintFile` do not test the canvas type.  The bytes `createPaintFile` returns are
those of a compound that holds the canvas type as it is under `ct`, and the document
`parsePaintFile` returns has the decoded `ct`, whatever its value, as its canvas type.
When the integer is one the writer stores unchanged (not in -32768 ... -1, in the signed
64-bit range, a binary64 value: every integer from 4 to 2^31 - 1 is one), then for every
generation and version in 0 ... 2^31 - 1, every non-empty array of fewer than 2^31
signed 32-bit pixels and every name, title and author of at most 65535 bytes of UTF-8
without a leading byte order mark, `createPaintFile` does return bytes for the document
of that canvas type, and `parsePaintFile`, given enough fuel, does return from them a
document of that canvas type with the same generation, version, name and pixels. -/
theorem canvas_type_tested_by_lookup_only (paintData : PaintData) (i : Int)
    (hct : paintData.canvasType = .num i) (hi : i < 0 ∨ 3 < i) :
    (∀ scale, paintToImage paintData scale = .throw (.unknownCanvasType (.num i))) ∧
    (∀ bytes, createPaintFile paintData = .ok bytes →
      ∃ compound writer, lookupField "ct" compound = some (.num i) ∧
        NBTWriter.writeTag NBTWriter.new 10 (.str "") (.obj compound) = .ok writer ∧
        writer.build = bytes) ∧
    (∀ fuel arrayBuffer document, parsePaintFile fuel arrayBuffer = .ok document →
      ∃ nbtData, parse fuel arrayBuffer = .ok nbtData ∧
        document.canvasType = propOf nbtData "ct") ∧
    ((4 ≤ i ∧ i < 2 ^ 31) → numberRoundTrips i = true) ∧
    (numberRoundTrips i = true →
      ∀ (generation version : Int) (name title author : String) (pixels : List JSValue)
        (pixelColors : List String),
        0 ≤ generation ∧ generation < 2 ^ 31 → 0 ≤ version ∧ version < 2 ^ 31 →
        pixels ≠ [] → pixels.length < 2 ^ 31 → int32Elements pixels = true →
        stringRoundTrips name = true → stringRoundTrips title = true →
        stringRoundTrips author = true →
        ∃ bytes, createPaintFile ⟨.num i, .str author, .str title, .str name,
            .arr pixels, some (.num generation), some (.num version), pixelColors⟩
            = .ok bytes ∧
          ∃ fuel0 : Nat, ∀ fuel, fuel0 ≤ fuel →
            ∃ document, parsePaintFile fuel bytes = .ok document ∧
              document.canvasType = .num i ∧
              document.generation = some (.num generation) ∧
              document.version = some (.num version) ∧
              document.name = .str name ∧
              document.pixels = .arr pixels) := by
  refine ⟨?_, ?_, ?_, ?_, ?_⟩
  · intro scale
    rw [paintToImage_unknown_type paintData scale
      (by rw [hct]; exact canvasInfo_num_unknown i hi), hct]
  · intro bytes h
    obtain ⟨compound, writer, hc, hw, hb⟩ := createPaintFile_ok paintData bytes h
    exact ⟨compound, writer, by rw [createCompound_ct paintData compound hc, hct], hw, hb⟩
  · intro fuel arrayBuffer document h
    obtain ⟨nbtData, hp, he⟩ := parsePaintFile_ok fuel arrayBuffer document h
    exact ⟨nbtData, hp, (extractPaintData_ok nbtData document he).1⟩
  · intro h
    exact numberRoundTrips_small i (by omega) h.2
  · intro hn generation version name title author pixels pixelColors hg hv hpix hlen hint
      hname htitle hauthor
    obtain ⟨bytes, hb, fuel0, hparse⟩ := document_roundTrip i generation version name title
      author pixels pixelColors hn hg hv hpix hlen hint hname htitle hauthor
    refine ⟨bytes, hb, fuel0, fun fuel hfuel => ?_⟩
    obtain ⟨document, hd, h1, h2, h3, h4, h5, _⟩ := hparse fuel hfuel
    exact ⟨document, hd, h1, h2, h3, h4, h5⟩

/-- C13 (witness): the document `unknownTypeDocument` of the canvas type 7: `paintToImage`
fails on it, `createPaintFile` returns bytes for it, and `parsePaintFile` returns from
them a document of the canvas type 7. -/
theorem canvas_type_tested_by_lookup_only_witness :
    unknownTypeDocument.canvasType = .num 7 ∧ ((7 : Int) < 0 ∨ (3 : Int) < 7) ∧
    paintToImage unknownTypeDocument (some 1) = .throw (.unknownCanvasType (.num 7)) ∧
    ∃ bytes, createPaintFile unknownTypeDocument = .ok bytes ∧
      ∃ fuel0 : Nat, ∀ fuel, fuel0 ≤ fuel →
        ∃ document, parsePaintFile fuel bytes = .ok document ∧
          document.canvasType = .num 7 ∧
          document.generation = some (.num 1) ∧
          document.version = some (.num 2) ∧
          document.name = .str "n" ∧
          document.pixels = .arr [.num (-1)] :=
  ⟨rfl, by decide,
    (canvas_type_tested_by_lookup_only unknownTypeDocument 7 rfl (by decide)).1 (some 1),
    (canvas_type_tested_by_lookup_only unknownTypeDocument 7 rfl (by decide)).2.2.2.2
      ((canvas_type_tested_by_lookup_only unknownTypeDocument 7 rfl (by decide)).2.2.2.1
        (by decide))
      1 2 "n" "" "" [.num (-1)] ["ffffff"] (by decide) (by decide) (List.cons_ne_nil _ _)
      (by decide) (by decide) (by decide) (by decide) (by decide)⟩

/-! ### Files cut short, and unknown kinds after the entries of a compound -/

theorem setField_ok (acc : List (String × JSValue)) (k : String) (v : JSValue)
    (hk : k ≠ "__proto__") : ∃ acc1, setField acc k v = .ok acc1 := by
  unfold setField
  rw [if_neg hk]
  split
  · exact ⟨_, rfl⟩
  · split
    · exact ⟨_, rfl⟩
    · exact ⟨_, rfl⟩

/-- The entries of a compound of the kinds of `roundTrips` are written as a byte string
`es` followed by the End byte; the loop of `readCompound`, entered at the start of `es`
with enough fuel, comes to the end of `es` with one round for each entry, whatever
follows `es` in the buffer. -/
theorem entries_then : ∀ (fields : List (String × JSValue)), fieldsRoundTrip fields = true →
    ∃ (es : List Nat) (fuel0 : Nat),
      (∀ w : NBTWriter, writeCompound w fields = .ok ⟨w.buffer ++ (es ++ [0])⟩) ∧
      (∀ x ∈ es, x < 256) ∧
      ∀ (buffer : List Nat) (offset : Int) (rest : List Nat) (acc : List (String × JSValue)),
        suffixAt buffer offset (es ++ rest) →
        ∃ acc1, ∀ fuel, fuel0 ≤ fuel →
          readCompound buffer (fuel + fields.length) offset acc
            = readCompound buffer fuel (offset + es.length) acc1
  | [], _ => by
    refine ⟨[], 0, fun w => rfl, fun x hx => absurd hx (List.not_mem_nil x), ?_⟩
    intro buffer offset rest acc _
    refine ⟨acc, fun fuel _ => ?_⟩
    simp
  | (k, v) :: fields, h => by
    have h2 : (stringRoundTrips k && k != "__proto__" && roundTrips v
        && fieldsRoundTrip fields) = true := h
    rw [Bool.and_eq_true, Bool.and_eq_true, Bool.and_eq_true] at h2
    have hname : k ≠ "__proto__" := by simpa using h2.1.1.2
    obtain ⟨bk, hwk, hltk, hrk⟩ := readString_writeString k h2.1.1.1
    obtain ⟨bv, fv, hwv, hltv, hrv⟩ := payload_roundTrips v h2.1.2
    obtain ⟨er, fr, hwr, hltr, hrr⟩ := entries_then fields h2.2
    obtain ⟨ty1, ty11⟩ := inferTagType_range v
    refine ⟨inferTagType v :: (bk ++ (bv ++ er)), fv + fr + 1, ?_, ?_, ?_⟩
    · intro w
      rw [writeCompound_cons _ _ _ _ hname, if_neg (by omega), writeByte_small w _ (by omega)]
      simp only [hwk, hwv, hwr, List.append_assoc, List.singleton_append, List.cons_append,
        List.nil_append]
    · intro y hy
      simp only [List.mem_cons, List.mem_append] at hy
      rcases hy with h1 | h1 | h1 | h1
      · omega
      · exact hltk y h1
      · exact hltv y h1
      · exact hltr y h1
    · intro buffer offset rest acc hs
      simp only [List.cons_append, List.append_assoc] at hs
      have hb := suffixAt_byteAt _ _ _ _ hs
      have s1 := suffixAt_succ _ _ _ _ hs
      have hnm := hrk buffer (offset + 1) _ s1
      have s2 := suffixAt_append _ _ _ _ s1
      have s3 := suffixAt_append _ _ _ _ s2
      obtain ⟨acc1, hset⟩ := setField_ok acc k v hname
      obtain ⟨acc2, hloop⟩ := hrr buffer _ rest acc1 s3
      have h0 : (readByte buffer offset).1 ≠ some 0 := by
        show byteAt buffer offset ≠ some 0
        rw [hb]
        intro h
        simp only [Option.some.injEq] at h
        omega
      have hty : (readByte buffer offset).1 = some (inferTagType v) := hb
      refine ⟨acc2, fun fuel hf => ?_⟩
      obtain ⟨f, rfl⟩ : ∃ f, fuel = f + 1 := ⟨fuel - 1, by omega⟩
      have hval := hrv buffer _ _ (f + fields.length) (by omega) s2
      have e1 : f + 1 + ((k, v) :: fields).length = (f + fields.length + 1) + 1 := by
        simp only [List.length_cons]; omega
      rw [e1, readCompound_succ, readTag_succ, if_neg h0, hnm, hty]
      simp only [hval]
      rw [if_neg (getTagTypeName_ne_end _ (by rw [← hty]; exact h0))]
      simp only [Option.getD_some, hset]
      have e2 : f + fields.length + 1 = (f + 1) + fields.length := by omega
      rw [e2, hloop (f + 1) (by omega)]
      congr 1
      simp only [List.length_cons, List.length_append]
      push_cast
      ring

/-- The file of a compound of the kinds of `roundTrips` is `0A 00 00`, the entries `es`
and the End byte.  In a buffer that holds the bytes `tail` in place of the End byte,
`parse` comes to the loop of `readCompound` at the end of `es`: when the loop fails
there, `parse` fails with the same error. -/
theorem parse_after_entries (fields : List (String × JSValue))
    (h : fieldsRoundTrip fields = true) :
    ∃ (es : List Nat) (fuel0 : Nat),
      writeTag NBTWriter.new 10 (.str "") (.obj fields) = .ok ⟨[10, 0, 0] ++ es ++ [0]⟩ ∧
      (∀ x ∈ es, x < 256) ∧
      ∀ (tail : List Nat) (e : JSError) (k : Nat),
        (∀ fuel acc, k ≤ fuel →
          readCompound ([10, 0, 0] ++ es ++ new tail) fuel (3 + es.length) acc = .throw e) →
        ∀ fuel, fuel0 + k ≤ fuel → parse fuel ([10, 0, 0] ++ es ++ tail) = .throw e := by
  obtain ⟨es, f0, hw, hlt, hr⟩ := entries_then fields h
  refine ⟨es, f0 + fields.length + 2, ?_, hlt, ?_⟩
  · have hw2 := hw ⟨[10, 0, 0]⟩
    show (match (NBTWriter.writeByte NBTWriter.new 10).writeString (.str "") with
      | .ok w1 => writeTagPayload w1 10 (.obj fields)
      | .throw e => .throw e
      | .outOfFuel => .outOfFuel
      | .unmodelled => .unmodelled) = _
    have e : (NBTWriter.writeByte NBTWriter.new 10).writeString (.str "")
        = .ok ⟨[10, 0, 0]⟩ := rfl
    rw [e]
    show writeCompound ⟨[10, 0, 0]⟩ fields = _
    rw [hw2, List.append_assoc]
  · intro tail e k hthrow fuel hf
    obtain ⟨f, rfl⟩ : ∃ f, fuel = f + fields.length + 1 + 1 :=
      ⟨fuel - fields.length - 2, by omega⟩
    have hall : ∀ x ∈ [10, 0, 0] ++ es, x < 256 := by
      intro x hx
      rcases List.mem_append.mp hx with h1 | h1
      · simp only [List.mem_cons, List.mem_singleton, List.not_mem_nil, or_false] at h1
        omega
      · exact hlt x h1
    have hb : NBTParser.new ([10, 0, 0] ++ es ++ tail) = [10, 0, 0] ++ es ++ new tail := by
      simp only [NBTParser.new, List.map_append]
      rw [← List.map_append, map_mod_of_lt _ hall]
    have hs : suffixAt ([10, 0, 0] ++ es ++ new tail) 3 (es ++ new tail) := by
      refine ⟨by omega, ?_⟩
      simp
    obtain ⟨acc1, hloop⟩ := hr _ 3 (new tail) [] hs
    have h0 : (readByte ([10, 0, 0] ++ es ++ new tail) 0).1 = some 10 := rfl
    have hn : readString ([10, 0, 0] ++ es ++ new tail) (0 + 1) = ("", 3) := by
      have hs1 : suffixAt ([10, 0, 0] ++ es ++ new tail) (0 + 1) ([0, 0] ++ (es ++ new tail)) :=
        ⟨by omega, by simp⟩
      have := readShort_at _ _ 0 0 _ hs1
      have hs3 : suffixAt ([10, 0, 0] ++ es ++ new tail) (0 + 1 + 2) ([] ++ (es ++ new tail)) :=
        ⟨by omega, by simp⟩
      have hsl := suffixAt_slice _ _ _ _ hs3
      simp only [readString, this]
      simp only [List.length_nil, Nat.cast_zero, add_zero] at hsl
      refine Prod.ext ?_ ?_
      · have e0 : (0 : Int) + 1 + 2 + (((0 : Nat) : Int) * 256 + ((0 : Nat) : Int))
            = 0 + 1 + 2 := by simp
        simp only [e0, hsl]
        rfl
      · simp
    simp only [parse, hb]
    rw [readTag_succ, h0, if_neg (by decide), hn, readTagPayload_compound,
      hloop f (by omega), hthrow f acc1 (by omega)]

theorem dropLast_build (es : List Nat) (h : ∀ x ∈ es, x < 256) :
    (NBTWriter.build ⟨[10, 0, 0] ++ es ++ [0]⟩).dropLast = [10, 0, 0] ++ es := by
  have hall : ∀ x ∈ [10, 0, 0] ++ es ++ [0], x < 256 := by
    intro x hx
    simp only [List.mem_append, List.mem_cons, List.mem_singleton, List.not_mem_nil,
      or_false] at hx
    rcases hx with (h1 | h1) | h1
    · omega
    · exact h x h1
    · omega
  simp only [NBTWriter.build]
  rw [map_mod_of_lt _ hall, List.dropLast_concat]

/-- At the end of the buffer the loop of `readCompound` raises the error. -/
theorem readCompound_at_end (buffer : List Nat) (offset : Int) (fuel : Nat)
    (acc : List (String × JSValue)) (h : (buffer.length : Int) ≤ offset) (hf : 3 ≤ fuel) :
    readCompound buffer fuel offset acc = .throw (.unknownTagType none) := by
  obtain ⟨f, rfl⟩ : ∃ f, fuel = f + 2 + 1 := ⟨fuel - 3, by omega⟩
  have hb : (readByte buffer offset).1 = none := byteAt_none_of_length_le buffer offset h
  have hk : unknownKind (readByte buffer offset).1 := by rw [hb]; exact unknownKind_none
  have ht := readTag_unknown buffer f offset hk
  rw [hb] at ht
  exact readCompound_throw_of_readTag _ _ _ _ _ ht

theorem parse_cut_after_entries (fields : List (String × JSValue))
    (h : roundTrips (.obj fields) = true) :
    ∃ w : NBTWriter, writeTag NBTWriter.new 10 (.str "") (.obj fields) = .ok w ∧
      ∃ fuel0 : Nat, ∀ fuel, fuel0 ≤ fuel →
        parse fuel w.build.dropLast = .throw (.unknownTagType none) := by
  have h2 : (entriesOrderFrom [] (fields.map Prod.fst) && fieldsRoundTrip fields) = true := h
  rw [Bool.and_eq_true] at h2
  obtain ⟨es, f0, hw, hlt, hp⟩ := parse_after_entries fields h2.2
  refine ⟨_, hw, f0 + 3, fun fuel hf => ?_⟩
  rw [dropLast_build es hlt]
  have := hp [] (.unknownTagType none) 3 (fun fuel acc hf3 =>
    readCompound_at_end _ _ fuel acc (by simp [NBTParser.new]; omega) hf3) fuel hf
  simpa using this

theorem unknownKind_some (t : Nat) (h : 13 ≤ t) : unknownKind (some t) := by
  intro n hn
  cases hn
  omega

/-- A List whose element kind is unknown and whose declared count is at least 1 makes
`readList` raise the error. -/
theorem readList_unknown (buffer : List Nat) (offset : Int) (fuel : Nat)
    (h : unknownKind (readByte buffer offset).1) (hc : 1 ≤ (readInt buffer (offset + 1)).1) :
    readList buffer (fuel + 3) offset = .throw (.unknownTagType (readByte buffer offset).1) := by
  obtain ⟨n, hn⟩ : ∃ n, (readInt buffer (offset + 1)).1.toNat = n + 1 :=
    ⟨(readInt buffer (offset + 1)).1.toNat - 1, by omega⟩
  apply readList_throw_of_loop
  rw [hn]
  exact readListLoop_throw_of_payload _ _ _ _ _ _ _ (readTagPayload_unknown _ _ _ _ h)

/-- A named List tag whose element kind is unknown and whose declared count is at least 1
makes `readTag` raise the error, whatever follows. -/
theorem readTag_list_unknown (buffer : List Nat) (offset : Int) (fuel : Nat) (name : String)
    (nb : List Nat) (kind c1 c2 c3 c4 : Nat) (rest : List Nat)
    (hname : ∀ (buffer : List Nat) (offset : Int) (rest : List Nat),
      suffixAt buffer offset (nb ++ rest) → readString buffer offset = (name, offset + nb.length))
    (hkind : 13 ≤ kind)
    (hcount : 1 ≤ toInt32 ((c1 : Int) * 2 ^ 24 + (c2 : Int) * 2 ^ 16 + (c3 : Int) * 2 ^ 8
      + (c4 : Int)))
    (hs : suffixAt buffer offset (9 :: (nb ++ kind :: c1 :: c2 :: c3 :: c4 :: rest))) :
    readTag buffer (fuel + 5) offset = .throw (.unknownTagType (some kind)) := by
  have hb := suffixAt_byteAt _ _ _ _ hs
  have s1 := suffixAt_succ _ _ _ _ hs
  have hnm := hname buffer (offset + 1) _ s1
  have s2 := suffixAt_append _ _ _ _ s1
  have hk := suffixAt_byteAt _ _ _ _ s2
  have s3 := suffixAt_succ _ _ _ _ s2
  have hint := readInt_at _ _ _ _ _ _ _ s3
  have h0 : (readByte buffer offset).1 ≠ some 0 := by
    show byteAt buffer offset ≠ some 0
    rw [hb]
    decide
  have hty : (readByte buffer offset).1 = some 9 := hb
  have hkb : (readByte buffer (offset + 1 + nb.length)).1 = some kind := hk
  have hl := readList_unknown buffer (offset + 1 + nb.length) fuel
    (by rw [hkb]; exact unknownKind_some kind hkind) (by rw [hint]; exact hcount)
  rw [hkb] at hl
  apply readTag_throw_of_payload _ _ _ _ h0
  rw [hnm, hty, readTagPayload_list]
  exact hl

theorem suffixAt_tail (es tail : List Nat) :
    suffixAt ([10, 0, 0] ++ es ++ tail) (3 + es.length) tail := by
  refine ⟨by omega, ?_⟩
  have e : (3 + (es.length : Int)).toNat = ([10, 0, 0] ++ es).length := by
    simp only [List.length_append, List.length_cons, List.length_nil]
    omega
  rw [e, List.drop_left]

theorem parse_unknown_after_entries (fields : List (String × JSValue)) (t : Nat)
    (tail : List Nat) (h : roundTrips (.obj fields) = true) (h13 : 13 ≤ t) (h256 : t < 256) :
    ∃ w : NBTWriter, writeTag NBTWriter.new 10 (.str "") (.obj fields) = .ok w ∧
      ∃ fuel0 : Nat, ∀ fuel, fuel0 ≤ fuel →
        parse fuel (w.build.dropLast ++ t :: tail) = .throw (.unknownTagType (some t)) := by
  have h2 : (entriesOrderFrom [] (fields.map Prod.fst) && fieldsRoundTrip fields) = true := h
  rw [Bool.and_eq_true] at h2
  obtain ⟨es, f0, hw, hlt, hp⟩ := parse_after_entries fields h2.2
  refine ⟨_, hw, f0 + 3, fun fuel hf => ?_⟩
  rw [dropLast_build es hlt]
  refine hp (t :: tail) _ 3 (fun fuel acc hf3 => ?_) fuel hf
  obtain ⟨f, rfl⟩ : ∃ f, fuel = f + 2 + 1 := ⟨fuel - 3, by omega⟩
  have hs := suffixAt_tail es (new (t :: tail))
  have hb : (readByte ([10, 0, 0] ++ es ++ new (t :: tail)) (3 + es.length)).1 = some t := by
    have := suffixAt_byteAt _ _ (t % 256) (new tail) hs
    rw [Nat.mod_eq_of_lt h256] at this
    exact this
  have ht := readTag_unknown ([10, 0, 0] ++ es ++ new (t :: tail)) f (3 + es.length)
    (by rw [hb]; exact unknownKind_some t h13)
  rw [hb] at ht
  exact readCompound_throw_of_readTag _ _ _ _ _ ht

theorem new_append (xs ys : List Nat) : new (xs ++ ys) = new xs ++ new ys := by
  simp only [NBTParser.new, List.map_append]

theorem new_of_lt (xs : List Nat) (h : ∀ x ∈ xs, x < 256) : new xs = xs :=
  map_mod_of_lt xs h

theorem parse_list_after_entries (fields : List (String × JSValue)) (name : String)
    (kind c1 c2 c3 c4 : Nat) (tail : List Nat) (h : roundTrips (.obj fields) = true)
    (hname : stringRoundTrips name = true) (hkind : 13 ≤ kind ∧ kind < 256)
    (hc : c1 < 256 ∧ c2 < 256 ∧ c3 < 256 ∧ c4 < 256)
    (hcount : 1 ≤ toInt32 ((c1 : Int) * 2 ^ 24 + (c2 : Int) * 2 ^ 16 + (c3 : Int) * 2 ^ 8
      + (c4 : Int))) :
    ∃ w nameBytes : NBTWriter,
      writeTag NBTWriter.new 10 (.str "") (.obj fields) = .ok w ∧
      NBTWriter.writeString ⟨[]⟩ (.str name) = .ok nameBytes ∧
      ∃ fuel0 : Nat, ∀ fuel, fuel0 ≤ fuel →
        parse fuel (w.build.dropLast
            ++ 9 :: (nameBytes.buffer ++ kind :: c1 :: c2 :: c3 :: c4 :: tail))
          = .throw (.unknownTagType (some kind)) := by
  have h2 : (entriesOrderFrom [] (fields.map Prod.fst) && fieldsRoundTrip fields) = true := h
  rw [Bool.and_eq_true] at h2
  obtain ⟨es, f0, hw, hlt, hp⟩ := parse_after_entries fields h2.2
  obtain ⟨nb, hwn, hltn, hrn⟩ := readString_writeString name hname
  refine ⟨_, ⟨[] ++ nb⟩, hw, hwn ⟨[]⟩, f0 + 6, fun fuel hf => ?_⟩
  rw [dropLast_build es hlt]
  refine hp _ _ 6 (fun fuel acc hf6 => ?_) fuel hf
  obtain ⟨f, rfl⟩ : ∃ f, fuel = f + 5 + 1 := ⟨fuel - 6, by omega⟩
  have hnew : new (9 :: ([] ++ nb ++ kind :: c1 :: c2 :: c3 :: c4 :: tail))
      = 9 :: (nb ++ kind :: c1 :: c2 :: c3 :: c4 :: new tail) := by
    simp only [NBTParser.new, List.map_cons, List.map_append, List.nil_append,
      Nat.mod_eq_of_lt hkind.2, Nat.mod_eq_of_lt hc.1, Nat.mod_eq_of_lt hc.2.1,
      Nat.mod_eq_of_lt hc.2.2.1, Nat.mod_eq_of_lt hc.2.2.2]
    rw [map_mod_of_lt nb hltn]
  have hs := suffixAt_tail es (new (9 :: ([] ++ nb ++ kind :: c1 :: c2 :: c3 :: c4 :: tail)))
  rw [hnew] at hs ⊢
  exact readCompound_throw_of_readTag _ _ _ _ _
    (readTag_list_unknown _ _ f name nb kind c1 c2 c3 c4 (new tail) hrn hkind.1 hcount hs)

theorem parse_root_list_unknown (name : String) (kind c1 c2 c3 c4 : Nat) (tail : List Nat)
    (hname : stringRoundTrips name = true) (hkind : 13 ≤ kind ∧ kind < 256)
    (hc : c1 < 256 ∧ c2 < 256 ∧ c3 < 256 ∧ c4 < 256)
    (hcount : 1 ≤ toInt32 ((c1 : Int) * 2 ^ 24 + (c2 : Int) * 2 ^ 16 + (c3 : Int) * 2 ^ 8
      + (c4 : Int))) :
    ∃ nameBytes : NBTWriter, NBTWriter.writeString ⟨[]⟩ (.str name) = .ok nameBytes ∧
      ∀ fuel, parse (fuel + 5)
          (9 :: (nameBytes.buffer ++ kind :: c1 :: c2 :: c3 :: c4 :: tail))
        = .throw (.unknownTagType (some kind)) := by
  obtain ⟨nb, hwn, hltn, hrn⟩ := readString_writeString name hname
  refine ⟨⟨[] ++ nb⟩, hwn ⟨[]⟩, fun fuel => ?_⟩
  have hnew : new (9 :: ([] ++ nb ++ kind :: c1 :: c2 :: c3 :: c4 :: tail))
      = 9 :: (nb ++ kind :: c1 :: c2 :: c3 :: c4 :: new tail) := by
    simp only [NBTParser.new, List.map_cons, List.map_append, List.nil_append,
      Nat.mod_eq_of_lt hkind.2, Nat.mod_eq_of_lt hc.1, Nat.mod_eq_of_lt hc.2.1,
      Nat.mod_eq_of_lt hc.2.2.1, Nat.mod_eq_of_lt hc.2.2.2]
    rw [map_mod_of_lt nb hltn]
  apply parse_throw_of_readTag
  rw [hnew]
  exact readTag_list_unknown _ 0 fuel name nb kind c1 c2 c3 c4 (new tail) hrn hkind.1 hcount
    ⟨le_refl 0, rfl⟩

theorem readTagPayload_numeric (buffer : List Nat) (fuel : Nat) (offset : Int) (t : Nat)
    (h1 : 1 ≤ t) (h6 : t ≤ 6) :
    ∃ v, readTagPayload buffer (fuel + 1) offset (some t) = .ok (v, offset + numericWidth t) := by
  interval_cases t
  · exact ⟨_, rfl⟩
  · exact ⟨_, rfl⟩
  · exact ⟨_, rfl⟩
  · exact ⟨_, rfl⟩
  · exact ⟨_, rfl⟩
  · exact ⟨_, rfl⟩

theorem parse_cut_numeric (fields : List (String × JSValue)) (name : String) (t : Nat)
    (cut : List Nat) (h : roundTrips (.obj fields) = true)
    (hname : stringRoundTrips name = true) (hproto : name ≠ "__proto__")
    (ht : 1 ≤ t ∧ t ≤ 6) (hcut : cut.length < numericWidth t) :
    ∃ w nameBytes : NBTWriter,
      writeTag NBTWriter.new 10 (.str "") (.obj fields) = .ok w ∧
      NBTWriter.writeString ⟨[]⟩ (.str name) = .ok nameBytes ∧
      ∃ fuel0 : Nat, ∀ fuel, fuel0 ≤ fuel →
        parse fuel (w.build.dropLast ++ t :: (nameBytes.buffer ++ cut))
          = .throw (.unknownTagType none) := by
  have h2 : (entriesOrderFrom [] (fields.map Prod.fst) && fieldsRoundTrip fields) = true := h
  rw [Bool.and_eq_true] at h2
  obtain ⟨es, f0, hw, hlt, hp⟩ := parse_after_entries fields h2.2
  obtain ⟨nb, hwn, hltn, hrn⟩ := readString_writeString name hname
  refine ⟨_, ⟨[] ++ nb⟩, hw, hwn ⟨[]⟩, f0 + 5, fun fuel hf => ?_⟩
  rw [dropLast_build es hlt]
  refine hp _ _ 5 (fun fuel acc hf5 => ?_) fuel hf
  obtain ⟨f, rfl⟩ : ∃ f, fuel = f + 2 + 1 + 1 + 1 := ⟨fuel - 5, by omega⟩
  have hnew : new (t :: ([] ++ nb ++ cut)) = t :: (nb ++ new cut) := by
    simp only [NBTParser.new, List.map_cons, List.map_append, List.nil_append,
      Nat.mod_eq_of_lt (show t < 256 by omega)]
    rw [map_mod_of_lt nb hltn]
  have hs := suffixAt_tail es (new (t :: ([] ++ nb ++ cut)))
  rw [hnew] at hs ⊢
  have hb := suffixAt_byteAt _ _ _ _ hs
  have s1 := suffixAt_succ _ _ _ _ hs
  have hnm := hrn _ (3 + (es.length : Int) + 1) _ s1
  have hty : (readByte ([10, 0, 0] ++ es ++ t :: (nb ++ new cut)) (3 + es.length)).1 = some t :=
    hb
  have h0 : (readByte ([10, 0, 0] ++ es ++ t :: (nb ++ new cut)) (3 + es.length)).1 ≠ some 0 := by
    rw [hty]
    intro h
    simp only [Option.some.injEq] at h
    omega
  obtain ⟨v, hv⟩ := readTagPayload_numeric ([10, 0, 0] ++ es ++ t :: (nb ++ new cut)) (f + 2)
    (3 + (es.length : Int) + 1 + nb.length) t ht.1 ht.2
  obtain ⟨acc1, hset⟩ := setField_ok acc name v hproto
  rw [readCompound_succ, readTag_succ, if_neg h0, hnm, hty]
  simp only [hv]
  rw [if_neg (getTagTypeName_ne_end _ (by rw [← hty]; exact h0))]
  simp only [Option.getD_some, hset]
  apply readCompound_at_end _ _ _ _ _ (by omega)
  simp only [List.length_append, List.length_cons, List.length_nil, NBTParser.new,
    List.length_map]
  push_cast
  omega

/-- C5 (amended): the reader checks no bounds.  Past the end of the buffer a byte reads
as `undefined` and a short or an int as 0, so a payload that is cut short is decoded
from the bytes that are there.  The decoder fails with an error where the buffer has
ended and a tag-type byte is to be read: `readTag` and the loop of `readCompound` raise
"Unknown tag type: undefined" there, as `parse` does on the empty buffer.  The error of a
later round of the loop is the error of the loop, and the error of the loop of a root
Compound is the error of `parse`; hence a Compound is returned only after its End byte
was read from inside the buffer, also when it is the root tag that `parse` returns.  In
particular, for every compound of the kinds of `roundTrips`, `parse` (given enough fuel)
fails with that error on the file of the compound without its last byte, the End byte,
and on the file in which the entries are followed by a numeric entry (Byte to Double,
under a name other than `__proto__`) whose payload is cut short by the end of the
buffer. -/
theorem end_of_buffer (b : List Nat) (offset : Int) (fuel : Nat)
    (acc : List (String × JSValue)) :
    (byteAt (new b) offset = none →
      readTag (new b) (fuel + 2) offset = .throw (.unknownTagType none) ∧
      readCompound (new b) (fuel + 3) offset acc = .throw (.unknownTagType none)) ∧
    (∀ r, readCompound (new b) fuel offset acc = .ok r → byteAt (new b) (r.2 - 1) = some 0) ∧
    parse (fuel + 2) [] = .throw (.unknownTagType none) ∧
    (((new b).length : Int) ≤ offset →
      readByte (new b) offset = (none, offset + 1) ∧
      readShort (new b) offset = (0, offset + 2) ∧
      readInt (new b) offset = (0, offset + 4)) ∧
    (∀ v, byteAt (new b) 0 = some 10 → parse (fuel + 2) b = .ok v →
      ∃ stop : Int, byteAt (new b) (stop - 1) = some 0 ∧
        readCompound (new b) fuel (readString (new b) 1).2 [] = .ok (v, stop)) ∧
    (∀ (tag : Tag) (offset1 : Int) (acc1 : List (String × JSValue)) (e : JSError),
      readTag (new b) fuel offset = .ok (tag, offset1) → tag.type ≠ "end" →
      setField acc (tag.name.getD "undefined") tag.value = .ok acc1 →
      readCompound (new b) fuel offset1 acc1 = .throw e →
      readCompound (new b) (fuel + 1) offset acc = .throw e) ∧
    (∀ e : JSError, byteAt (new b) 0 = some 10 →
      readCompound (new b) fuel (readString (new b) 1).2 [] = .throw e →
      parse (fuel + 2) b = .throw e) ∧
    (∀ fields : List (String × JSValue), roundTrips (.obj fields) = true →
      ∃ w : NBTWriter, writeTag NBTWriter.new 10 (.str "") (.obj fields) = .ok w ∧
        ∃ fuel0 : Nat, ∀ fuel1, fuel0 ≤ fuel1 →
          parse fuel1 w.build.dropLast = .throw (.unknownTagType none)) ∧
    (∀ (fields : List (String × JSValue)) (name : String) (t : Nat) (cut : List Nat),
      roundTrips (.obj fields) = true → stringRoundTrips name = true → name ≠ "__proto__" →
      1 ≤ t ∧ t ≤ 6 → cut.length < numericWidth t →
      ∃ w nameBytes : NBTWriter,
        writeTag NBTWriter.new 10 (.str "") (.obj fields) = .ok w ∧
        NBTWriter.writeString ⟨[]⟩ (.str name) = .ok nameBytes ∧
        ∃ fuel0 : Nat, ∀ fuel1, fuel0 ≤ fuel1 →
          parse fuel1 (w.build.dropLast ++ t :: (nameBytes.buffer ++ cut))
            = .throw (.unknownTagType none)) := by
  refine ⟨?_, ?_, ?_, ?_, ?_, ?_, ?_, parse_cut_after_entries, parse_cut_numeric⟩
  · intro h
    have hk : unknownKind (readByte (new b) offset).1 := by
      show unknownKind (byteAt (new b) offset)
      rw [h]; exact unknownKind_none
    have ht := readTag_unknown (new b) fuel offset hk
    have hb : (readByte (new b) offset).1 = none := h
    rw [hb] at ht
    exact ⟨ht, readCompound_throw_of_readTag _ _ _ _ _ ht⟩
  · intro r h
    exact readCompound_end_inside _ _ _ _ _ h
  · have hk : unknownKind (readByte (new []) 0).1 := unknownKind_none
    exact parse_throw_of_readTag [] (fuel + 2) _ (readTag_unknown (new []) fuel 0 hk)
  · intro h
    have h0 := byteAt_none_of_length_le (new b) offset h
    have h1 := byteAt_none_of_length_le (new b) (offset + 1) (by omega)
    have h2 := byteAt_none_of_length_le (new b) (offset + 2) (by omega)
    have h3 := byteAt_none_of_length_le (new b) (offset + 3) (by omega)
    simp [readByte, readShort, readInt, h0, h1, h2, h3, operand, toInt32]
  · intro v h10 hp
    have hb : (readByte (new b) 0).1 = some 10 := h10
    have hp2 : (match readTag (new b) (fuel + 1 + 1) 0 with
      | .ok (rootTag, _) => Outcome.ok rootTag.value
      | .throw e => .throw e
      | .outOfFuel => .outOfFuel
      | .unmodelled => .unmodelled) = .ok v := hp
    rw [readTag_succ, hb, if_neg (by decide), readTagPayload_compound] at hp2
    cases hc : readCompound (new b) fuel (readString (new b) (0 + 1)).2 [] with
    | ok r =>
      obtain ⟨value, stop⟩ := r
      rw [hc] at hp2
      simp only [Outcome.ok.injEq] at hp2
      subst hp2
      have hc2 : readCompound (new b) fuel (readString (new b) 1).2 [] = .ok (value, stop) := hc
      exact ⟨stop, readCompound_end_inside _ _ _ _ _ hc2, hc2⟩
    | throw e => rw [hc] at hp2; cases hp2
    | outOfFuel => rw [hc] at hp2; cases hp2
    | unmodelled => rw [hc] at hp2; cases hp2
  · intro tag offset1 acc1 e ht hend hset hloop
    rw [readCompound_succ, ht]
    simp only [if_neg hend, hset, hloop]
  · intro e h10 hloop
    have hb : (readByte (new b) 0).1 = some 10 := h10
    have hloop2 : readCompound (new b) fuel (readString (new b) (0 + 1)).2 [] = .throw e :=
      hloop
    apply parse_throw_of_readTag
    show readTag (new b) (fuel + 1 + 1) 0 = _
    rw [readTag_succ, hb, if_neg (by decide), readTagPayload_compound, hloop2]

/-- C5 (witness): in the buffer 0A 00 00 03 00 02 63 74 00 00, a Compound cut inside the
payload of its Int field, the int at offset 8 reads as 0 and moves the offset to 12,
where the loop of `readCompound` raises the error; `parse` fails on this buffer, which is
the file of the empty compound without its End byte, followed by the Int entry `ct` with
two of its four payload bytes.  The file of the compound `sampleCompound` without its End
byte fails too. -/
theorem end_of_buffer_witness :
    byteAt (new [0x0A, 0, 0, 3, 0, 2, 0x63, 0x74, 0, 0]) 12 = none ∧
    readCompound (new [0x0A, 0, 0, 3, 0, 2, 0x63, 0x74, 0, 0]) 3 12 [("ct", .num 0)]
      = .throw (.unknownTagType none) ∧
    parse 6 [0x0A, 0, 0, 3, 0, 2, 0x63, 0x74, 0, 0] = .throw (.unknownTagType none) ∧
    (∃ w nameBytes : NBTWriter,
      writeTag NBTWriter.new 10 (.str "") (.obj []) = .ok w ∧
      NBTWriter.writeString ⟨[]⟩ (.str "ct") = .ok nameBytes ∧
      ∃ fuel0 : Nat, ∀ fuel1, fuel0 ≤ fuel1 →
        parse fuel1 (w.build.dropLast ++ 3 :: (nameBytes.buffer ++ [0, 0]))
          = .throw (.unknownTagType none)) ∧
    (∃ w : NBTWriter, writeTag NBTWriter.new 10 (.str "") (.obj sampleCompound) = .ok w ∧
      ∃ fuel0 : Nat, ∀ fuel1, fuel0 ≤ fuel1 →
        parse fuel1 w.build.dropLast = .throw (.unknownTagType none)) :=
  ⟨by decide,
   ((end_of_buffer [0x0A, 0, 0, 3, 0, 2, 0x63, 0x74, 0, 0] 12 0 [("ct", .num 0)]).1
      (by decide)).2,
   rfl,
   (end_of_buffer [] 0 0 []).2.2.2.2.2.2.2.2 [] "ct" 3 [0, 0] (by decide) (by decide)
     (by decide) (by decide) (by decide),
   (end_of_buffer [] 0 0 []).2.2.2.2.2.2.2.1 sampleCompound (by decide)⟩

/-- C6 (amended): when the byte that `readTag` reads as a tag type is none of the kinds 0
to 12, `readTag` raises "Unknown tag type", and so does `parse` when that byte is the
root type byte.  When the element-kind byte of a List is none of them, `readList` raises
the error if the declared count is at least 1; with a declared count of 0 or less no
payload is read and the List is decoded as an empty list of element type "unknown".
An error raised by a nested read, or by a later round of a loop, is passed on by
`readTag`, by the loops of `readList` and `readCompound`, and by `parse`.  In particular,
for every compound of the kinds of `roundTrips`, `parse` (given enough fuel) fails with
the error on the file in which the entries of the compound are followed by a type byte
from 13 to 255, and on the file in which they are followed by a List tag of an element
kind from 13 to 255 with a declared count of at least 1, whatever bytes come after; a
root List tag of such a kind and count makes `parse` fail as well. -/
theorem unknown_type_byte (b : List Nat) (offset : Int) (fuel : Nat)
    (h : unknownKind (readByte (new b) offset).1) :
    readTag (new b) (fuel + 2) offset
      = .throw (.unknownTagType (readByte (new b) offset).1) ∧
    (offset = 0 → parse (fuel + 2) b = .throw (.unknownTagType (readByte (new b) 0).1)) ∧
    (1 ≤ (readInt (new b) (offset + 1)).1 →
      readList (new b) (fuel + 3) offset
        = .throw (.unknownTagType (readByte (new b) offset).1)) ∧
    ((readInt (new b) (offset + 1)).1 ≤ 0 →
      readList (new b) (fuel + 1) offset
        = .ok (.obj [("elementType", .str "unknown"), ("elements", .arr [])], offset + 5)) ∧
    (∀ (f : Nat) (o : Int) (e : JSError),
      (∀ acc, readTag (new b) f o = .throw e → readCompound (new b) (f + 1) o acc = .throw e) ∧
      (∀ acc tag o1 acc1, readTag (new b) f o = .ok (tag, o1) → tag.type ≠ "end" →
        setField acc (tag.name.getD "undefined") tag.value = .ok acc1 →
        readCompound (new b) f o1 acc1 = .throw e →
        readCompound (new b) (f + 1) o acc = .throw e) ∧
      ((readByte (new b) o).1 ≠ some 0 →
        readTagPayload (new b) f (readString (new b) (o + 1)).2 (readByte (new b) o).1
          = .throw e →
        readTag (new b) (f + 1) o = .throw e) ∧
      (∀ type n acc, readTagPayload (new b) f o type = .throw e →
        readListLoop (new b) (f + 1) o type (n + 1) acc = .throw e) ∧
      (∀ type n acc v o1, readTagPayload (new b) f o type = .ok (v, o1) →
        readListLoop (new b) f o1 type n (v :: acc) = .throw e →
        readListLoop (new b) (f + 1) o type (n + 1) acc = .throw e) ∧
      (readListLoop (new b) f (o + 5) (readByte (new b) o).1
          (readInt (new b) (o + 1)).1.toNat [] = .throw e →
        readList (new b) (f + 1) o = .throw e) ∧
      (readList (new b) f o = .throw e →
        readTagPayload (new b) (f + 1) o (some 9) = .throw e) ∧
      (readCompound (new b) f o [] = .throw e →
        readTagPayload (new b) (f + 1) o (some 10) = .throw e) ∧
      (readTag (new b) f 0 = .throw e → parse f b = .throw e)) ∧
    (∀ (fields : List (String × JSValue)) (t : Nat) (tail : List Nat),
      roundTrips (.obj fields) = true → 13 ≤ t → t < 256 →
      ∃ w : NBTWriter, writeTag NBTWriter.new 10 (.str "") (.obj fields) = .ok w ∧
        ∃ fuel0 : Nat, ∀ fuel1, fuel0 ≤ fuel1 →
          parse fuel1 (w.build.dropLast ++ t :: tail) = .throw (.unknownTagType (some t))) ∧
    (∀ (fields : List (String × JSValue)) (name : String) (kind c1 c2 c3 c4 : Nat)
      (tail : List Nat),
      roundTrips (.obj fields) = true → stringRoundTrips name = true →
      13 ≤ kind ∧ kind < 256 → c1 < 256 ∧ c2 < 256 ∧ c3 < 256 ∧ c4 < 256 →
      1 ≤ toInt32 ((c1 : Int) * 2 ^ 24 + (c2 : Int) * 2 ^ 16 + (c3 : Int) * 2 ^ 8
        + (c4 : Int)) →
      ∃ w nameBytes : NBTWriter,
        writeTag NBTWriter.new 10 (.str "") (.obj fields) = .ok w ∧
        NBTWriter.writeString ⟨[]⟩ (.str name) = .ok nameBytes ∧
        ∃ fuel0 : Nat, ∀ fuel1, fuel0 ≤ fuel1 →
          parse fuel1 (w.build.dropLast
              ++ 9 :: (nameBytes.buffer ++ kind :: c1 :: c2 :: c3 :: c4 :: tail))
            = .throw (.unknownTagType (some kind))) ∧
    (∀ (name : String) (kind c1 c2 c3 c4 : Nat) (tail : List Nat),
      stringRoundTrips name = true →
      13 ≤ kind ∧ kind < 256 → c1 < 256 ∧ c2 < 256 ∧ c3 < 256 ∧ c4 < 256 →
      1 ≤ toInt32 ((c1 : Int) * 2 ^ 24 + (c2 : Int) * 2 ^ 16 + (c3 : Int) * 2 ^ 8
        + (c4 : Int)) →
      ∃ nameBytes : NBTWriter, NBTWriter.writeString ⟨[]⟩ (.str name) = .ok nameBytes ∧
        ∀ fuel1, parse (fuel1 + 5)
            (9 :: (nameBytes.buffer ++ kind :: c1 :: c2 :: c3 :: c4 :: tail))
          = .throw (.unknownTagType (some kind))) := by
  refine ⟨readTag_unknown _ _ _ h, ?_, ?_, ?_, ?_, ?_, ?_, ?_⟩
  · intro h0
    subst h0
    exact parse_throw_of_readTag b (fuel + 2) _ (readTag_unknown (new b) fuel 0 h)
  · intro hc
    exact readList_unknown _ _ _ h hc
  · intro hc
    have hn : (readInt (new b) (offset + 1)).1.toNat = 0 := by omega
    rw [readList_succ, hn, readListLoop_zero, getTagTypeName_unknown _ h]
    rfl
  · intro f o e
    refine ⟨fun acc => readCompound_throw_of_readTag _ _ _ _ _, ?_,
      readTag_throw_of_payload _ _ _ _, fun type n acc => readListLoop_throw_of_payload _ _ _ _ _ _ _,
      ?_, readList_throw_of_loop _ _ _ _, ?_, ?_, parse_throw_of_readTag _ _ _⟩
    · intro acc tag o1 acc1 ht hend hset hloop
      rw [readCompound_succ, ht]
      simp only [if_neg hend, hset, hloop]
    · intro type n acc v o1 hp hloop
      rw [readListLoop_succ, hp]
      exact hloop
    · intro h1
      show readList (new b) f o = _
      exact h1
    · intro h1
      show readCompound (new b) f o [] = _
      exact h1
  · intro fields t tail hr h13 h256
    exact parse_unknown_after_entries fields t tail hr h13 h256
  · intro fields name kind c1 c2 c3 c4 tail hr hname hkind hc hcount
    exact parse_list_after_entries fields name kind c1 c2 c3 c4 tail hr hname hkind hc hcount
  · intro name kind c1 c2 c3 c4 tail hname hkind hc hcount
    exact parse_root_list_unknown name kind c1 c2 c3 c4 tail hname hkind hc hcount

/-- C6 (witness): the root type byte 13 makes `parse` fail, and so does a root List of
element kind 99 with a declared count of 1.  In the buffer 0A 00 00 01 00 01 61 05 0D,
the compound with the field a = 5 followed by the type byte 13 in place of its End byte,
the error is raised after the entry a was read: `parse` fails and does not return the
compound. -/
theorem unknown_type_byte_witness :
    unknownKind (readByte (new [13, 0, 0]) 0).1 ∧
    parse 2 [13, 0, 0] = .throw (.unknownTagType (some 13)) ∧
    readList (new [9, 0, 0, 99, 0, 0, 0, 1]) 3 3 = .throw (.unknownTagType (some 99)) ∧
    parse 6 [10, 0, 0, 1, 0, 1, 97, 5, 13] = .throw (.unknownTagType (some 13)) ∧
    (∃ w : NBTWriter,
      writeTag NBTWriter.new 10 (.str "") (.obj [("a", .num 5)]) = .ok w ∧
      ∃ fuel0 : Nat, ∀ fuel1, fuel0 ≤ fuel1 →
        parse fuel1 (w.build.dropLast ++ 13 :: [1, 2, 3])
          = .throw (.unknownTagType (some 13))) ∧
    (∃ w nameBytes : NBTWriter,
      writeTag NBTWriter.new 10 (.str "") (.obj [("a", .num 5)]) = .ok w ∧
      NBTWriter.writeString ⟨[]⟩ (.str "l") = .ok nameBytes ∧
      ∃ fuel0 : Nat, ∀ fuel1, fuel0 ≤ fuel1 →
        parse fuel1 (w.build.dropLast ++ 9 :: (nameBytes.buffer ++ 99 :: 0 :: 0 :: 0 :: 2 :: []))
          = .throw (.unknownTagType (some 99))) :=
  ⟨fun n hn => by cases hn; decide,
   (unknown_type_byte [13, 0, 0] 0 0 (fun n hn => by cases hn; decide)).2.1 rfl,
   (unknown_type_byte [9, 0, 0, 99, 0, 0, 0, 1] 3 0 (fun n hn => by cases hn; decide)).2.2.1
     (by decide),
   rfl,
   (unknown_type_byte [13, 0, 0] 0 0 (fun n hn => by cases hn; decide)).2.2.2.2.2.1
     [("a", .num 5)] 13 [1, 2, 3] (by decide) (by decide) (by decide),
   (unknown_type_byte [13, 0, 0] 0 0 (fun n hn => by cases hn; decide)).2.2.2.2.2.2.1
     [("a", .num 5)] "l" 99 0 0 0 2 [] (by decide) (by decide) (by decide) (by decide)
     (by decide)⟩

end JoyOfPainting
